import Mathlib

/-!
# TrustRent portfolio reconciliation and invitation-token lifecycle

A shallow embedding of the portfolio-reconciliation core of the TrustRent
repository, together with proofs about it.

Embedded source files:
* `src/server/portfolioManager.ts` (`generateAccessToken`,
  `reserveAccessToken`, `savePortfolio`) — reconciliation of the desired
  company → buildings → units → renters tree against persisted state;
* `src/app/api/renters/register/route.ts` (`POST`) together with
  `src/server/renterAuth.ts` (`createRenterAccount`, `createRenterSession`)
  — redemption of an invitation token;
* `src/server/db/schema.ts` — the row shapes of the tables involved.

Modelling conventions:
* The relational store is a record of lists of rows.  SQL `INSERT` appends,
  `UPDATE ... WHERE id = x` maps over the list rewriting every row with
  that id, `DELETE ... WHERE id = x` filters, and the `ON DELETE CASCADE`
  foreign keys of `schema.ts` are applied explicitly by the delete helpers.
* `Math.random`-based token generation and `randomUUID()` are modelled by
  an explicit oracle of streams `Nat → String`; each call consumes the next
  index, exactly mirroring the order of the calls in the source.
* `db.transaction(async (tx) => ...)` is modelled with the transaction body
  as a function of the working state; if the body throws, the observable
  state is the state from before the transaction (the ACID rollback of the
  out-of-scope storage engine).  Inside the transaction body every query of
  `savePortfolio` goes through `tx` — except the collision check of
  `reserveAccessToken`, which queries through the pooled `db` handle and
  therefore sees only the state committed before the transaction opened.
  The embedding passes that pre-transaction snapshot to the allocator.
* `String.prototype.trim()` and `.toLowerCase()` are modelled by `jsTrim`
  and `jsToLower` below (ASCII case folding; the whitespace set is the
  usual space/tab/newline/carriage-return approximation of the JS one).
* `bcrypt.hash` is modelled as an uninterpreted function of the oracle.
-/

/-- ASCII case folding of one character, as `toLowerCase` acts on ASCII. -/
def jsLowerChar (c : Char) : Char :=
  if 65 ≤ c.toNat ∧ c.toNat ≤ 90 then Char.ofNat (c.toNat + 32) else c

/-- Model of `String.prototype.toLowerCase()` (ASCII range). -/
def jsToLower (s : String) : String :=
  ⟨s.data.map jsLowerChar⟩

/-- Whitespace as stripped by `String.prototype.trim()`. -/
def jsWsp (c : Char) : Bool :=
  c = ' ' ∨ c = '\t' ∨ c = '\n' ∨ c = '\r'

/-- Model of `String.prototype.trim()`: strip leading and trailing
whitespace. -/
def jsTrim (s : String) : String :=
  ⟨((s.data.dropWhile jsWsp).reverse.dropWhile jsWsp).reverse⟩

/-! ## Data model (rows of `src/server/db/schema.ts`) -/

/-- Row of `rental_companies`. -/
structure RentalCompany where
  id : String
  name : String
  contactEmail : Option String
  adminId : String
  createdAt : Nat
deriving DecidableEq

/-- Row of `apartment_buildings`. -/
structure ApartmentBuilding where
  id : String
  companyId : String
  name : String
  postalCode : String
  createdAt : Nat
deriving DecidableEq

/-- Row of `rental_units`. -/
structure RentalUnit where
  id : String
  apartmentId : String
  unitNumber : String
  createdAt : Nat
deriving DecidableEq

/-- Row of `renter_invitations`. -/
structure RenterInvitation where
  id : String
  unitId : String
  renterName : String
  renterEmail : String
  accessToken : String
  status : String
  createdAt : Nat
  activatedAt : Option Nat
deriving DecidableEq

/-- Row of `renters`. -/
structure Renter where
  id : String
  fullName : String
  email : String
  passwordHash : Option String
  phone : Option String
  apartmentName : String
  unitNumber : String
  companyId : Option String
  accessToken : Option String
  moveInDate : Option String
  moveOutDate : Option String
  createdAt : Nat
  updatedAt : Nat
deriving DecidableEq

/-- Row of `renter_sessions`. -/
structure RenterSession where
  id : String
  renterId : String
  token : String
  createdAt : Nat
  expiresAt : Nat
deriving DecidableEq

/-- The persisted state: the tables touched by reconciliation and
redemption. -/
structure DB where
  companies : List RentalCompany
  apartments : List ApartmentBuilding
  units : List RentalUnit
  invitations : List RenterInvitation
  renters : List Renter
  renterSessions : List RenterSession
deriving DecidableEq

/-- Sources of nondeterminism, passed explicitly: the stream of
`randomUUID()` results, the stream of 6-digit values produced by
`generateAccessToken` (`Math.floor(100000 + Math.random() * 900000)`),
and the `bcrypt` hash function. -/
structure Oracle where
  uuid : Nat → String
  tok : Nat → String
  hash : String → String

/-! ## Payload types of `savePortfolio` (`portfolioManager.ts`) -/

structure RenterInput where
  id : String
  fullName : String
  email : String
deriving DecidableEq

structure UnitInput where
  id : String
  unitNumber : String
  renters : List RenterInput
deriving DecidableEq

structure ApartmentInput where
  id : String
  name : String
  postalCode : String
  units : List UnitInput
deriving DecidableEq

structure SavePortfolioInput where
  companyName : String
  contactEmail : Option String
  apartments : List ApartmentInput
deriving DecidableEq

/-- Working state threaded through the transaction body: the database plus
the next unread index of each oracle stream. -/
structure St where
  db : DB
  u : Nat
  t : Nat

/-! ## savePortfolio (`src/server/portfolioManager.ts`) -/

/-- `payload.contactEmail?.trim() || null`. -/
def normContactEmail : Option String → Option String
  | none => none
  | some s => let t := jsTrim s; if t = "" then none else some t

/-- `reserveAccessToken` of `portfolioManager.ts`: up to 10 attempts, each
drawing the next random token and checking it against the invitation
table.  The existence check runs on the pooled `db` handle — not the open
transaction `tx` — so it sees only `snapTokens`, the access tokens of the
invitations committed before the transaction opened. -/
def reserveAccessToken (o : Oracle) (snapTokens : List String) :
    Nat → Nat → Except String (String × Nat)
  | 0, _ => .error "Unable to allocate a unique access token. Please try again."
  | fuel + 1, t =>
    let token := o.tok t
    if snapTokens.contains token then
      reserveAccessToken o snapTokens fuel (t + 1)
    else
      .ok (token, t + 1)

/-- `tx.delete(apartmentBuildings).where(eq(apartmentBuildings.id, aid))`,
with the `ON DELETE CASCADE` foreign keys of `schema.ts` applied: the
building's units go, and the invitations of those units go. -/
def deleteApartmentCascade (db : DB) (aid : String) : DB :=
  let removedUnitIds := (db.units.filter (fun u => u.apartmentId == aid)).map (fun u => u.id)
  { db with
    apartments := db.apartments.filter (fun b => !(b.id == aid)),
    units := db.units.filter (fun u => !(u.apartmentId == aid)),
    invitations := db.invitations.filter (fun i => !(removedUnitIds.contains i.unitId)) }

/-- `tx.delete(rentalUnits).where(eq(rentalUnits.id, uid))` with the
cascade to `renter_invitations`. -/
def deleteUnitCascade (db : DB) (uid : String) : DB :=
  { db with
    units := db.units.filter (fun u => !(u.id == uid)),
    invitations := db.invitations.filter (fun i => !(i.unitId == uid)) }

/-- The lookup of `existingEmails`, a JS `Map` built from the unit's
existing invitations keyed by `inv.renterEmail.toLowerCase()`.  A later
entry with the same key overwrites an earlier one, so the lookup returns
the last match. -/
def lookupLast (invs : List RenterInvitation) (key : String) : Option RenterInvitation :=
  invs.foldl (fun acc inv => if jsToLower inv.renterEmail == key then some inv else acc) none

/-- The loop `for (const inv of existingInvites) { if
(!payloadEmails.has(inv.renterEmail.toLowerCase())) delete ... }`. -/
def deleteStaleInvites (payloadEmails : List String) :
    List RenterInvitation → DB → DB
  | [], db => db
  | inv :: rest, db =>
    let db' :=
      if payloadEmails.contains (jsToLower inv.renterEmail) then db
      else { db with invitations := db.invitations.filter (fun i => !(i.id == inv.id)) }
    deleteStaleInvites payloadEmails rest db'

/-- One iteration of the `for (const renter of unit.renters)` loop:
skip blank entries, update only the renter name on an email match, and
otherwise allocate a token and insert a fresh pending invitation.  The
`INSERT` is checked against the table constraints: the primary key of
`renter_invitations` (`schema.ts`) and the unique index
`renter_access_token_unique` on `access_token` (created by the token
migration, step 4); a violating insert raises and aborts the
transaction. -/
def processRenter (o : Oracle) (snapTokens : List String) (now : Nat) (unitId : String)
    (existingInvites : List RenterInvitation) (r : RenterInput) (st : St) :
    Except String St :=
  let renterEmail := jsToLower (jsTrim r.email)
  let renterName := jsTrim r.fullName
  if renterEmail = "" ∨ renterName = "" then .ok st
  else
    match lookupLast existingInvites renterEmail with
    | some existingInv =>
      let invitations' := st.db.invitations.map (fun i =>
        if i.id == existingInv.id then { i with renterName := renterName } else i)
      .ok { st with db := { st.db with invitations := invitations' } }
    | none =>
      let invitationId := o.uuid st.u
      match reserveAccessToken o snapTokens 10 st.t with
      | .error e => .error e
      | .ok (accessToken, t') =>
        if st.db.invitations.any (fun i => i.id == invitationId) then
          .error "duplicate key value violates unique constraint renter_invitations_pkey"
        else if st.db.invitations.any (fun i => i.accessToken == accessToken) then
          .error "duplicate key value violates unique constraint renter_access_token_unique"
        else
          .ok { db := { st.db with invitations := st.db.invitations ++
                  [{ id := invitationId, unitId := unitId, renterName := renterName,
                     renterEmail := renterEmail, accessToken := accessToken,
                     status := "pending", createdAt := now, activatedAt := none }] },
                u := st.u + 1, t := t' }

def processRenters (o : Oracle) (snapTokens : List String) (now : Nat) (unitId : String)
    (existingInvites : List RenterInvitation) :
    List RenterInput → St → Except String St
  | [], st => .ok st
  | r :: rs, st =>
    match processRenter o snapTokens now unitId existingInvites r st with
    | .error e => .error e
    | .ok st' => processRenters o snapTokens now unitId existingInvites rs st'

/-- The loop `for (const unit of existingUnits) { if
(!payloadUnitIds.has(unit.id)) delete ... }`. -/
def deleteStaleUnits (payloadUnitIds : List String) :
    List RentalUnit → DB → DB
  | [], db => db
  | u :: rest, db =>
    let db' := if payloadUnitIds.contains u.id then db else deleteUnitCascade db u.id
    deleteStaleUnits payloadUnitIds rest db'

/-- One iteration of the `for (const unit of apartment.units)` loop:
skip a blank unit number, upsert the unit row, then reconcile its
invitations against the desired renter entries.  The insert branch
(taken when the unit id is not among this building's existing units) is
checked against the `rental_units` primary key of `schema.ts`: inserting
an id that exists anywhere in the table raises and aborts the
transaction. -/
def processUnit (o : Oracle) (snapTokens : List String) (now : Nat) (apartmentId : String)
    (existingUnitIds : List String) (unit : UnitInput) (st : St) :
    Except String St :=
  let unitNumber := jsTrim unit.unitNumber
  if unitNumber = "" then .ok st
  else if !existingUnitIds.contains unit.id && st.db.units.any (fun x => x.id == unit.id) then
    .error "duplicate key value violates unique constraint rental_units_pkey"
  else
    let db1 :=
      if existingUnitIds.contains unit.id then
        let units' := st.db.units.map (fun x =>
          if x.id == unit.id then { x with unitNumber := unitNumber } else x)
        { st.db with units := units' }
      else
        let row : RentalUnit :=
          { id := unit.id, apartmentId := apartmentId, unitNumber := unitNumber, createdAt := now }
        { st.db with units := st.db.units ++ [row] }
    let existingInvites := db1.invitations.filter (fun i => i.unitId == unit.id)
    let payloadEmails := unit.renters.map (fun r => jsToLower (jsTrim r.email))
    let db2 := deleteStaleInvites payloadEmails existingInvites db1
    processRenters o snapTokens now unit.id existingInvites unit.renters { st with db := db2 }

def processUnits (o : Oracle) (snapTokens : List String) (now : Nat) (apartmentId : String)
    (existingUnitIds : List String) :
    List UnitInput → St → Except String St
  | [], st => .ok st
  | u :: us, st =>
    match processUnit o snapTokens now apartmentId existingUnitIds u st with
    | .error e => .error e
    | .ok st' => processUnits o snapTokens now apartmentId existingUnitIds us st'

/-- The loop `for (const apt of existingApartments) { if
(!payloadAptIds.has(apt.id)) delete ... }`. -/
def deleteStaleApartments (payloadAptIds : List String) :
    List ApartmentBuilding → DB → DB
  | [], db => db
  | b :: rest, db =>
    let db' := if payloadAptIds.contains b.id then db else deleteApartmentCascade db b.id
    deleteStaleApartments payloadAptIds rest db'

/-- One iteration of the `for (const apartment of payload.apartments)`
loop: skip a blank name (the postal code is trimmed but never checked),
upsert the building row, diff-and-delete its units, then process its
units.  The insert branch (taken when the building id is not among the
company's existing buildings) is checked against the
`apartment_buildings` primary key of `schema.ts`: inserting an id that
exists anywhere in the table raises and aborts the transaction. -/
def processApartment (o : Oracle) (snapTokens : List String) (now : Nat) (companyId : String)
    (existingAptIds : List String) (apartment : ApartmentInput) (st : St) :
    Except String St :=
  let apartmentName := jsTrim apartment.name
  if apartmentName = "" then .ok st
  else if !existingAptIds.contains apartment.id &&
      st.db.apartments.any (fun b => b.id == apartment.id) then
    .error "duplicate key value violates unique constraint apartment_buildings_pkey"
  else
    let db1 :=
      if existingAptIds.contains apartment.id then
        let apartments' := st.db.apartments.map (fun b =>
          if b.id == apartment.id then
            { b with name := apartmentName, postalCode := jsTrim apartment.postalCode }
          else b)
        { st.db with apartments := apartments' }
      else
        let row : ApartmentBuilding :=
          { id := apartment.id, companyId := companyId, name := apartmentName,
            postalCode := jsTrim apartment.postalCode, createdAt := now }
        { st.db with apartments := st.db.apartments ++ [row] }
    let existingUnits := db1.units.filter (fun u => u.apartmentId == apartment.id)
    let existingUnitIds := existingUnits.map (fun u => u.id)
    let payloadUnitIds := apartment.units.map (fun u => u.id)
    let db2 := deleteStaleUnits payloadUnitIds existingUnits db1
    processUnits o snapTokens now apartment.id existingUnitIds apartment.units { st with db := db2 }

def processApartments (o : Oracle) (snapTokens : List String) (now : Nat) (companyId : String)
    (existingAptIds : List String) :
    List ApartmentInput → St → Except String St
  | [], st => .ok st
  | a :: as', st =>
    match processApartment o snapTokens now companyId existingAptIds a st with
    | .error e => .error e
    | .ok st' => processApartments o snapTokens now companyId existingAptIds as' st'

/-- The company id used by `savePortfolio`: the id of the admin's first
existing company (`limit 1`), or a fresh `randomUUID()`. -/
def companyIdOf (o : Oracle) (adminId : String) (db0 : DB) : String :=
  match db0.companies.find? (fun c => c.adminId == adminId) with
  | some c => c.id
  | none => o.uuid 0

/-- The body of the `db.transaction` callback of `savePortfolio`: company
upsert, building diff-and-delete, then the nested upsert loops.  Returns
the committed state, or the thrown error.  The company insert branch is
checked against the `rental_companies` primary key of `schema.ts`. -/
def savePortfolioTx (o : Oracle) (adminId : String) (payload : SavePortfolioInput)
    (now : Nat) (db0 : DB) : Except String DB :=
  let trimmedCompanyName := jsTrim payload.companyName
  let existingCompany := db0.companies.find? (fun c => c.adminId == adminId)
  let companyId := companyIdOf o adminId db0
  let u0 : Nat := match existingCompany with | some _ => 0 | none => 1
  let snapTokens := db0.invitations.map (fun i => i.accessToken)
  if existingCompany.isNone && db0.companies.any (fun c => c.id == companyId) then
    .error "duplicate key value violates unique constraint rental_companies_pkey"
  else
  let db1 := match existingCompany with
      | some _ =>
        let companies' := db0.companies.map (fun c =>
          if c.id == companyId then
            { c with name := trimmedCompanyName,
                     contactEmail := normContactEmail payload.contactEmail }
          else c)
        { db0 with companies := companies' }
      | none =>
        let row : RentalCompany :=
          { id := companyId, name := trimmedCompanyName,
            contactEmail := normContactEmail payload.contactEmail,
            adminId := adminId, createdAt := now }
        { db0 with companies := db0.companies ++ [row] }
    let existingApartments := db1.apartments.filter (fun b => b.companyId == companyId)
    let existingAptIds := existingApartments.map (fun b => b.id)
    let payloadAptIds := payload.apartments.map (fun a => a.id)
    let db2 := deleteStaleApartments payloadAptIds existingApartments db1
    match processApartments o snapTokens now companyId existingAptIds payload.apartments
        { db := db2, u := u0, t := 0 } with
    | .error e => .error e
    | .ok st => .ok st.db

/-- `savePortfolio(adminId, payload)`: validation before the transaction
opens, then the whole body inside one `db.transaction`.  The result pairs
the outcome (`{ companyId }` on success) with the observable database
state: when the body throws, the transaction rolls back and the
observable state is the input state. -/
def savePortfolio (o : Oracle) (adminId : String) (payload : SavePortfolioInput)
    (now : Nat) (db0 : DB) : Except String String × DB :=
  if jsTrim payload.companyName = "" then (.error "Company name is required", db0)
  else
    match savePortfolioTx o adminId payload now db0 with
    | .error e => (.error e, db0)
    | .ok db' => (.ok (companyIdOf o adminId db0), db')

/-! ## Redemption (`src/app/api/renters/register/route.ts` with
`createRenterAccount` / `createRenterSession` of `src/server/renterAuth.ts`)

The embedding starts after the zod schema has accepted the request body,
at the token lookup.  The route has no surrounding transaction: each
statement commits on its own, so the embedding exposes the state after
every prefix of the write sequence. -/

inductive RedeemError where
  | tokenNotFound
  | alreadyUsed
  | emailMismatch
  | renterExists
deriving DecidableEq

/-- Arguments of the registration request after validation. -/
structure RedeemArgs where
  token : String
  fullName : String
  email : String
  password : String
deriving DecidableEq

/-- One row of the `renterInvitations ⋈ rentalUnits ⋈ apartmentBuildings`
inner join, for a given invitation: the invitation together with its unit
and building, provided the token matches and both joins resolve. -/
def joinRow (units : List RentalUnit) (apts : List ApartmentBuilding)
    (token : String) (inv : RenterInvitation) :
    Option (RenterInvitation × RentalUnit × ApartmentBuilding) :=
  if inv.accessToken == token then
    match units.find? (fun u => u.id == inv.unitId) with
    | none => none
    | some u =>
      match apts.find? (fun b => b.id == u.apartmentId) with
      | none => none
      | some b => some (inv, u, b)
  else none

/-- The `select ... from renterInvitations innerJoin rentalUnits innerJoin
apartmentBuildings where accessToken = token limit 1` lookup: the first
invitation whose token matches and whose unit and building resolve. -/
def findInvitationByToken (db : DB) (token : String) :
    Option (RenterInvitation × RentalUnit × ApartmentBuilding) :=
  db.invitations.findSome? (joinRow db.units db.apartments token)

/-- All checks of the redemption path, in source order: token lookup
(404), `invitation.status === "used"`, the case-insensitive email match,
and `createRenterAccount`'s duplicate-renter check.  No write happens
before the last check passes. -/
def redeemChecks (db : DB) (a : RedeemArgs) :
    Except RedeemError (RenterInvitation × RentalUnit × ApartmentBuilding) :=
  match findInvitationByToken db a.token with
  | none => .error .tokenNotFound
  | some (inv, u, b) =>
    if inv.status == "used" then .error .alreadyUsed
    else if !(jsToLower a.email == jsToLower inv.renterEmail) then .error .emailMismatch
    else if db.renters.any (fun r => r.email == jsToLower (jsToLower a.email)) then
      .error .renterExists
    else .ok (inv, u, b)

/-- The renter row inserted by `createRenterAccount`: the route passes
`email.toLowerCase()` and `fullName.trim()`, and `createRenterAccount`
lowercases / trims once more before the insert. -/
def mkRenterRow (o : Oracle) (now : Nat) (a : RedeemArgs)
    (u : RentalUnit) (b : ApartmentBuilding) : Renter :=
  { id := o.uuid 0
    fullName := jsTrim (jsTrim a.fullName)
    email := jsToLower (jsToLower a.email)
    passwordHash := some (o.hash a.password)
    phone := none
    apartmentName := jsTrim b.name
    unitNumber := jsTrim u.unitNumber
    companyId := if b.companyId == "" then none else some b.companyId
    accessToken := none
    moveInDate := none
    moveOutDate := none
    createdAt := now
    updatedAt := now }

/-- The write sequence of a redemption whose checks passed, in statement
order: insert the renter row, delete that renter's sessions, insert the
fresh session, then mark the invitation used.  Each statement is its own
implicit transaction. -/
def redeemWrites (o : Oracle) (now : Nat) (a : RedeemArgs) (invId : String)
    (u : RentalUnit) (b : ApartmentBuilding) : List (DB → DB) :=
  let renterId := o.uuid 0
  let sessionRow : RenterSession :=
    { id := o.uuid 1, renterId := renterId, token := o.uuid 2,
      createdAt := now, expiresAt := now + 1000 * 60 * 60 * 24 * 30 }
  [ fun db => { db with renters := db.renters ++ [mkRenterRow o now a u b] },
    fun db => { db with renterSessions := db.renterSessions.filter (fun s => !(s.renterId == renterId)) },
    fun db => { db with renterSessions := db.renterSessions ++ [sessionRow] },
    fun db =>
      let invitations' := db.invitations.map (fun i =>
        if i.id == invId then { i with status := "used", activatedAt := some now } else i)
      { db with invitations := invitations' } ]

def applyWrites (ws : List (DB → DB)) (db : DB) : DB :=
  ws.foldl (fun d f => f d) db

/-- The state observable after the first `k` statements of a redemption:
since the route wraps no transaction around them, an interruption after
`k` statements leaves exactly this state committed. -/
def redeemPartial (o : Oracle) (now : Nat) (a : RedeemArgs) (db : DB) (k : Nat) : DB :=
  match redeemChecks db a with
  | .error _ => db
  | .ok (inv, u, b) => applyWrites ((redeemWrites o now a inv.id u b).take k) db

/-- The full redemption: outcome (renter id on success) paired with the
resulting state.  An error path performs no write. -/
def redeem (o : Oracle) (now : Nat) (a : RedeemArgs) (db : DB) :
    Except RedeemError String × DB :=
  match redeemChecks db a with
  | .error e => (.error e, db)
  | .ok (inv, u, b) => (.ok (o.uuid 0), applyWrites (redeemWrites o now a inv.id u b) db)

/-- A sequence of redemption calls, each seeing the state the previous one
left behind. -/
def redeemMany : List (Oracle × Nat × RedeemArgs) → DB → DB
  | [], db => db
  | (o, n, a) :: rest, db => redeemMany rest (redeem o n a db).2

/-- The token resolves (via the inner join) to an invitation that is
already marked `used`. -/
def tokenConsumed (db : DB) (t : String) : Prop :=
  ∃ inv u b, findInvitationByToken db t = some (inv, u, b) ∧ inv.status = "used"

/-- All fields of two invitation rows agree except possibly the renter
name (the only field reconciliation may update in place). -/
def invSameCore (i i0 : RenterInvitation) : Prop :=
  i.id = i0.id ∧ i.unitId = i0.unitId ∧ i.renterEmail = i0.renterEmail ∧
  i.accessToken = i0.accessToken ∧ i.status = i0.status ∧
  i.createdAt = i0.createdAt ∧ i.activatedAt = i0.activatedAt

/-- Provenance of the invitation table during a reconciliation run that
started from the rows `base` and has consumed uuid indices `[u0, st.u)`:
every present row either descends from a `base` row (all fields except the
renter name unchanged) or is a fresh insert whose id was drawn from the
uuid stream during this run. -/
def invProvenance (base : List RenterInvitation) (o : Oracle) (u0 : Nat) (st : St) : Prop :=
  u0 ≤ st.u ∧
  ∀ i ∈ st.db.invitations,
    (∃ i0 ∈ base, invSameCore i i0) ∨ (∃ j, u0 ≤ j ∧ j < st.u ∧ i.id = o.uuid j)

/-- Pairwise distinctness of lowercased renter emails among invitations of
the same unit, over a list of invitation rows. -/
def emailKeyUnique (l : List RenterInvitation) : Prop :=
  l.Pairwise (fun i j => i.unitId = j.unitId → jsToLower i.renterEmail ≠ jsToLower j.renterEmail)

/-- Per-unit case-insensitive email uniqueness of the invitation table. -/
def perUnitEmailUnique (db : DB) : Prop :=
  emailKeyUnique db.invitations

/-- The normalized email keys of a unit's desired renter entries. -/
def unitEmailKeys (u : UnitInput) : List String :=
  u.renters.map (fun r => jsToLower (jsTrim r.email))

/-- Global token uniqueness: the access tokens of the stored invitations
are pairwise distinct. -/
def tokensUnique (db : DB) : Prop :=
  (db.invitations.map (fun i => i.accessToken)).Nodup

/-- A sequence of `savePortfolio` calls, each with its own oracle, admin,
payload and clock; every call observes the state committed by the
previous one. -/
def savePortfolioMany : List (Oracle × String × SavePortfolioInput × Nat) → DB → DB
  | [], db => db
  | c :: cs, db => savePortfolioMany cs (savePortfolio c.1 c.2.1 c.2.2.1 c.2.2.2 db).2

/-- The state a successful reconciliation of `(adminId, p)` leaves behind:
running `savePortfolio` again with the same payload finds every desired
row already in its desired shape and nothing stale, so the second run
rewrites only values that are already stored.  Each field corresponds to
one branch of the reconciliation loops. -/
structure IdemReady (adminId : String) (p : SavePortfolioInput) (cid : String) (db : DB) : Prop where
  companyName_ok : jsTrim p.companyName ≠ ""
  company_found : ∃ c, db.companies.find? (fun c => c.adminId == adminId) = some c ∧ c.id = cid
  company_fields : ∀ c ∈ db.companies, c.id = cid →
    c.name = jsTrim p.companyName ∧ c.contactEmail = normContactEmail p.contactEmail
  apt_no_stale : ∀ b ∈ db.apartments, b.companyId = cid →
    b.id ∈ p.apartments.map (fun a => a.id)
  apt_exists : ∀ a ∈ p.apartments, jsTrim a.name ≠ "" →
    ∃ b ∈ db.apartments, b.companyId = cid ∧ b.id = a.id
  apt_fields : ∀ a ∈ p.apartments, jsTrim a.name ≠ "" → ∀ b ∈ db.apartments, b.id = a.id →
    b.name = jsTrim a.name ∧ b.postalCode = jsTrim a.postalCode
  unit_no_stale : ∀ a ∈ p.apartments, jsTrim a.name ≠ "" →
    ∀ w ∈ db.units, w.apartmentId = a.id → w.id ∈ a.units.map (fun x => x.id)
  unit_exists : ∀ a ∈ p.apartments, jsTrim a.name ≠ "" →
    ∀ u ∈ a.units, jsTrim u.unitNumber ≠ "" →
      ∃ w ∈ db.units, w.apartmentId = a.id ∧ w.id = u.id
  unit_fields : ∀ a ∈ p.apartments, jsTrim a.name ≠ "" →
    ∀ u ∈ a.units, jsTrim u.unitNumber ≠ "" →
      ∀ w ∈ db.units, w.id = u.id → w.unitNumber = jsTrim u.unitNumber
  inv_no_stale : ∀ a ∈ p.apartments, jsTrim a.name ≠ "" →
    ∀ u ∈ a.units, jsTrim u.unitNumber ≠ "" →
      ∀ i ∈ db.invitations, i.unitId = u.id →
        jsToLower i.renterEmail ∈ unitEmailKeys u
  inv_matched : ∀ a ∈ p.apartments, jsTrim a.name ≠ "" →
    ∀ u ∈ a.units, jsTrim u.unitNumber ≠ "" →
      ∀ r ∈ u.renters, jsToLower (jsTrim r.email) ≠ "" → jsTrim r.fullName ≠ "" →
        ∃ tgt, lookupLast (db.invitations.filter (fun i => i.unitId == u.id))
            (jsToLower (jsTrim r.email)) = some tgt ∧
          ∀ i ∈ db.invitations, i.id = tgt.id → i.renterName = jsTrim r.fullName

/-! ## Concrete fixtures for witnesses and counterexamples -/

/-- The empty database. -/
def dbEmpty : DB :=
  { companies := [], apartments := [], units := [], invitations := [],
    renters := [], renterSessions := [] }

/-- An oracle whose streams are injective: the `k`-th uuid is `k + 1`
copies of `'u'`, the `t`-th random token is `t + 1` copies of `'1'`. -/
def oFix : Oracle :=
  { uuid := fun k => String.mk (List.replicate (k + 1) 'u'),
    tok := fun t => String.mk (List.replicate (t + 1) '1'),
    hash := fun s => s }

/-- An oracle whose random-token stream always yields `"123456"`,
modelling `Math.random` repeating a value. -/
def oDup : Oracle :=
  { uuid := fun k => String.mk (List.replicate (k + 1) 'u'),
    tok := fun _ => "123456",
    hash := fun s => s }

def fixCompany : RentalCompany :=
  { id := "c1", name := "Acme", contactEmail := none, adminId := "adm", createdAt := 0 }

def fixApt : ApartmentBuilding :=
  { id := "a1", companyId := "c1", name := "Maple", postalCode := "10001", createdAt := 0 }

def fixUnit : RentalUnit :=
  { id := "un1", apartmentId := "a1", unitNumber := "4B", createdAt := 0 }

def fixInvPending : RenterInvitation :=
  { id := "i1", unitId := "un1", renterName := "Jane Doe", renterEmail := "jane@x.com",
    accessToken := "123456", status := "pending", createdAt := 0, activatedAt := none }

def fixInvUsed : RenterInvitation :=
  { id := "i1", unitId := "un1", renterName := "Jane Doe", renterEmail := "jane@x.com",
    accessToken := "123456", status := "used", createdAt := 0, activatedAt := some 1 }

/-- A company with one building, one unit and one pending invitation. -/
def fixDb : DB :=
  { companies := [fixCompany], apartments := [fixApt], units := [fixUnit],
    invitations := [fixInvPending], renters := [], renterSessions := [] }

/-- Same, but the invitation has already been redeemed. -/
def fixDbUsed : DB :=
  { companies := [fixCompany], apartments := [fixApt], units := [fixUnit],
    invitations := [fixInvUsed], renters := [], renterSessions := [] }

/-- A redemption request matching `fixInvPending` (email differs only in
case). -/
def fixArgs : RedeemArgs :=
  { token := "123456", fullName := "Jane Doe", email := "Jane@X.com", password := "pw123456" }

/-- A redemption request whose email does not match the invitation. -/
def fixArgsMismatch : RedeemArgs :=
  { token := "123456", fullName := "Eve", email := "eve@x.com", password := "pw123456" }

def rJane : RenterInput := { id := "r1", fullName := " Jane Doe ", email := " Jane@X.com " }

def rBob : RenterInput := { id := "r2", fullName := "Bob Roe", email := "bob@x.com" }

def unOne : UnitInput := { id := "un1", unitNumber := "4B", renters := [rJane] }

def aptOne : ApartmentInput :=
  { id := "a1", name := "Maple", postalCode := " 10001 ", units := [unOne] }

/-- One company, one building, one unit, one renter. -/
def payOne : SavePortfolioInput :=
  { companyName := " Acme ", contactEmail := some "x@y.z ", apartments := [aptOne] }

def unTwo : UnitInput := { id := "un1", unitNumber := "4B", renters := [rJane, rBob] }

def aptTwo : ApartmentInput :=
  { id := "a1", name := "Maple", postalCode := "10001", units := [unTwo] }

/-- Same tree with two renters in the unit. -/
def payTwo : SavePortfolioInput :=
  { companyName := "Acme", contactEmail := none, apartments := [aptTwo] }

def aptPostal : ApartmentInput := { id := "ap", name := "A", postalCode := " ", units := [] }

/-- A tree whose only building has a blank-after-trim postal code. -/
def payPostal : SavePortfolioInput :=
  { companyName := "Acme", contactEmail := none, apartments := [aptPostal] }

/-- A tree adding a renter to the existing unit of `fixDb` (used with the
collision-prone oracle `oDup` to exhaust the allocator). -/
def payExhaust : SavePortfolioInput :=
  { companyName := "Acme", contactEmail := none, apartments := [aptTwo] }

/-- Like `oFix`, but the `t`-th random token is `t + 1` copies of `'2'`
(the second call's `Math.random` draws differ from the first call's). -/
def oFix2 : Oracle :=
  { uuid := fun k => String.mk (List.replicate (k + 1) 'u'),
    tok := fun t => String.mk (List.replicate (t + 1) '2'),
    hash := fun s => s }

/-- An oracle with a constant uuid stream (a single fresh id suffices for
runs that insert at most one row). -/
def oConstU : Oracle :=
  { uuid := fun _ => "w1",
    tok := fun t => String.mk (List.replicate (t + 1) '1'),
    hash := fun s => s }

def aptBlank : ApartmentInput := { id := "ab", name := " ", postalCode := "10001", units := [] }

def unBlank : UnitInput := { id := "ub", unitNumber := " ", renters := [] }

def rBlankName : RenterInput := { id := "rb", fullName := " ", email := "x@y.z" }

def stFix : St := { db := fixDb, u := 0, t := 0 }

/-- A second redemption request with the same token as `fixArgs`. -/
def fixArgsSecond : RedeemArgs :=
  { token := "123456", fullName := "John Doe", email := "jane@x.com", password := "pw2" }

/-- The renter account created when Jane redeemed her invitation. -/
def fixRenter : Renter :=
  { id := "r9", fullName := "Jane Doe", email := "jane@x.com",
    passwordHash := some "pw123456", phone := none, apartmentName := "Maple",
    unitNumber := "4B", companyId := some "c1", accessToken := none,
    moveInDate := none, moveOutDate := none, createdAt := 1, updatedAt := 1 }

/-- `fixDbUsed` together with the renter account from the redemption. -/
def fixDbUsedR : DB :=
  { companies := [fixCompany], apartments := [fixApt], units := [fixUnit],
    invitations := [fixInvUsed], renters := [fixRenter], renterSessions := [] }

def unEmpty : UnitInput := { id := "un1", unitNumber := "4B", renters := [] }

def aptOmit : ApartmentInput :=
  { id := "a1", name := "Maple", postalCode := "10001", units := [unEmpty] }

/-- The same tree as before, but Jane's entry is removed from the unit. -/
def payOmit : SavePortfolioInput :=
  { companyName := "Acme", contactEmail := none, apartments := [aptOmit] }

def rDup1 : RenterInput := { id := "r1", fullName := "N1", email := "dup@x.com" }

def rDup2 : RenterInput := { id := "r2", fullName := "N2", email := " Dup@X.com " }

def unDup : UnitInput := { id := "un1", unitNumber := "4B", renters := [rDup1, rDup2] }

def aptDup : ApartmentInput :=
  { id := "a1", name := "Maple", postalCode := "10001", units := [unDup] }

/-- A tree listing the same (normalized) email twice under one unit. -/
def payDupEmail : SavePortfolioInput :=
  { companyName := "Acme", contactEmail := none, apartments := [aptDup] }

def rCross1 : RenterInput := { id := "r1", fullName := "N1", email := "e1@x.com" }

def rCross2 : RenterInput := { id := "r2", fullName := "N2", email := "e2@x.com" }

def unSameA : UnitInput := { id := "un1", unitNumber := "4B", renters := [rCross1] }

def unSameB : UnitInput := { id := "un1", unitNumber := "4B", renters := [rCross2] }

def aptSame : ApartmentInput :=
  { id := "a1", name := "Maple", postalCode := "10001", units := [unSameA, unSameB] }

/-- A tree listing the same unit id twice under its building, with a
different renter in each of the two occurrences. -/
def paySameUnit : SavePortfolioInput :=
  { companyName := "Acme", contactEmail := none, apartments := [aptSame] }

/-- `fixDb` without the invitation: the company, the building and the
unit already exist, so every upsert of the tree takes an update branch. -/
def fixDbNoInv : DB :=
  { companies := [fixCompany], apartments := [fixApt], units := [fixUnit],
    invitations := [], renters := [], renterSessions := [] }

/-- Like `oFix2` but with a distinct uuid stream: the second call's
`randomUUID` draws (`'v'`s) differ from the first call's (`'u'`s). -/
def oFix3 : Oracle :=
  { uuid := fun k => String.mk (List.replicate (k + 1) 'v'),
    tok := fun t => String.mk (List.replicate (t + 1) '2'),
    hash := fun s => s }

/-! ## Basic lemmas about the string model -/

theorem char_toNat_ofNat_valid {n : Nat} (h : Nat.isValidChar n) :
    (Char.ofNat n).toNat = n := by
  unfold Char.ofNat
  rw [dif_pos h]
  rfl

theorem jsLowerChar_idem (c : Char) : jsLowerChar (jsLowerChar c) = jsLowerChar c := by
  by_cases h : 65 ≤ c.toNat ∧ c.toNat ≤ 90
  · have ht : (Char.ofNat (c.toNat + 32)).toNat = c.toNat + 32 :=
      char_toNat_ofNat_valid (Or.inl (by omega))
    unfold jsLowerChar
    rw [if_pos h, if_neg (by rw [ht]; omega)]
  · unfold jsLowerChar
    rw [if_neg h, if_neg h]

theorem jsToLower_idem (s : String) : jsToLower (jsToLower s) = jsToLower s := by
  unfold jsToLower
  simp only [List.map_map]
  congr 1
  exact List.map_congr_left (fun c _ => jsLowerChar_idem c)

/-! ## C3 — reconcile is all-or-nothing -/

/-- C3: for every input, whenever `savePortfolio` reports an error —
validation failure before the transaction, allocator exhaustion, or any
other throw inside the transaction body — the observable database state
is exactly the state from before the call. -/
theorem savePortfolio_error_rollback (o : Oracle) (adminId : String)
    (p : SavePortfolioInput) (now : Nat) (db : DB) (e : String)
    (h : (savePortfolio o adminId p now db).1 = .error e) :
    (savePortfolio o adminId p now db).2 = db := by
  unfold savePortfolio at h ⊢
  by_cases hc : jsTrim p.companyName = ""
  · rw [if_pos hc]
  · rw [if_neg hc] at h ⊢
    cases htx : savePortfolioTx o adminId p now db with
    | error e2 => rfl
    | ok db2 => rw [htx] at h; simp at h

/-- Witness for C3: a run against `fixDb` whose token allocator exhausts
its 10 attempts in the middle of the transaction — after the company,
building and unit rows were already written in the transaction — errors
out and leaves the database exactly as it was. -/
theorem savePortfolio_error_rollback_witness :
    (savePortfolio oDup "adm" payExhaust 7 fixDb).1 =
      .error "Unable to allocate a unique access token. Please try again." ∧
    (savePortfolio oDup "adm" payExhaust 7 fixDb).2 = fixDb :=
  ⟨by rfl,
   savePortfolio_error_rollback oDup "adm" payExhaust 7 fixDb
     "Unable to allocate a unique access token. Please try again." (by rfl)⟩

/-! ## C10 — blank-after-trim entries -/

/-- C10 (amended): a building entry whose name is blank after trimming, a
unit entry whose unit number is blank after trimming, or a renter entry
whose email or name is blank after trimming, is silently skipped: its
processing step returns the state unchanged and raises no error, and the
loop continues with the rest of the payload.  (The postal code is not
part of this check — see the counterexample.) -/
theorem blank_entries_skipped (o : Oracle) (snap : List String) (now : Nat)
    (cid aid uid : String) (aptIds unitIds : List String)
    (a : ApartmentInput) (u : UnitInput) (r : RenterInput)
    (invs : List RenterInvitation) (st : St) :
    (jsTrim a.name = "" → processApartment o snap now cid aptIds a st = .ok st) ∧
    (jsTrim u.unitNumber = "" → processUnit o snap now aid unitIds u st = .ok st) ∧
    (jsToLower (jsTrim r.email) = "" ∨ jsTrim r.fullName = "" →
      processRenter o snap now uid invs r st = .ok st) := by
  refine ⟨fun h => ?_, fun h => ?_, fun h => ?_⟩
  · unfold processApartment
    simp [h]
  · unfold processUnit
    simp [h]
  · unfold processRenter
    rw [if_pos h]

/-- Witness for C10: concrete blank-after-trim building, unit and renter
entries are all skipped without an error. -/
theorem blank_entries_skipped_witness :
    jsTrim aptBlank.name = "" ∧ jsTrim unBlank.unitNumber = "" ∧ jsTrim rBlankName.fullName = "" ∧
    processApartment oFix [] 0 "c1" [] aptBlank stFix = .ok stFix ∧
    processUnit oFix [] 0 "a1" [] unBlank stFix = .ok stFix ∧
    processRenter oFix [] 0 "un1" [] rBlankName stFix = .ok stFix :=
  ⟨by decide, by decide, by decide,
   (blank_entries_skipped oFix [] 0 "c1" "a1" "un1" [] [] aptBlank unBlank rBlankName [] stFix).1
     (by decide),
   (blank_entries_skipped oFix [] 0 "c1" "a1" "un1" [] [] aptBlank unBlank rBlankName [] stFix).2.1
     (by decide),
   (blank_entries_skipped oFix [] 0 "c1" "a1" "un1" [] [] aptBlank unBlank rBlankName [] stFix).2.2
     (Or.inr (by decide))⟩

/-- Counterexample for C10 as stated: a building whose postal code is
blank after trimming is *not* skipped — `savePortfolio` inserts the
building row with an empty postal code (only the name is checked). -/
theorem blank_postal_not_skipped :
    (savePortfolio oFix "adm" payPostal 7 dbEmpty).1 = .ok "u" ∧
    (savePortfolio oFix "adm" payPostal 7 dbEmpty).2.apartments.map
      (fun b => (b.id, b.postalCode)) = [("ap", "")] :=
  ⟨by rfl, by rfl⟩

/-! ## C6 — email-bound redemption -/

/-- C6 (amended): when the token resolves to a *pending* invitation and
the supplied email differs case-insensitively from the invitation's
stored renter email, redemption fails with `EmailMismatch` and performs
no writes.  (For an already-used invitation the `AlreadyUsed` check fires
first — see the counterexample.) -/
theorem redeem_email_mismatch (o : Oracle) (now : Nat) (a : RedeemArgs) (db : DB)
    (inv : RenterInvitation) (u : RentalUnit) (b : ApartmentBuilding)
    (hfind : findInvitationByToken db a.token = some (inv, u, b))
    (hpend : inv.status ≠ "used")
    (hne : jsToLower a.email ≠ jsToLower inv.renterEmail) :
    redeem o now a db = (.error .emailMismatch, db) := by
  unfold redeem redeemChecks
  rw [hfind]
  dsimp only
  rw [if_neg (by simpa using hpend)]
  rw [if_pos (by simpa using hne)]

/-- Witness for C6: a pending invitation with a mismatched email fails
with `EmailMismatch`, leaving the state untouched. -/
theorem redeem_email_mismatch_witness :
    redeem oFix 9 fixArgsMismatch fixDb = (.error .emailMismatch, fixDb) :=
  redeem_email_mismatch oFix 9 fixArgsMismatch fixDb fixInvPending fixUnit fixApt
    (by rfl) (by decide) (by decide)

/-- Counterexample for C6 as stated: for a *used* invitation the status
check precedes the email check, so a mismatched email yields
`AlreadyUsed`, not `EmailMismatch`. -/
theorem used_invitation_mismatch_already_used :
    redeem oFix 9 fixArgsMismatch fixDbUsed = (.error .alreadyUsed, fixDbUsed) ∧
    RedeemError.alreadyUsed ≠ RedeemError.emailMismatch :=
  ⟨by rfl, by decide⟩

/-! ## C5 — redemption writes -/

/-- C5 (amended): a successful redemption performs both effects — it
appends the renter row built from the invitation's unit and building, and
it marks the invitation used with activation timestamp `now`.  The two
writes are separate autocommitted statements, not one transaction; see
the counterexample for the partially-written state. -/
theorem redeem_success_both_writes (o : Oracle) (now : Nat) (a : RedeemArgs) (db : DB)
    (inv : RenterInvitation) (u : RentalUnit) (b : ApartmentBuilding)
    (hchecks : redeemChecks db a = .ok (inv, u, b)) :
    (redeem o now a db).1 = .ok (o.uuid 0) ∧
    (redeem o now a db).2.renters = db.renters ++ [mkRenterRow o now a u b] ∧
    (redeem o now a db).2.invitations = db.invitations.map (fun i =>
      if i.id == inv.id then { i with status := "used", activatedAt := some now } else i) := by
  unfold redeem
  rw [hchecks]
  refine ⟨rfl, ?_, ?_⟩ <;> simp [applyWrites, redeemWrites]

/-- Witness for C5: Jane's successful redemption against `fixDb` creates
her renter row and marks invitation `i1` used. -/
theorem redeem_success_both_writes_witness :
    (redeem oFix 9 fixArgs fixDb).1 = .ok (oFix.uuid 0) ∧
    (redeem oFix 9 fixArgs fixDb).2.renters =
      fixDb.renters ++ [mkRenterRow oFix 9 fixArgs fixUnit fixApt] ∧
    (redeem oFix 9 fixArgs fixDb).2.invitations = fixDb.invitations.map (fun i =>
      if i.id == fixInvPending.id then { i with status := "used", activatedAt := some 9 } else i) :=
  redeem_success_both_writes oFix 9 fixArgs fixDb fixInvPending fixUnit fixApt (by rfl)

/-- Counterexample for C5 as stated: the redemption writes are not one
transaction.  After the first write (the renter insert) and before the
invitation update, the committed state has Jane's renter account while
the invitation is still `pending` — exactly the state the claim says is
never observable. -/
theorem renter_without_consumed_invitation_observable :
    (redeemPartial oFix 9 fixArgs fixDb 1).renters.map (fun r => r.email) = ["jane@x.com"] ∧
    (redeemPartial oFix 9 fixArgs fixDb 1).invitations.map (fun i => i.status) = ["pending"] :=
  ⟨by rfl, by rfl⟩

/-! ## C4 — single redemption -/

theorem findSome_option_map {α β γ : Type} (l : List α) (f : α → Option β) (m : β → γ) :
    (l.findSome? (fun x => (f x).map m)) = (l.findSome? f).map m := by
  induction l with
  | nil => rfl
  | cons x xs ih =>
    simp only [List.findSome?_cons]
    cases hx : f x with
    | none => simpa [hx] using ih
    | some b => simp [hx]

theorem joinRow_map (units : List RentalUnit) (apts : List ApartmentBuilding)
    (t : String) (g : RenterInvitation → RenterInvitation)
    (hg : ∀ i, (g i).accessToken = i.accessToken ∧ (g i).unitId = i.unitId)
    (inv : RenterInvitation) :
    joinRow units apts t (g inv)
      = (joinRow units apts t inv).map (fun x => (g x.1, x.2.1, x.2.2)) := by
  unfold joinRow
  rw [(hg inv).1, (hg inv).2]
  by_cases h : (inv.accessToken == t) = true
  · rw [if_pos h, if_pos h]
    cases units.find? (fun u => u.id == inv.unitId) with
    | none => rfl
    | some u =>
      dsimp only
      cases apts.find? (fun b => b.id == u.apartmentId) with
      | none => rfl
      | some b => rfl
  · rw [if_neg h, if_neg h]
    rfl

/-- A rewrite of the invitation table that preserves each row's access
token and unit id commutes with the joined token lookup. -/
theorem findInvitationByToken_map (db db' : DB) (t : String)
    (g : RenterInvitation → RenterInvitation)
    (hu : db'.units = db.units) (ha : db'.apartments = db.apartments)
    (hi : db'.invitations = db.invitations.map g)
    (hg : ∀ i, (g i).accessToken = i.accessToken ∧ (g i).unitId = i.unitId) :
    findInvitationByToken db' t
      = (findInvitationByToken db t).map (fun x => (g x.1, x.2.1, x.2.2)) := by
  unfold findInvitationByToken
  rw [hu, ha, hi, List.findSome?_map]
  have hpt : (joinRow db.units db.apartments t ∘ g)
      = fun inv => (joinRow db.units db.apartments t inv).map (fun x => (g x.1, x.2.1, x.2.2)) :=
    funext (fun inv => joinRow_map db.units db.apartments t g hg inv)
  rw [hpt]
  exact findSome_option_map _ _ _

theorem redeemChecks_ok_elim (db : DB) (a : RedeemArgs)
    (inv : RenterInvitation) (u : RentalUnit) (b : ApartmentBuilding)
    (h : redeemChecks db a = .ok (inv, u, b)) :
    findInvitationByToken db a.token = some (inv, u, b) ∧ inv.status ≠ "used" := by
  unfold redeemChecks at h
  cases hf : findInvitationByToken db a.token with
  | none => rw [hf] at h; simp at h
  | some trip =>
    obtain ⟨i2, u2, b2⟩ := trip
    rw [hf] at h
    dsimp only at h
    by_cases h1 : (i2.status == "used") = true
    · rw [if_pos h1] at h; simp at h
    · rw [if_neg h1] at h
      by_cases h2 : (!(jsToLower a.email == jsToLower i2.renterEmail)) = true
      · rw [if_pos h2] at h; simp at h
      · rw [if_neg h2] at h
        by_cases h3 : (db.renters.any fun r => r.email == jsToLower (jsToLower a.email)) = true
        · rw [if_pos h3] at h; simp at h
        · rw [if_neg h3] at h
          injection h with h4
          have h5 : i2 = inv ∧ u2 = u ∧ b2 = b := by simpa [Prod.ext_iff] using h4
          obtain ⟨rfl, rfl, rfl⟩ := h5
          exact ⟨rfl, by simpa using h1⟩

theorem redeem_ok_components (o : Oracle) (now : Nat) (a : RedeemArgs) (db : DB)
    (inv : RenterInvitation) (u : RentalUnit) (b : ApartmentBuilding)
    (hchecks : redeemChecks db a = .ok (inv, u, b)) :
    (redeem o now a db).2.units = db.units ∧
    (redeem o now a db).2.apartments = db.apartments ∧
    (redeem o now a db).2.invitations = db.invitations.map (fun i =>
      if i.id == inv.id then { i with status := "used", activatedAt := some now } else i) := by
  unfold redeem
  rw [hchecks]
  refine ⟨?_, ?_, ?_⟩ <;> simp [applyWrites, redeemWrites]

/-- Marking an invitation used preserves token and unit id. -/
theorem mark_preserves (invId : String) (now : Nat) :
    ∀ i : RenterInvitation,
      ((fun i : RenterInvitation =>
        if i.id == invId then { i with status := "used", activatedAt := some now } else i) i).accessToken
          = i.accessToken ∧
      ((fun i : RenterInvitation =>
        if i.id == invId then { i with status := "used", activatedAt := some now } else i) i).unitId
          = i.unitId := by
  intro i
  by_cases h : (i.id == invId) = true
  · simp [h]
  · simp [h]

theorem tokenConsumed_preserved (o : Oracle) (n : Nat) (a : RedeemArgs) (db : DB) (t : String)
    (h : tokenConsumed db t) : tokenConsumed (redeem o n a db).2 t := by
  obtain ⟨inv, u, b, hfind, hused⟩ := h
  cases hchecks : redeemChecks db a with
  | error e =>
    unfold redeem
    rw [hchecks]
    exact ⟨inv, u, b, hfind, hused⟩
  | ok trip =>
    obtain ⟨inv2, u2, b2⟩ := trip
    obtain ⟨hcu, hca, hci⟩ := redeem_ok_components o n a db inv2 u2 b2 hchecks
    have hmap := findInvitationByToken_map db (redeem o n a db).2 t
      (fun i => if i.id == inv2.id then { i with status := "used", activatedAt := some n } else i)
      hcu hca hci (mark_preserves inv2.id n)
    rw [hfind] at hmap
    refine ⟨_, u, b, hmap, ?_⟩
    by_cases hid : (inv.id == inv2.id) = true
    · simp [hid]
    · simp [hid, hused]

theorem tokenConsumed_redeemMany (calls : List (Oracle × Nat × RedeemArgs)) (db : DB) (t : String)
    (h : tokenConsumed db t) : tokenConsumed (redeemMany calls db) t := by
  induction calls generalizing db with
  | nil => exact h
  | cons c rest ih =>
    obtain ⟨o, n, a⟩ := c
    exact ih (redeem o n a db).2 (tokenConsumed_preserved o n a db t h)

theorem tokenConsumed_rejects (o : Oracle) (n : Nat) (a : RedeemArgs) (db : DB) (t : String)
    (h : tokenConsumed db t) (ht : a.token = t) :
    redeem o n a db = (.error .alreadyUsed, db) := by
  obtain ⟨inv, u, b, hfind, hused⟩ := h
  unfold redeem redeemChecks
  rw [ht, hfind]
  dsimp only
  rw [if_pos (by simp [hused])]

/-- C4: at most one redemption of an invitation ever succeeds.  After a
successful `redeem`, every later `redeem` call with the same token —
with any number of other redemption calls in between — fails with
`AlreadyUsed` and leaves the database exactly as it found it (no write
to any table). -/
theorem single_redemption (o : Oracle) (now : Nat) (a : RedeemArgs) (db db1 : DB) (rid : String)
    (hok : redeem o now a db = (.ok rid, db1)) :
    ∀ (calls : List (Oracle × Nat × RedeemArgs)) (o2 : Oracle) (now2 : Nat) (a2 : RedeemArgs),
      a2.token = a.token →
      redeem o2 now2 a2 (redeemMany calls db1) = (.error .alreadyUsed, redeemMany calls db1) := by
  intro calls o2 now2 a2 ht
  have hcons : tokenConsumed db1 a.token := by
    cases hchecks : redeemChecks db a with
    | error e =>
      unfold redeem at hok
      rw [hchecks] at hok
      simp at hok
    | ok trip =>
      obtain ⟨inv, u, b⟩ := trip
      obtain ⟨hfind, _⟩ := redeemChecks_ok_elim db a inv u b hchecks
      obtain ⟨hcu, hca, hci⟩ := redeem_ok_components o now a db inv u b hchecks
      have hdb1 : db1 = (redeem o now a db).2 := by rw [hok]
      subst hdb1
      have hmap := findInvitationByToken_map db (redeem o now a db).2 a.token
        (fun i => if i.id == inv.id then { i with status := "used", activatedAt := some now } else i)
        hcu hca hci (mark_preserves inv.id now)
      rw [hfind] at hmap
      refine ⟨_, u, b, hmap, ?_⟩
      simp
  exact tokenConsumed_rejects o2 now2 a2 _ a.token (tokenConsumed_redeemMany calls db1 a.token hcons) ht

/-- Witness for C4: after Jane's successful redemption, a later call with
the same token — even after an unrelated failed redemption attempt in
between — fails with `AlreadyUsed` and changes nothing. -/
theorem single_redemption_witness :
    redeem oFix 9 fixArgs fixDb = (.ok (oFix.uuid 0), (redeem oFix 9 fixArgs fixDb).2) ∧
    fixArgsSecond.token = fixArgs.token ∧
    redeem oFix2 11 fixArgsSecond
        (redeemMany [(oFix2, 10, fixArgsMismatch)] (redeem oFix 9 fixArgs fixDb).2)
      = (.error .alreadyUsed,
         redeemMany [(oFix2, 10, fixArgsMismatch)] (redeem oFix 9 fixArgs fixDb).2) :=
  ⟨by rfl, by rfl,
   single_redemption oFix 9 fixArgs fixDb (redeem oFix 9 fixArgs fixDb).2 (oFix.uuid 0)
     (by rfl) [(oFix2, 10, fixArgsMismatch)] oFix2 11 fixArgsSecond (by rfl)⟩

/-! ## Generic induction principles over the reconciliation loops -/

theorem processRenters_ind (o : Oracle) (snap : List String) (now : Nat) (uid : String)
    (ex : List RenterInvitation) (P : St → Prop)
    (hstep : ∀ r st st', processRenter o snap now uid ex r st = .ok st' → P st → P st') :
    ∀ rs st st', processRenters o snap now uid ex rs st = .ok st' → P st → P st' := by
  intro rs
  induction rs with
  | nil => intro st st' h hp; unfold processRenters at h; injection h with h; rwa [← h]
  | cons r rest ih =>
    intro st st' h hp
    unfold processRenters at h
    cases hr : processRenter o snap now uid ex r st with
    | error e => rw [hr] at h; simp at h
    | ok st1 => rw [hr] at h; exact ih st1 st' h (hstep r st st1 hr hp)

theorem processUnits_ind (o : Oracle) (snap : List String) (now : Nat) (aid : String)
    (ex : List String) (P : St → Prop)
    (hstep : ∀ u st st', processUnit o snap now aid ex u st = .ok st' → P st → P st') :
    ∀ us st st', processUnits o snap now aid ex us st = .ok st' → P st → P st' := by
  intro us
  induction us with
  | nil => intro st st' h hp; unfold processUnits at h; injection h with h; rwa [← h]
  | cons u rest ih =>
    intro st st' h hp
    unfold processUnits at h
    cases hu : processUnit o snap now aid ex u st with
    | error e => rw [hu] at h; simp at h
    | ok st1 => rw [hu] at h; exact ih st1 st' h (hstep u st st1 hu hp)

theorem processApartments_ind (o : Oracle) (snap : List String) (now : Nat) (cid : String)
    (ex : List String) (P : St → Prop)
    (hstep : ∀ a st st', processApartment o snap now cid ex a st = .ok st' → P st → P st') :
    ∀ l st st', processApartments o snap now cid ex l st = .ok st' → P st → P st' := by
  intro l
  induction l with
  | nil => intro st st' h hp; unfold processApartments at h; injection h with h; rwa [← h]
  | cons a rest ih =>
    intro st st' h hp
    unfold processApartments at h
    cases ha : processApartment o snap now cid ex a st with
    | error e => rw [ha] at h; simp at h
    | ok st1 => rw [ha] at h; exact ih st1 st' h (hstep a st st1 ha hp)

/-! ## Membership and frame lemmas for the delete helpers -/

theorem deleteStaleInvites_mem (pe : List String) :
    ∀ (l : List RenterInvitation) (db : DB),
      ∀ i ∈ (deleteStaleInvites pe l db).invitations, i ∈ db.invitations := by
  intro l
  induction l with
  | nil => intro db i hi; exact hi
  | cons x rest ih =>
    intro db i hi
    unfold deleteStaleInvites at hi
    by_cases hx : (pe.contains (jsToLower x.renterEmail)) = true
    · rw [if_pos hx] at hi
      exact ih db i hi
    · rw [if_neg hx] at hi
      have := ih _ i hi
      exact List.mem_of_mem_filter this

theorem deleteStaleInvites_frame (pe : List String) :
    ∀ (l : List RenterInvitation) (db : DB),
      (deleteStaleInvites pe l db).companies = db.companies ∧
      (deleteStaleInvites pe l db).apartments = db.apartments ∧
      (deleteStaleInvites pe l db).units = db.units ∧
      (deleteStaleInvites pe l db).renters = db.renters ∧
      (deleteStaleInvites pe l db).renterSessions = db.renterSessions := by
  intro l
  induction l with
  | nil => intro db; exact ⟨rfl, rfl, rfl, rfl, rfl⟩
  | cons x rest ih =>
    intro db
    unfold deleteStaleInvites
    by_cases hx : (pe.contains (jsToLower x.renterEmail)) = true
    · rw [if_pos hx]; exact ih db
    · rw [if_neg hx]; exact ih _

theorem deleteStaleUnits_inv_mem (pids : List String) :
    ∀ (l : List RentalUnit) (db : DB),
      ∀ i ∈ (deleteStaleUnits pids l db).invitations, i ∈ db.invitations := by
  intro l
  induction l with
  | nil => intro db i hi; exact hi
  | cons x rest ih =>
    intro db i hi
    unfold deleteStaleUnits at hi
    by_cases hx : (pids.contains x.id) = true
    · rw [if_pos hx] at hi
      exact ih db i hi
    · rw [if_neg hx] at hi
      have := ih _ i hi
      exact List.mem_of_mem_filter this

theorem deleteStaleUnits_frame (pids : List String) :
    ∀ (l : List RentalUnit) (db : DB),
      (deleteStaleUnits pids l db).companies = db.companies ∧
      (deleteStaleUnits pids l db).apartments = db.apartments ∧
      (deleteStaleUnits pids l db).renters = db.renters ∧
      (deleteStaleUnits pids l db).renterSessions = db.renterSessions := by
  intro l
  induction l with
  | nil => intro db; exact ⟨rfl, rfl, rfl, rfl⟩
  | cons x rest ih =>
    intro db
    unfold deleteStaleUnits
    by_cases hx : (pids.contains x.id) = true
    · rw [if_pos hx]; exact ih db
    · rw [if_neg hx]; exact ih _

theorem deleteStaleApartments_inv_mem (pids : List String) :
    ∀ (l : List ApartmentBuilding) (db : DB),
      ∀ i ∈ (deleteStaleApartments pids l db).invitations, i ∈ db.invitations := by
  intro l
  induction l with
  | nil => intro db i hi; exact hi
  | cons x rest ih =>
    intro db i hi
    unfold deleteStaleApartments at hi
    by_cases hx : (pids.contains x.id) = true
    · rw [if_pos hx] at hi
      exact ih db i hi
    · rw [if_neg hx] at hi
      have := ih _ i hi
      exact List.mem_of_mem_filter this

theorem deleteStaleApartments_frame (pids : List String) :
    ∀ (l : List ApartmentBuilding) (db : DB),
      (deleteStaleApartments pids l db).companies = db.companies ∧
      (deleteStaleApartments pids l db).renters = db.renters ∧
      (deleteStaleApartments pids l db).renterSessions = db.renterSessions := by
  intro l
  induction l with
  | nil => intro db; exact ⟨rfl, rfl, rfl⟩
  | cons x rest ih =>
    intro db
    unfold deleteStaleApartments
    by_cases hx : (pids.contains x.id) = true
    · rw [if_pos hx]; exact ih db
    · rw [if_neg hx]; exact ih _

/-! ## C8 — reconciliation frame on surviving invitations -/

/-- Eliminating a successful insert branch of `processRenter`: both
constraint checks (primary key and `renter_access_token_unique`)
necessarily passed, and the result state is the insert. -/
theorem processRenter_insert_elim (o : Oracle) (snap : List String) (now : Nat)
    (uid : String) (ex : List RenterInvitation) (r : RenterInput) (st st' : St)
    (tok : String) (t' : Nat)
    (hb : ¬(jsToLower (jsTrim r.email) = "" ∨ jsTrim r.fullName = ""))
    (hl : lookupLast ex (jsToLower (jsTrim r.email)) = none)
    (hres : reserveAccessToken o snap 10 st.t = .ok (tok, t'))
    (h : processRenter o snap now uid ex r st = .ok st') :
    (st.db.invitations.any (fun i => i.id == o.uuid st.u)) = false ∧
    (st.db.invitations.any (fun i => i.accessToken == tok)) = false ∧
    st' = { db := { st.db with invitations := st.db.invitations ++
              [{ id := o.uuid st.u, unitId := uid, renterName := jsTrim r.fullName,
                 renterEmail := jsToLower (jsTrim r.email), accessToken := tok,
                 status := "pending", createdAt := now, activatedAt := none }] },
            u := st.u + 1, t := t' } := by
  unfold processRenter at h
  rw [if_neg hb, hl, hres] at h
  simp only [] at h
  by_cases hg1 : (st.db.invitations.any (fun i => i.id == o.uuid st.u)) = true
  · rw [if_pos hg1] at h
    simp at h
  · rw [if_neg hg1] at h
    by_cases hg2 : (st.db.invitations.any (fun i => i.accessToken == tok)) = true
    · rw [if_pos hg2] at h
      simp at h
    · rw [if_neg hg2] at h
      injection h with h
      exact ⟨Bool.eq_false_iff.mpr hg1, Bool.eq_false_iff.mpr hg2, h.symm⟩

theorem processRenter_prov (o : Oracle) (snap : List String) (now : Nat) (uid : String)
    (ex base : List RenterInvitation) (u0 : Nat) :
    ∀ r st st', processRenter o snap now uid ex r st = .ok st' →
      invProvenance base o u0 st → invProvenance base o u0 st' := by
  intro r st st' h hp
  obtain ⟨hu, hmem⟩ := hp
  unfold processRenter at h
  by_cases hb : (jsToLower (jsTrim r.email) = "" ∨ jsTrim r.fullName = "")
  · rw [if_pos hb] at h
    injection h with h
    rw [← h]
    exact ⟨hu, hmem⟩
  · rw [if_neg hb] at h
    cases hl : lookupLast ex (jsToLower (jsTrim r.email)) with
    | some existingInv =>
      rw [hl] at h
      injection h with h
      rw [← h]
      refine ⟨hu, ?_⟩
      intro i hi
      rw [List.mem_map] at hi
      obtain ⟨i0', hi0', heq⟩ := hi
      subst heq
      rcases hmem i0' hi0' with ⟨i0, hb0, hcore⟩ | ⟨j, hj1, hj2, hid⟩
      · left
        refine ⟨i0, hb0, ?_⟩
        by_cases hc : (i0'.id == existingInv.id) = true
        · rw [if_pos hc]
          exact hcore
        · rw [if_neg hc]
          exact hcore
      · right
        refine ⟨j, hj1, hj2, ?_⟩
        by_cases hc : (i0'.id == existingInv.id) = true
        · rw [if_pos hc]
          exact hid
        · rw [if_neg hc]
          exact hid
    | none =>
      rw [hl] at h
      cases hres : reserveAccessToken o snap 10 st.t with
      | error e => rw [hres] at h; simp at h
      | ok pr =>
        obtain ⟨tok, t'⟩ := pr
        rw [hres] at h
        simp only [] at h
        by_cases hg1 : (st.db.invitations.any (fun i => i.id == o.uuid st.u)) = true
        · rw [if_pos hg1] at h
          simp at h
        · rw [if_neg hg1] at h
          by_cases hg2 : (st.db.invitations.any (fun i => i.accessToken == tok)) = true
          · rw [if_pos hg2] at h
            simp at h
          · rw [if_neg hg2] at h
            injection h with h
            rw [← h]
            refine ⟨Nat.le_succ_of_le hu, ?_⟩
            intro i hi
            rw [List.mem_append] at hi
            rcases hi with hi | hi
            · rcases hmem i hi with ⟨i0, hb0, hcore⟩ | ⟨j, hj1, hj2, hid⟩
              · exact Or.inl ⟨i0, hb0, hcore⟩
              · exact Or.inr ⟨j, hj1, Nat.lt_succ_of_lt hj2, hid⟩
            · rw [List.mem_singleton] at hi
              subst hi
              exact Or.inr ⟨st.u, hu, Nat.lt_succ_self _, rfl⟩

theorem processUnit_prov (o : Oracle) (snap : List String) (now : Nat) (aid : String)
    (exIds : List String) (base : List RenterInvitation) (u0 : Nat) :
    ∀ u st st', processUnit o snap now aid exIds u st = .ok st' →
      invProvenance base o u0 st → invProvenance base o u0 st' := by
  intro u st st' h hp
  unfold processUnit at h
  by_cases hb : jsTrim u.unitNumber = ""
  · rw [if_pos hb] at h
    injection h with h
    rw [← h]
    exact hp
  · rw [if_neg hb] at h
    split at h
    · simp at h
    · refine processRenters_ind o snap now u.id _ (invProvenance base o u0)
        (processRenter_prov o snap now u.id _ base u0) u.renters _ st' h ?_
      refine ⟨hp.1, ?_⟩
      intro i hi
      have hi1 := deleteStaleInvites_mem _ _ _ i hi
      revert hi1
      split <;> (intro hi1; exact hp.2 i hi1)

theorem invSameCore_refl (i : RenterInvitation) : invSameCore i i :=
  ⟨rfl, rfl, rfl, rfl, rfl, rfl, rfl⟩

theorem processApartment_prov (o : Oracle) (snap : List String) (now : Nat) (cid : String)
    (exIds : List String) (base : List RenterInvitation) (u0 : Nat) :
    ∀ a st st', processApartment o snap now cid exIds a st = .ok st' →
      invProvenance base o u0 st → invProvenance base o u0 st' := by
  intro a st st' h hp
  unfold processApartment at h
  by_cases hb : jsTrim a.name = ""
  · rw [if_pos hb] at h
    injection h with h
    rw [← h]
    exact hp
  · rw [if_neg hb] at h
    split at h
    · simp at h
    · refine processUnits_ind o snap now a.id _ (invProvenance base o u0)
        (processUnit_prov o snap now a.id _ base u0) a.units _ st' h ?_
      refine ⟨hp.1, ?_⟩
      intro i hi
      have hi1 := deleteStaleUnits_inv_mem _ _ _ i hi
      revert hi1
      split <;> (intro hi1; exact hp.2 i hi1)

/-- The key frame property of a successful reconciliation: every
invitation row in the result that carries the id of a pre-existing
invitation agrees with it on every field except possibly the renter name
— in particular its access token and its status (including `used`) are
untouched.  Assumes the database's primary keys are unique and the uuid
stream never collides with an existing invitation id. -/
theorem reconcile_invitation_frame (o : Oracle) (adminId : String) (p : SavePortfolioInput)
    (now : Nat) (db0 : DB) (cid : String) (db' : DB)
    (hnd : (db0.invitations.map (fun i => i.id)).Nodup)
    (hfresh : ∀ k, ∀ i0 ∈ db0.invitations, o.uuid k ≠ i0.id)
    (hok : savePortfolio o adminId p now db0 = (.ok cid, db')) :
    ∀ i0 ∈ db0.invitations, ∀ i ∈ db'.invitations, i.id = i0.id → invSameCore i i0 := by
  unfold savePortfolio at hok
  by_cases hc : jsTrim p.companyName = ""
  · rw [if_pos hc] at hok
    simp at hok
  · rw [if_neg hc] at hok
    cases htx : savePortfolioTx o adminId p now db0 with
    | error e => rw [htx] at hok; simp at hok
    | ok dbF =>
      rw [htx] at hok
      have hdb : dbF = db' := by
        have h2 := congrArg Prod.snd hok
        simpa using h2
      subst hdb
      unfold savePortfolioTx at htx
      simp only [] at htx
      split at htx
      · simp at htx
      split at htx
      · simp at htx
      · rename_i st hpa
        injection htx with htx
        have hprov : invProvenance db0.invitations o
            (match db0.companies.find? (fun c => c.adminId == adminId) with
              | some _ => 0 | none => 1) st := by
          refine processApartments_ind o _ now _ _ _
            (processApartment_prov o _ now _ _ db0.invitations _) p.apartments _ st hpa ?_
          refine ⟨Nat.le_refl _, ?_⟩
          intro i2 hi2
          left
          refine ⟨i2, ?_, invSameCore_refl i2⟩
          have hi3 := deleteStaleApartments_inv_mem _ _ _ i2 hi2
          revert hi3
          cases db0.companies.find? (fun c => c.adminId == adminId) with
          | some c => intro hi3; exact hi3
          | none => intro hi3; exact hi3
        intro i0 h0 i hi hid
        rw [← htx] at hi
        rcases hprov.2 i hi with ⟨i1, hb1, hcore⟩ | ⟨j, _, _, hidj⟩
        · have h11 : i1.id = i0.id := by rw [← hcore.1, hid]
          have : i1 = i0 := List.inj_on_of_nodup_map hnd hb1 h0 h11
          rw [← this]
          exact hcore
        · exact absurd (hidj ▸ hid) (hfresh j i0 h0)

/-- Witness for C8: resaving `payOne` over `fixDb` (whose invitation
matches Jane's entry by email) leaves the surviving invitation's token,
status and every other field except the renter name unchanged. -/
theorem reconcile_invitation_frame_witness :
    (fixDb.invitations.map (fun i => i.id)).Nodup ∧
    ∀ i0 ∈ fixDb.invitations,
      ∀ i ∈ (savePortfolio oConstU "adm" payOne 5 fixDb).2.invitations,
        i.id = i0.id → invSameCore i i0 :=
  ⟨by decide,
   reconcile_invitation_frame oConstU "adm" payOne 5 fixDb "c1" _
     (by decide)
     (fun k => by change ∀ i0 ∈ fixDb.invitations, "w1" ≠ i0.id; decide)
     (by rfl)⟩

/-! ## C9 — per-unit email uniqueness -/

theorem lookupLast_aux_none (key : String) :
    ∀ (l : List RenterInvitation) (acc : Option RenterInvitation),
      l.foldl (fun acc inv => if jsToLower inv.renterEmail == key then some inv else acc) acc = none →
      acc = none ∧ ∀ x ∈ l, jsToLower x.renterEmail ≠ key := by
  intro l
  induction l with
  | nil => intro acc h; exact ⟨h, by simp⟩
  | cons x rest ih =>
    intro acc h
    rw [List.foldl_cons] at h
    obtain ⟨hstep, hrest⟩ := ih _ h
    by_cases hx : (jsToLower x.renterEmail == key) = true
    · rw [if_pos hx] at hstep
      simp at hstep
    · rw [if_neg hx] at hstep
      refine ⟨hstep, ?_⟩
      intro y hy
      rcases List.mem_cons.mp hy with rfl | hy2
      · simpa using hx
      · exact hrest y hy2

theorem lookupLast_none (l : List RenterInvitation) (key : String)
    (h : lookupLast l key = none) : ∀ x ∈ l, jsToLower x.renterEmail ≠ key :=
  (lookupLast_aux_none key l none h).2

theorem emailKeyUnique_map (l : List RenterInvitation) (g : RenterInvitation → RenterInvitation)
    (hg : ∀ i, (g i).unitId = i.unitId ∧ (g i).renterEmail = i.renterEmail)
    (h : emailKeyUnique l) : emailKeyUnique (l.map g) := by
  unfold emailKeyUnique at *
  rw [List.pairwise_map]
  refine h.imp ?_
  intro a b hab
  rw [(hg a).1, (hg b).1, (hg a).2, (hg b).2]
  exact hab

theorem emailKeyUnique_sublist {l l' : List RenterInvitation}
    (hs : List.Sublist l' l) (h : emailKeyUnique l) : emailKeyUnique l' :=
  List.Pairwise.sublist hs h

theorem deleteStaleInvites_sublist (pe : List String) :
    ∀ (l : List RenterInvitation) (db : DB),
      List.Sublist (deleteStaleInvites pe l db).invitations db.invitations := by
  intro l
  induction l with
  | nil => intro db; exact List.Sublist.refl _
  | cons x rest ih =>
    intro db
    unfold deleteStaleInvites
    by_cases hx : (pe.contains (jsToLower x.renterEmail)) = true
    · rw [if_pos hx]; exact ih db
    · rw [if_neg hx]
      exact (ih _).trans (List.filter_sublist _)

theorem deleteStaleUnits_inv_sublist (pids : List String) :
    ∀ (l : List RentalUnit) (db : DB),
      List.Sublist (deleteStaleUnits pids l db).invitations db.invitations := by
  intro l
  induction l with
  | nil => intro db; exact List.Sublist.refl _
  | cons x rest ih =>
    intro db
    unfold deleteStaleUnits
    by_cases hx : (pids.contains x.id) = true
    · rw [if_pos hx]; exact ih db
    · rw [if_neg hx]
      exact (ih _).trans (List.filter_sublist _)

theorem deleteStaleApartments_inv_sublist (pids : List String) :
    ∀ (l : List ApartmentBuilding) (db : DB),
      List.Sublist (deleteStaleApartments pids l db).invitations db.invitations := by
  intro l
  induction l with
  | nil => intro db; exact List.Sublist.refl _
  | cons x rest ih =>
    intro db
    unfold deleteStaleApartments
    by_cases hx : (pids.contains x.id) = true
    · rw [if_pos hx]; exact ih db
    · rw [if_neg hx]
      exact (ih _).trans (List.filter_sublist _)

theorem processRenters_uniq (o : Oracle) (snap : List String) (now : Nat) (uid : String)
    (ex : List RenterInvitation) :
    ∀ (rs : List RenterInput) (st st' : St),
      processRenters o snap now uid ex rs st = .ok st' →
      (rs.map (fun r => jsToLower (jsTrim r.email))).Nodup →
      emailKeyUnique st.db.invitations →
      (∀ i ∈ st.db.invitations, i.unitId = uid →
        (∃ x ∈ ex, jsToLower x.renterEmail = jsToLower i.renterEmail) ∨
        jsToLower i.renterEmail ∉ rs.map (fun r => jsToLower (jsTrim r.email))) →
      emailKeyUnique st'.db.invitations := by
  intro rs
  induction rs with
  | nil =>
    intro st st' h _ hu _
    unfold processRenters at h
    injection h with h
    rw [← h]
    exact hu
  | cons r rest ih =>
    intro st st' h hnd hu hmem
    unfold processRenters at h
    cases hr : processRenter o snap now uid ex r st with
    | error e => rw [hr] at h; simp at h
    | ok st1 =>
      rw [hr] at h
      have hr0 := hr
      unfold processRenter at hr
      by_cases hb : (jsToLower (jsTrim r.email) = "" ∨ jsTrim r.fullName = "")
      · rw [if_pos hb] at hr
        injection hr with hr
        rw [← hr] at h
        refine ih st st' h (List.Nodup.of_cons hnd) hu ?_
        intro i hi hiu
        rcases hmem i hi hiu with hl | hr2
        · exact Or.inl hl
        · exact Or.inr (fun hc => hr2 (List.mem_cons_of_mem _ hc))
      · rw [if_neg hb] at hr
        cases hl : lookupLast ex (jsToLower (jsTrim r.email)) with
        | some einv =>
          rw [hl] at hr
          injection hr with hr
          rw [← hr] at h
          have hg : ∀ x : RenterInvitation,
              ((if x.id == einv.id then { x with renterName := jsTrim r.fullName } else x) :
                RenterInvitation).unitId = x.unitId ∧
              ((if x.id == einv.id then { x with renterName := jsTrim r.fullName } else x) :
                RenterInvitation).renterEmail = x.renterEmail := by
            intro x
            by_cases hc : (x.id == einv.id) = true
            · rw [if_pos hc]; exact ⟨rfl, rfl⟩
            · rw [if_neg hc]; exact ⟨rfl, rfl⟩
          refine ih _ st' h (List.Nodup.of_cons hnd) (emailKeyUnique_map _ _ hg hu) ?_
          intro i hi hiu
          rw [List.mem_map] at hi
          obtain ⟨i0, hi0, heq⟩ := hi
          subst heq
          rw [(hg i0).1] at hiu
          rw [(hg i0).2]
          rcases hmem i0 hi0 hiu with hl2 | hr2
          · exact Or.inl hl2
          · exact Or.inr (fun hc => hr2 (List.mem_cons_of_mem _ hc))
        | none =>
          rw [hl] at hr
          cases hres : reserveAccessToken o snap 10 st.t with
          | error e => rw [hres] at hr; simp at hr
          | ok pr =>
            obtain ⟨tok, t'⟩ := pr
            obtain ⟨hg1, hg2, hst1⟩ :=
              processRenter_insert_elim o snap now uid ex r st st1 tok t' hb hl hres hr0
            rw [hst1] at h
            have hkeyrow : jsToLower (jsToLower (jsTrim r.email)) = jsToLower (jsTrim r.email) :=
              jsToLower_idem _
            refine ih _ st' h (List.Nodup.of_cons hnd) ?_ ?_
            · unfold emailKeyUnique
              rw [List.pairwise_append]
              refine ⟨hu, List.pairwise_singleton _ _, ?_⟩
              intro a ha b hbmem
              rw [List.mem_singleton] at hbmem
              subst hbmem
              intro hau
              show jsToLower a.renterEmail ≠ jsToLower (jsToLower (jsTrim r.email))
              rw [hkeyrow]
              rcases hmem a ha hau with ⟨x, hx, hxa⟩ | hra
              · rw [← hxa]
                exact lookupLast_none ex _ hl x hx
              · intro hc
                exact hra (by rw [hc]; exact List.mem_cons_self _ _)
            · intro i hi hiu
              rw [List.mem_append] at hi
              rcases hi with hi | hi
              · rcases hmem i hi hiu with hl2 | hr2
                · exact Or.inl hl2
                · exact Or.inr (fun hc => hr2 (List.mem_cons_of_mem _ hc))
              · rw [List.mem_singleton] at hi
                subst hi
                refine Or.inr ?_
                show jsToLower (jsToLower (jsTrim r.email)) ∉ _
                rw [hkeyrow]
                exact (List.nodup_cons.mp hnd).1

theorem processUnit_uniq (o : Oracle) (snap : List String) (now : Nat) (aid : String)
    (exIds : List String) :
    ∀ (u : UnitInput) (st st' : St),
      processUnit o snap now aid exIds u st = .ok st' →
      ((u.renters.map (fun r => jsToLower (jsTrim r.email)))).Nodup →
      emailKeyUnique st.db.invitations →
      emailKeyUnique st'.db.invitations := by
  intro u st st' h hnd hu
  unfold processUnit at h
  by_cases hb : jsTrim u.unitNumber = ""
  · rw [if_pos hb] at h
    injection h with h
    rw [← h]
    exact hu
  · rw [if_neg hb] at h
    split at h
    · simp at h
    · refine processRenters_uniq o snap now u.id _ u.renters _ st' h hnd ?_ ?_
      · refine emailKeyUnique_sublist ((deleteStaleInvites_sublist _ _ _).trans ?_) hu
        split <;> exact List.Sublist.refl _
      · intro i hi hiu
        left
        have hi1 := deleteStaleInvites_mem _ _ _ i hi
        refine ⟨i, ?_, rfl⟩
        rw [List.mem_filter]
        exact ⟨hi1, by simp [hiu]⟩

theorem processUnits_uniq (o : Oracle) (snap : List String) (now : Nat) (aid : String)
    (exIds : List String) :
    ∀ (us : List UnitInput) (st st' : St),
      processUnits o snap now aid exIds us st = .ok st' →
      (∀ u ∈ us, ((u.renters.map (fun r => jsToLower (jsTrim r.email)))).Nodup) →
      emailKeyUnique st.db.invitations →
      emailKeyUnique st'.db.invitations := by
  intro us
  induction us with
  | nil =>
    intro st st' h _ hu
    unfold processUnits at h
    injection h with h
    rw [← h]
    exact hu
  | cons u rest ih =>
    intro st st' h hnd hu
    unfold processUnits at h
    cases hr : processUnit o snap now aid exIds u st with
    | error e => rw [hr] at h; simp at h
    | ok st1 =>
      rw [hr] at h
      refine ih st1 st' h (fun v hv => hnd v (List.mem_cons_of_mem _ hv)) ?_
      exact processUnit_uniq o snap now aid exIds u st st1 hr (hnd u (List.mem_cons_self _ _)) hu

theorem processApartment_uniq (o : Oracle) (snap : List String) (now : Nat) (cid : String)
    (exIds : List String) :
    ∀ (a : ApartmentInput) (st st' : St),
      processApartment o snap now cid exIds a st = .ok st' →
      (∀ u ∈ a.units, ((u.renters.map (fun r => jsToLower (jsTrim r.email)))).Nodup) →
      emailKeyUnique st.db.invitations →
      emailKeyUnique st'.db.invitations := by
  intro a st st' h hnd hu
  unfold processApartment at h
  by_cases hb : jsTrim a.name = ""
  · rw [if_pos hb] at h
    injection h with h
    rw [← h]
    exact hu
  · rw [if_neg hb] at h
    split at h
    · simp at h
    · refine processUnits_uniq o snap now a.id _ a.units _ st' h hnd ?_
      refine emailKeyUnique_sublist ((deleteStaleUnits_inv_sublist _ _ _).trans ?_) hu
      split <;> exact List.Sublist.refl _

theorem processApartments_uniq (o : Oracle) (snap : List String) (now : Nat) (cid : String)
    (exIds : List String) :
    ∀ (l : List ApartmentInput) (st st' : St),
      processApartments o snap now cid exIds l st = .ok st' →
      (∀ a ∈ l, ∀ u ∈ a.units, ((u.renters.map (fun r => jsToLower (jsTrim r.email)))).Nodup) →
      emailKeyUnique st.db.invitations →
      emailKeyUnique st'.db.invitations := by
  intro l
  induction l with
  | nil =>
    intro st st' h _ hu
    unfold processApartments at h
    injection h with h
    rw [← h]
    exact hu
  | cons a rest ih =>
    intro st st' h hnd hu
    unfold processApartments at h
    cases hr : processApartment o snap now cid exIds a st with
    | error e => rw [hr] at h; simp at h
    | ok st1 =>
      rw [hr] at h
      refine ih st1 st' h (fun b hb => hnd b (List.mem_cons_of_mem _ hb)) ?_
      exact processApartment_uniq o snap now cid exIds a st st1 hr
        (hnd a (List.mem_cons_self _ _)) hu

/-- C9 (amended): per-unit case-insensitive email uniqueness is preserved
by reconciliation provided each unit of the payload lists pairwise
distinct normalized renter emails.  (A payload repeating an email within
one unit breaks the invariant — see the counterexample.) -/
theorem reconcile_per_unit_email_unique (o : Oracle) (adminId : String)
    (p : SavePortfolioInput) (now : Nat) (db0 : DB) (cid : String) (db' : DB)
    (hpay : ∀ a ∈ p.apartments, ∀ u ∈ a.units,
      ((u.renters.map (fun r => jsToLower (jsTrim r.email)))).Nodup)
    (h0 : perUnitEmailUnique db0)
    (hok : savePortfolio o adminId p now db0 = (.ok cid, db')) :
    perUnitEmailUnique db' := by
  unfold savePortfolio at hok
  by_cases hc : jsTrim p.companyName = ""
  · rw [if_pos hc] at hok
    simp at hok
  · rw [if_neg hc] at hok
    cases htx : savePortfolioTx o adminId p now db0 with
    | error e => rw [htx] at hok; simp at hok
    | ok dbF =>
      rw [htx] at hok
      have hdb : dbF = db' := by
        have h2 := congrArg Prod.snd hok
        simpa using h2
      subst hdb
      unfold savePortfolioTx at htx
      simp only [] at htx
      split at htx
      · simp at htx
      split at htx
      · simp at htx
      · rename_i st hpa
        injection htx with htx
        unfold perUnitEmailUnique
        rw [← htx]
        refine processApartments_uniq o _ now _ _ p.apartments _ st hpa hpay ?_
        refine emailKeyUnique_sublist ((deleteStaleApartments_inv_sublist _ _ _).trans ?_) h0
        cases db0.companies.find? (fun c => c.adminId == adminId) with
        | some c => exact List.Sublist.refl _
        | none => exact List.Sublist.refl _

/-- Witness for C9: reconciling `payOne` (distinct emails per unit) over
the empty database yields a table satisfying per-unit email uniqueness. -/
theorem reconcile_per_unit_email_unique_witness :
    perUnitEmailUnique (savePortfolio oFix "adm" payOne 5 dbEmpty).2 :=
  reconcile_per_unit_email_unique oFix "adm" payOne 5 dbEmpty "u" _
    (by decide) (by unfold perUnitEmailUnique emailKeyUnique; decide) (by rfl)

/-- Counterexample for C9 as stated: the `existingEmails` map is built
once before the renter loop and never updated, so a payload listing the
same normalized email twice under one unit inserts two invitation rows
with that email in that unit. -/
theorem duplicate_email_rows :
    (savePortfolio oFix "adm" payDupEmail 1 dbEmpty).2.invitations.map
      (fun i => (i.unitId, i.renterEmail)) = [("un1", "dup@x.com"), ("un1", "dup@x.com")] ∧
    ¬ perUnitEmailUnique (savePortfolio oFix "adm" payDupEmail 1 dbEmpty).2 :=
  ⟨by rfl, by unfold perUnitEmailUnique emailKeyUnique; decide⟩

/-! ## C7 — removal of unlisted invitations; renters are never touched -/

theorem deleteStaleInvites_removes (pe : List String) :
    ∀ (l : List RenterInvitation) (db : DB) (x : RenterInvitation),
      x ∈ l → (pe.contains (jsToLower x.renterEmail)) = false →
      ∀ i ∈ (deleteStaleInvites pe l db).invitations, i.id ≠ x.id := by
  intro l
  induction l with
  | nil => intro db x hx; exact absurd hx (List.not_mem_nil x)
  | cons y rest ih =>
    intro db x hx hkey i hi
    rcases List.mem_cons.mp hx with rfl | hx2
    · unfold deleteStaleInvites at hi
      rw [if_neg (by rw [hkey]; exact Bool.false_ne_true)] at hi
      have hi2 := deleteStaleInvites_mem pe rest _ i hi
      have := List.of_mem_filter hi2
      intro hc
      rw [hc] at this
      simp at this
    · unfold deleteStaleInvites at hi
      by_cases hy : (pe.contains (jsToLower y.renterEmail)) = true
      · rw [if_pos hy] at hi
        exact ih db x hx2 hkey i hi
      · rw [if_neg hy] at hi
        exact ih _ x hx2 hkey i hi

theorem processRenters_invAll (o : Oracle) (snap : List String) (now : Nat) (uid : String)
    (ex : List RenterInvitation) (P : RenterInvitation → Prop)
    (hupd : ∀ (i : RenterInvitation) (nm : String), P i → P { i with renterName := nm })
    (hnew : ∀ (j : Nat) (nm em tok : String),
      P { id := o.uuid j, unitId := uid, renterName := nm, renterEmail := em,
          accessToken := tok, status := "pending", createdAt := now, activatedAt := none }) :
    ∀ rs st st', processRenters o snap now uid ex rs st = .ok st' →
      (∀ i ∈ st.db.invitations, P i) → ∀ i ∈ st'.db.invitations, P i := by
  intro rs
  induction rs with
  | nil =>
    intro st st' h hp
    unfold processRenters at h
    injection h with h
    rw [← h]
    exact hp
  | cons r rest ih =>
    intro st st' h hp
    unfold processRenters at h
    cases hr : processRenter o snap now uid ex r st with
    | error e => rw [hr] at h; simp at h
    | ok st1 =>
      rw [hr] at h
      refine ih st1 st' h ?_
      have hr0 := hr
      unfold processRenter at hr
      by_cases hb : (jsToLower (jsTrim r.email) = "" ∨ jsTrim r.fullName = "")
      · rw [if_pos hb] at hr
        injection hr with hr
        rw [← hr]
        exact hp
      · rw [if_neg hb] at hr
        cases hl : lookupLast ex (jsToLower (jsTrim r.email)) with
        | some einv =>
          rw [hl] at hr
          injection hr with hr
          rw [← hr]
          intro i hi
          rw [List.mem_map] at hi
          obtain ⟨i0, hi0, heq⟩ := hi
          subst heq
          by_cases hc : (i0.id == einv.id) = true
          · rw [if_pos hc]
            exact hupd i0 _ (hp i0 hi0)
          · rw [if_neg hc]
            exact hp i0 hi0
        | none =>
          rw [hl] at hr
          cases hres : reserveAccessToken o snap 10 st.t with
          | error e => rw [hres] at hr; simp at hr
          | ok pr =>
            obtain ⟨tok, t'⟩ := pr
            obtain ⟨hg1, hg2, hst1⟩ :=
              processRenter_insert_elim o snap now uid ex r st st1 tok t' hb hl hres hr0
            rw [hst1]
            intro i hi
            rw [List.mem_append] at hi
            rcases hi with hi | hi
            · exact hp i hi
            · rw [List.mem_singleton] at hi
              subst hi
              exact hnew st.u _ _ _

theorem processUnit_invAll (o : Oracle) (snap : List String) (now : Nat) (aid : String)
    (exIds : List String) (P : RenterInvitation → Prop)
    (hupd : ∀ (i : RenterInvitation) (nm : String), P i → P { i with renterName := nm })
    (hnew : ∀ (j : Nat) (uid nm em tok : String),
      P { id := o.uuid j, unitId := uid, renterName := nm, renterEmail := em,
          accessToken := tok, status := "pending", createdAt := now, activatedAt := none }) :
    ∀ u st st', processUnit o snap now aid exIds u st = .ok st' →
      (∀ i ∈ st.db.invitations, P i) → ∀ i ∈ st'.db.invitations, P i := by
  intro u st st' h hp
  unfold processUnit at h
  by_cases hb : jsTrim u.unitNumber = ""
  · rw [if_pos hb] at h
    injection h with h
    rw [← h]
    exact hp
  · rw [if_neg hb] at h
    split at h
    · simp at h
    · refine processRenters_invAll o snap now u.id _ P hupd
        (fun j nm em tok => hnew j u.id nm em tok) u.renters _ st' h ?_
      intro i hi
      have hi1 := deleteStaleInvites_mem _ _ _ i hi
      revert hi1
      split <;> (intro hi1; exact hp i hi1)

theorem processUnits_invAll (o : Oracle) (snap : List String) (now : Nat) (aid : String)
    (exIds : List String) (P : RenterInvitation → Prop)
    (hupd : ∀ (i : RenterInvitation) (nm : String), P i → P { i with renterName := nm })
    (hnew : ∀ (j : Nat) (uid nm em tok : String),
      P { id := o.uuid j, unitId := uid, renterName := nm, renterEmail := em,
          accessToken := tok, status := "pending", createdAt := now, activatedAt := none }) :
    ∀ us st st', processUnits o snap now aid exIds us st = .ok st' →
      (∀ i ∈ st.db.invitations, P i) → ∀ i ∈ st'.db.invitations, P i := by
  intro us st st' h hp
  refine processUnits_ind o snap now aid exIds (fun s => ∀ i ∈ s.db.invitations, P i)
    ?_ us st st' h hp
  intro u s s' hstep hps
  exact processUnit_invAll o snap now aid exIds P hupd hnew u s s' hstep hps

theorem processApartment_invAll (o : Oracle) (snap : List String) (now : Nat) (cid : String)
    (exIds : List String) (P : RenterInvitation → Prop)
    (hupd : ∀ (i : RenterInvitation) (nm : String), P i → P { i with renterName := nm })
    (hnew : ∀ (j : Nat) (uid nm em tok : String),
      P { id := o.uuid j, unitId := uid, renterName := nm, renterEmail := em,
          accessToken := tok, status := "pending", createdAt := now, activatedAt := none }) :
    ∀ a st st', processApartment o snap now cid exIds a st = .ok st' →
      (∀ i ∈ st.db.invitations, P i) → ∀ i ∈ st'.db.invitations, P i := by
  intro a st st' h hp
  unfold processApartment at h
  by_cases hb : jsTrim a.name = ""
  · rw [if_pos hb] at h
    injection h with h
    rw [← h]
    exact hp
  · rw [if_neg hb] at h
    split at h
    · simp at h
    · refine processUnits_invAll o snap now a.id _ P hupd hnew a.units _ st' h ?_
      intro i hi
      have hi1 := deleteStaleUnits_inv_mem _ _ _ i hi
      revert hi1
      split <;> (intro hi1; exact hp i hi1)

theorem processApartments_invAll (o : Oracle) (snap : List String) (now : Nat) (cid : String)
    (exIds : List String) (P : RenterInvitation → Prop)
    (hupd : ∀ (i : RenterInvitation) (nm : String), P i → P { i with renterName := nm })
    (hnew : ∀ (j : Nat) (uid nm em tok : String),
      P { id := o.uuid j, unitId := uid, renterName := nm, renterEmail := em,
          accessToken := tok, status := "pending", createdAt := now, activatedAt := none }) :
    ∀ l st st', processApartments o snap now cid exIds l st = .ok st' →
      (∀ i ∈ st.db.invitations, P i) → ∀ i ∈ st'.db.invitations, P i := by
  intro l st st' h hp
  refine processApartments_ind o snap now cid exIds (fun s => ∀ i ∈ s.db.invitations, P i)
    ?_ l st st' h hp
  intro a s s' hstep hps
  exact processApartment_invAll o snap now cid exIds P hupd hnew a s s' hstep hps

theorem processApartments_cons_eq (o : Oracle) (snap : List String) (now : Nat) (cid : String)
    (ex : List String) (a : ApartmentInput) (l : List ApartmentInput) (st : St) :
    processApartments o snap now cid ex (a :: l) st =
      match processApartment o snap now cid ex a st with
      | .error e => .error e
      | .ok st1 => processApartments o snap now cid ex l st1 := rfl

theorem processUnits_cons_eq (o : Oracle) (snap : List String) (now : Nat) (aid : String)
    (ex : List String) (u : UnitInput) (l : List UnitInput) (st : St) :
    processUnits o snap now aid ex (u :: l) st =
      match processUnit o snap now aid ex u st with
      | .error e => .error e
      | .ok st1 => processUnits o snap now aid ex l st1 := rfl

theorem processApartments_append (o : Oracle) (snap : List String) (now : Nat) (cid : String)
    (ex : List String) (l1 l2 : List ApartmentInput) :
    ∀ st : St,
      processApartments o snap now cid ex (l1 ++ l2) st =
        match processApartments o snap now cid ex l1 st with
        | .error e => .error e
        | .ok st1 => processApartments o snap now cid ex l2 st1 := by
  induction l1 with
  | nil => intro st; rfl
  | cons a rest ih =>
    intro st
    rw [List.cons_append, processApartments_cons_eq, processApartments_cons_eq]
    cases ha : processApartment o snap now cid ex a st with
    | error e => rfl
    | ok st1 => exact ih st1

theorem processUnits_append (o : Oracle) (snap : List String) (now : Nat) (aid : String)
    (ex : List String) (l1 l2 : List UnitInput) :
    ∀ st : St,
      processUnits o snap now aid ex (l1 ++ l2) st =
        match processUnits o snap now aid ex l1 st with
        | .error e => .error e
        | .ok st1 => processUnits o snap now aid ex l2 st1 := by
  induction l1 with
  | nil => intro st; rfl
  | cons u rest ih =>
    intro st
    rw [List.cons_append, processUnits_cons_eq, processUnits_cons_eq]
    cases hu : processUnit o snap now aid ex u st with
    | error e => rfl
    | ok st1 => exact ih st1

/-- The decisive step for C7: when the unit itself is processed, any
invitation row carrying the target id is deleted by the stale-invitation
sweep (its email is absent from the unit's desired entries), and the
renter loop inserts only fresh uuids — so afterwards no row carries the
target id. -/
theorem processUnit_removes (o : Oracle) (snap : List String) (now : Nat) (aid : String)
    (exIds : List String) (u : UnitInput) (st st' : St) (targetId tmail : String)
    (h : processUnit o snap now aid exIds u st = .ok st')
    (hnb : jsTrim u.unitNumber ≠ "")
    (hchar : ∀ i ∈ st.db.invitations, i.id = targetId → i.unitId = u.id ∧ i.renterEmail = tmail)
    (hmail : jsToLower tmail ∉ u.renters.map (fun r => jsToLower (jsTrim r.email)))
    (hfresh : ∀ j, o.uuid j ≠ targetId) :
    ∀ i ∈ st'.db.invitations, i.id ≠ targetId := by
  unfold processUnit at h
  rw [if_neg hnb] at h
  split at h
  · simp at h
  · refine processRenters_invAll o snap now u.id _ (fun i => i.id ≠ targetId)
      (fun i nm hi => hi) (fun j nm em tok => hfresh j) u.renters _ st' h ?_
    intro i hi hideq
    have hi1 := deleteStaleInvites_mem _ _ _ i hi
    have hchar2 : i.unitId = u.id ∧ i.renterEmail = tmail := by
      revert hi1
      split <;> (intro hi1; exact hchar i hi1 hideq)
    have hmem2 : i ∈ List.filter (fun j => j.unitId == u.id)
        ((if exIds.contains u.id = true then
            { st.db with units := st.db.units.map (fun x =>
                if x.id == u.id then { x with unitNumber := jsTrim u.unitNumber } else x) }
          else
            { st.db with units := st.db.units ++
                [{ id := u.id, apartmentId := aid, unitNumber := jsTrim u.unitNumber,
                   createdAt := now }] }) : DB).invitations := by
      rw [List.mem_filter]
      refine ⟨?_, by simp [hchar2.1]⟩
      revert hi1
      split <;> (intro hi1; exact hi1)
    have hkey : ((u.renters.map (fun r => jsToLower (jsTrim r.email))).contains
        (jsToLower i.renterEmail)) = false := by
      rw [hchar2.2, ← Bool.not_eq_true]
      intro hcc
      exact hmail (List.elem_iff.mp hcc)
    exact deleteStaleInvites_removes _ _ _ i hmem2 hkey i hi rfl

theorem processRenters_renters (o : Oracle) (snap : List String) (now : Nat) (uid : String)
    (ex : List RenterInvitation) :
    ∀ rs st st', processRenters o snap now uid ex rs st = .ok st' →
      st'.db.renters = st.db.renters := by
  intro rs st st' h
  refine processRenters_ind o snap now uid ex (fun s => s.db.renters = st.db.renters)
    ?_ rs st st' h rfl
  intro r s s' hstep hps
  have hstep0 := hstep
  unfold processRenter at hstep
  by_cases hb : (jsToLower (jsTrim r.email) = "" ∨ jsTrim r.fullName = "")
  · rw [if_pos hb] at hstep
    injection hstep with hstep
    rw [← hstep]
    exact hps
  · rw [if_neg hb] at hstep
    cases hl : lookupLast ex (jsToLower (jsTrim r.email)) with
    | some einv =>
      rw [hl] at hstep
      injection hstep with hstep
      rw [← hstep]
      exact hps
    | none =>
      rw [hl] at hstep
      cases hres : reserveAccessToken o snap 10 s.t with
      | error e => rw [hres] at hstep; simp at hstep
      | ok pr =>
        obtain ⟨tok, t'⟩ := pr
        obtain ⟨hg1, hg2, hs'⟩ :=
          processRenter_insert_elim o snap now uid ex r s s' tok t' hb hl hres hstep0
        rw [hs']
        exact hps

theorem processUnit_renters (o : Oracle) (snap : List String) (now : Nat) (aid : String)
    (exIds : List String) :
    ∀ u st st', processUnit o snap now aid exIds u st = .ok st' →
      st'.db.renters = st.db.renters := by
  intro u st st' h
  unfold processUnit at h
  by_cases hb : jsTrim u.unitNumber = ""
  · rw [if_pos hb] at h
    injection h with h
    rw [← h]
  · rw [if_neg hb] at h
    split at h
    · simp at h
    · have h1 := processRenters_renters o snap now u.id _ u.renters _ st' h
      rw [h1]
      rw [(deleteStaleInvites_frame _ _ _).2.2.2.1]
      split <;> rfl

theorem processApartment_renters (o : Oracle) (snap : List String) (now : Nat) (cid : String)
    (exIds : List String) :
    ∀ a st st', processApartment o snap now cid exIds a st = .ok st' →
      st'.db.renters = st.db.renters := by
  intro a st st' h
  unfold processApartment at h
  by_cases hb : jsTrim a.name = ""
  · rw [if_pos hb] at h
    injection h with h
    rw [← h]
  · rw [if_neg hb] at h
    split at h
    · simp at h
    · refine processUnits_ind o snap now a.id _ (fun s => s.db.renters = st.db.renters)
        ?_ a.units _ st' h ?_
      · intro u s s' hstep hps
        rw [processUnit_renters o snap now a.id _ u s s' hstep]
        exact hps
      · show (deleteStaleUnits _ _ _).renters = st.db.renters
        rw [(deleteStaleUnits_frame _ _ _).2.2.1]
        split <;> rfl

theorem savePortfolio_renters (o : Oracle) (adminId : String) (p : SavePortfolioInput)
    (now : Nat) (db0 : DB) (cid : String) (db' : DB)
    (hok : savePortfolio o adminId p now db0 = (.ok cid, db')) :
    db'.renters = db0.renters := by
  unfold savePortfolio at hok
  by_cases hc : jsTrim p.companyName = ""
  · rw [if_pos hc] at hok
    simp at hok
  · rw [if_neg hc] at hok
    cases htx : savePortfolioTx o adminId p now db0 with
    | error e => rw [htx] at hok; simp at hok
    | ok dbF =>
      rw [htx] at hok
      have hdb : dbF = db' := by
        have h2 := congrArg Prod.snd hok
        simpa using h2
      subst hdb
      unfold savePortfolioTx at htx
      simp only [] at htx
      split at htx
      · simp at htx
      split at htx
      · simp at htx
      · rename_i st hpa
        injection htx with htx
        rw [← htx]
        refine processApartments_ind o _ now _ _ (fun s => s.db.renters = db0.renters)
          ?_ p.apartments _ st hpa ?_
        · intro a s s' hstep hps
          rw [processApartment_renters o _ now _ _ a s s' hstep]
          exact hps
        · show (deleteStaleApartments _ _ _).renters = db0.renters
          rw [(deleteStaleApartments_frame _ _ _).2.1]
          cases db0.companies.find? (fun c => c.adminId == adminId) with
          | some c => rfl
          | none => rfl

/-- C7: when the payload keeps a building and a unit but omits the email
of an existing invitation of that unit, reconciliation deletes that
invitation row — regardless of its status, including `used` — while the
`renters` table is never touched by `savePortfolio` at all. -/
theorem reconcile_deletes_unlisted_invitation (o : Oracle) (adminId : String)
    (p : SavePortfolioInput) (now : Nat) (db0 : DB) (cid : String) (db' : DB)
    (a : ApartmentInput) (u : UnitInput) (inv : RenterInvitation)
    (ha : a ∈ p.apartments) (han : jsTrim a.name ≠ "")
    (hu : u ∈ a.units) (hun : jsTrim u.unitNumber ≠ "")
    (hinv : inv ∈ db0.invitations) (huid : inv.unitId = u.id)
    (hmail : jsToLower inv.renterEmail ∉ u.renters.map (fun r => jsToLower (jsTrim r.email)))
    (hnd : (db0.invitations.map (fun i => i.id)).Nodup)
    (hfresh : ∀ k, o.uuid k ≠ inv.id)
    (hok : savePortfolio o adminId p now db0 = (.ok cid, db')) :
    (∀ i ∈ db'.invitations, i.id ≠ inv.id) ∧ db'.renters = db0.renters := by
  refine ⟨?_, savePortfolio_renters o adminId p now db0 cid db' hok⟩
  unfold savePortfolio at hok
  by_cases hc : jsTrim p.companyName = ""
  · rw [if_pos hc] at hok
    simp at hok
  · rw [if_neg hc] at hok
    cases htx : savePortfolioTx o adminId p now db0 with
    | error e => rw [htx] at hok; simp at hok
    | ok dbF =>
      rw [htx] at hok
      have hdb : dbF = db' := by
        have h2 := congrArg Prod.snd hok
        simpa using h2
      subst hdb
      unfold savePortfolioTx at htx
      simp only [] at htx
      split at htx
      · simp at htx
      split at htx
      · simp at htx
      · rename_i st hpa
        injection htx with htx
        rw [← htx]
        obtain ⟨l1, l2, hsplit⟩ := List.append_of_mem ha
        rw [hsplit, processApartments_append] at hpa
        split at hpa
        · simp at hpa
        · rename_i stA hA
          rw [processApartments_cons_eq] at hpa
          split at hpa
          · simp at hpa
          · rename_i stB hB
            have hCI0 : ∀ i ∈ stA.db.invitations,
                i.id = inv.id → i.unitId = u.id ∧ i.renterEmail = inv.renterEmail := by
              refine processApartments_invAll o _ now _ _
                (fun i => i.id = inv.id → i.unitId = u.id ∧ i.renterEmail = inv.renterEmail)
                (fun i nm hi => hi)
                (fun j uid2 nm em tok hid => absurd hid (hfresh j)) l1 _ stA hA ?_
              intro i hi hideq
              have hi0 : i ∈ db0.invitations := by
                have hi1 := deleteStaleApartments_inv_mem _ _ _ i hi
                revert hi1
                cases db0.companies.find? (fun c => c.adminId == adminId) with
                | some c => intro hi1; exact hi1
                | none => intro hi1; exact hi1
              have heq : i = inv := List.inj_on_of_nodup_map hnd hi0 hinv hideq
              rw [heq]
              exact ⟨huid, rfl⟩
            unfold processApartment at hB
            rw [if_neg han] at hB
            split at hB
            · simp at hB
            obtain ⟨m1, m2, hsplit2⟩ := List.append_of_mem hu
            rw [hsplit2, processUnits_append] at hB
            split at hB
            · simp at hB
            · rename_i stU hU
              rw [processUnits_cons_eq] at hB
              split at hB
              · simp at hB
              · rename_i stV hV
                have hCIU : ∀ i ∈ stU.db.invitations,
                    i.id = inv.id → i.unitId = u.id ∧ i.renterEmail = inv.renterEmail := by
                  refine processUnits_invAll o _ now _ _
                    (fun i => i.id = inv.id → i.unitId = u.id ∧ i.renterEmail = inv.renterEmail)
                    (fun i nm hi => hi)
                    (fun j uid2 nm em tok hid => absurd hid (hfresh j)) m1 _ stU hU ?_
                  intro i hi hideq
                  have hi1 := deleteStaleUnits_inv_mem _ _ _ i hi
                  revert hi1
                  split <;> (intro hi1; exact hCI0 i hi1 hideq)
                have habsV := processUnit_removes o _ now a.id _ u stU stV inv.id
                  inv.renterEmail hV hun hCIU hmail hfresh
                have habsB : ∀ i ∈ stB.db.invitations, i.id ≠ inv.id :=
                  processUnits_invAll o _ now a.id _ (fun i => i.id ≠ inv.id)
                    (fun i nm hi => hi) (fun j uid2 nm em tok => hfresh j) m2 stV stB hB habsV
                exact processApartments_invAll o _ now _ _ (fun i => i.id ≠ inv.id)
                  (fun i nm hi => hi) (fun j uid2 nm em tok => hfresh j) l2 stB st hpa habsB

/-- Witness for C7: resubmitting the tree with Jane's entry removed from
the unit deletes her (already used) invitation row, while the renter
account created at redemption is untouched. -/
theorem reconcile_deletes_unlisted_invitation_witness :
    (∀ i ∈ (savePortfolio oConstU "adm" payOmit 7 fixDbUsedR).2.invitations,
      i.id ≠ fixInvUsed.id) ∧
    (savePortfolio oConstU "adm" payOmit 7 fixDbUsedR).2.renters = fixDbUsedR.renters :=
  reconcile_deletes_unlisted_invitation oConstU "adm" payOmit 7 fixDbUsedR "c1" _
    aptOmit unEmpty fixInvUsed (by decide) (by decide) (by decide) (by decide)
    (by decide) (by decide) (by decide) (by decide)
    (fun k => by change "w1" ≠ fixInvUsed.id; decide) (by rfl)

/-! ## C2 — idempotent reconciliation -/

theorem list_map_self {α : Type} (l : List α) (g : α → α) (h : ∀ x ∈ l, g x = x) :
    l.map g = l := by
  induction l with
  | nil => rfl
  | cons x xs ih =>
    rw [List.map_cons, h x (List.mem_cons_self x xs),
      ih (fun y hy => h y (List.mem_cons_of_mem x hy))]

theorem deleteStaleInvites_noop (pe : List String) :
    ∀ (l : List RenterInvitation) (db : DB),
      (∀ i ∈ l, pe.contains (jsToLower i.renterEmail) = true) →
      deleteStaleInvites pe l db = db := by
  intro l
  induction l with
  | nil => intro db _; rfl
  | cons x rest ih =>
    intro db h
    unfold deleteStaleInvites
    rw [if_pos (h x (List.mem_cons_self x rest))]
    exact ih db (fun i hi => h i (List.mem_cons_of_mem x hi))

theorem deleteStaleUnits_noop (pids : List String) :
    ∀ (l : List RentalUnit) (db : DB),
      (∀ u ∈ l, pids.contains u.id = true) →
      deleteStaleUnits pids l db = db := by
  intro l
  induction l with
  | nil => intro db _; rfl
  | cons x rest ih =>
    intro db h
    unfold deleteStaleUnits
    rw [if_pos (h x (List.mem_cons_self x rest))]
    exact ih db (fun u hu => h u (List.mem_cons_of_mem x hu))

theorem deleteStaleApartments_noop (pids : List String) :
    ∀ (l : List ApartmentBuilding) (db : DB),
      (∀ b ∈ l, pids.contains b.id = true) →
      deleteStaleApartments pids l db = db := by
  intro l
  induction l with
  | nil => intro db _; rfl
  | cons x rest ih =>
    intro db h
    unfold deleteStaleApartments
    rw [if_pos (h x (List.mem_cons_self x rest))]
    exact ih db (fun b hb => h b (List.mem_cons_of_mem x hb))

theorem processRenters_noop (o : Oracle) (snap : List String) (now : Nat) (uid : String)
    (ex : List RenterInvitation) :
    ∀ (rs : List RenterInput) (st : St),
      (∀ r ∈ rs, processRenter o snap now uid ex r st = .ok st) →
      processRenters o snap now uid ex rs st = .ok st := by
  intro rs
  induction rs with
  | nil => intro st _; rfl
  | cons r rest ih =>
    intro st h
    unfold processRenters
    rw [h r (List.mem_cons_self r rest)]
    exact ih st (fun r2 hr2 => h r2 (List.mem_cons_of_mem r hr2))

theorem processUnits_noop (o : Oracle) (snap : List String) (now : Nat) (aid : String)
    (exIds : List String) :
    ∀ (us : List UnitInput) (st : St),
      (∀ u ∈ us, processUnit o snap now aid exIds u st = .ok st) →
      processUnits o snap now aid exIds us st = .ok st := by
  intro us
  induction us with
  | nil => intro st _; rfl
  | cons u rest ih =>
    intro st h
    unfold processUnits
    rw [h u (List.mem_cons_self u rest)]
    exact ih st (fun u2 hu2 => h u2 (List.mem_cons_of_mem u hu2))

theorem processApartments_noop (o : Oracle) (snap : List String) (now : Nat) (cid : String)
    (exIds : List String) :
    ∀ (l : List ApartmentInput) (st : St),
      (∀ a ∈ l, processApartment o snap now cid exIds a st = .ok st) →
      processApartments o snap now cid exIds l st = .ok st := by
  intro l
  induction l with
  | nil => intro st _; rfl
  | cons a rest ih =>
    intro st h
    unfold processApartments
    rw [h a (List.mem_cons_self a rest)]
    exact ih st (fun a2 ha2 => h a2 (List.mem_cons_of_mem a ha2))

theorem processRenter_noop (o : Oracle) (snap : List String) (now : Nat) (uid : String)
    (ex : List RenterInvitation) (r : RenterInput) (st : St)
    (h : jsToLower (jsTrim r.email) ≠ "" → jsTrim r.fullName ≠ "" →
      ∃ tgt, lookupLast ex (jsToLower (jsTrim r.email)) = some tgt ∧
        ∀ i ∈ st.db.invitations, i.id = tgt.id → i.renterName = jsTrim r.fullName) :
    processRenter o snap now uid ex r st = .ok st := by
  unfold processRenter
  by_cases hb : (jsToLower (jsTrim r.email) = "" ∨ jsTrim r.fullName = "")
  · rw [if_pos hb]
  · rw [if_neg hb]
    push_neg at hb
    obtain ⟨tgt, hlk, hname⟩ := h hb.1 hb.2
    rw [hlk]
    dsimp only
    have hmap : st.db.invitations.map (fun i =>
        if i.id == tgt.id then { i with renterName := jsTrim r.fullName } else i) =
        st.db.invitations := by
      refine list_map_self _ _ ?_
      intro i hi
      by_cases hc : (i.id == tgt.id) = true
      · rw [if_pos hc]
        rw [show jsTrim r.fullName = i.renterName from (hname i hi (eq_of_beq hc)).symm]
      · rw [if_neg hc]
    rw [hmap]

theorem processUnit_noop (o : Oracle) (snap : List String) (now : Nat) (aid : String)
    (exIds : List String) (u : UnitInput) (st : St)
    (hnb : jsTrim u.unitNumber ≠ "")
    (hex : exIds.contains u.id = true)
    (hfields : ∀ w ∈ st.db.units, w.id = u.id → w.unitNumber = jsTrim u.unitNumber)
    (hkeys : ∀ i ∈ st.db.invitations, i.unitId = u.id →
      jsToLower i.renterEmail ∈ unitEmailKeys u)
    (hmatch : ∀ r ∈ u.renters, jsToLower (jsTrim r.email) ≠ "" → jsTrim r.fullName ≠ "" →
      ∃ tgt, lookupLast (st.db.invitations.filter (fun i => i.unitId == u.id))
          (jsToLower (jsTrim r.email)) = some tgt ∧
        ∀ i ∈ st.db.invitations, i.id = tgt.id → i.renterName = jsTrim r.fullName) :
    processUnit o snap now aid exIds u st = .ok st := by
  unfold processUnit
  rw [if_neg hnb]
  simp only []
  rw [hex, Bool.not_true, Bool.false_and]
  rw [if_neg Bool.false_ne_true]
  rw [if_pos rfl]
  have hmapu : st.db.units.map (fun x =>
      if x.id == u.id then { x with unitNumber := jsTrim u.unitNumber } else x) =
      st.db.units := by
    refine list_map_self _ _ ?_
    intro w hw
    by_cases hc : (w.id == u.id) = true
    · rw [if_pos hc]
      rw [show jsTrim u.unitNumber = w.unitNumber from (hfields w hw (eq_of_beq hc)).symm]
    · rw [if_neg hc]
  rw [hmapu]
  rw [show ({ st.db with units := st.db.units } : DB) = st.db from rfl]
  have hdel : deleteStaleInvites (u.renters.map (fun r => jsToLower (jsTrim r.email)))
      (st.db.invitations.filter (fun i => i.unitId == u.id)) st.db = st.db := by
    refine deleteStaleInvites_noop _ _ _ ?_
    intro i hi
    have h1 : i ∈ st.db.invitations := List.mem_of_mem_filter hi
    have h2b := List.of_mem_filter hi
    have h2 : i.unitId = u.id := eq_of_beq h2b
    exact List.elem_iff.mpr (hkeys i h1 h2)
  rw [hdel]
  rw [show ({ st with db := st.db } : St) = st from rfl]
  refine processRenters_noop o snap now u.id _ u.renters st ?_
  intro r hr
  exact processRenter_noop o snap now u.id _ r st (hmatch r hr)

theorem processApartment_noop (o : Oracle) (snap : List String) (now : Nat) (cid : String)
    (exIds : List String) (a : ApartmentInput) (st : St)
    (hnb : jsTrim a.name ≠ "")
    (hex : exIds.contains a.id = true)
    (hfieldsA : ∀ b ∈ st.db.apartments, b.id = a.id →
      b.name = jsTrim a.name ∧ b.postalCode = jsTrim a.postalCode)
    (hUnitNoStale : ∀ w ∈ st.db.units, w.apartmentId = a.id →
      w.id ∈ a.units.map (fun x => x.id))
    (hUnitEx : ∀ u ∈ a.units, jsTrim u.unitNumber ≠ "" →
      ∃ w ∈ st.db.units, w.apartmentId = a.id ∧ w.id = u.id)
    (hUnitFields : ∀ u ∈ a.units, jsTrim u.unitNumber ≠ "" →
      ∀ w ∈ st.db.units, w.id = u.id → w.unitNumber = jsTrim u.unitNumber)
    (hInvKeys : ∀ u ∈ a.units, jsTrim u.unitNumber ≠ "" →
      ∀ i ∈ st.db.invitations, i.unitId = u.id → jsToLower i.renterEmail ∈ unitEmailKeys u)
    (hInvMatch : ∀ u ∈ a.units, jsTrim u.unitNumber ≠ "" →
      ∀ r ∈ u.renters, jsToLower (jsTrim r.email) ≠ "" → jsTrim r.fullName ≠ "" →
        ∃ tgt, lookupLast (st.db.invitations.filter (fun i => i.unitId == u.id))
            (jsToLower (jsTrim r.email)) = some tgt ∧
          ∀ i ∈ st.db.invitations, i.id = tgt.id → i.renterName = jsTrim r.fullName) :
    processApartment o snap now cid exIds a st = .ok st := by
  unfold processApartment
  rw [if_neg hnb]
  simp only []
  rw [hex, Bool.not_true, Bool.false_and]
  rw [if_neg Bool.false_ne_true]
  rw [if_pos rfl]
  have hmapb : st.db.apartments.map (fun b =>
      if b.id == a.id then
        { b with name := jsTrim a.name, postalCode := jsTrim a.postalCode }
      else b) = st.db.apartments := by
    refine list_map_self _ _ ?_
    intro b hb
    by_cases hc : (b.id == a.id) = true
    · rw [if_pos hc]
      obtain ⟨h1, h2⟩ := hfieldsA b hb (eq_of_beq hc)
      rw [show jsTrim a.name = b.name from h1.symm,
        show jsTrim a.postalCode = b.postalCode from h2.symm]
    · rw [if_neg hc]
  rw [hmapb]
  rw [show ({ st.db with apartments := st.db.apartments } : DB) = st.db from rfl]
  have hdelu : deleteStaleUnits (a.units.map (fun u => u.id))
      (st.db.units.filter (fun u => u.apartmentId == a.id)) st.db = st.db := by
    refine deleteStaleUnits_noop _ _ _ ?_
    intro w hw
    have h1 : w ∈ st.db.units := List.mem_of_mem_filter hw
    have h2b := List.of_mem_filter hw
    have h2 : w.apartmentId = a.id := eq_of_beq h2b
    exact List.elem_iff.mpr (hUnitNoStale w h1 h2)
  rw [hdelu]
  rw [show ({ st with db := st.db } : St) = st from rfl]
  refine processUnits_noop o snap now a.id _ a.units st ?_
  intro u hu
  by_cases hnbu : jsTrim u.unitNumber = ""
  · unfold processUnit
    rw [if_pos hnbu]
  · refine processUnit_noop o snap now a.id _ u st hnbu ?_
      (fun w hw hid => hUnitFields u hu hnbu w hw hid)
      (hInvKeys u hu hnbu) (hInvMatch u hu hnbu)
    obtain ⟨w, hw, hwa, hwid⟩ := hUnitEx u hu hnbu
    refine List.elem_iff.mpr ?_
    rw [List.mem_map]
    exact ⟨w, List.mem_filter.mpr ⟨hw, by rw [hwa]; exact beq_self_eq_true _⟩, hwid⟩

/-- If the database is already converged for `(adminId, p)`, a further
`savePortfolio` call with the same payload succeeds with the same company
id and leaves the database exactly unchanged: every branch of the second
run rewrites values that are already stored. -/
theorem idemReady_stable (o : Oracle) (adminId : String) (p : SavePortfolioInput)
    (now : Nat) (cid : String) (db : DB)
    (hR : IdemReady adminId p cid db) :
    savePortfolio o adminId p now db = (.ok cid, db) := by
  obtain ⟨c, hfind, hcid⟩ := hR.company_found
  have hcidOf : companyIdOf o adminId db = cid := by
    unfold companyIdOf
    rw [hfind]
    exact hcid
  unfold savePortfolio
  rw [if_neg hR.companyName_ok]
  have htx : savePortfolioTx o adminId p now db = .ok db := by
    unfold savePortfolioTx
    simp only []
    rw [hcidOf, hfind]
    dsimp only
    rw [Option.isNone_some, Bool.false_and, if_neg Bool.false_ne_true]
    have hmapc : db.companies.map (fun c2 =>
        if c2.id == cid then
          { c2 with name := jsTrim p.companyName,
                    contactEmail := normContactEmail p.contactEmail }
        else c2) = db.companies := by
      refine list_map_self _ _ ?_
      intro c2 hc2
      by_cases hc : (c2.id == cid) = true
      · rw [if_pos hc]
        obtain ⟨h1, h2⟩ := hR.company_fields c2 hc2 (eq_of_beq hc)
        rw [show jsTrim p.companyName = c2.name from h1.symm,
          show normContactEmail p.contactEmail = c2.contactEmail from h2.symm]
      · rw [if_neg hc]
    rw [hmapc]
    rw [show ({ db with companies := db.companies } : DB) = db from rfl]
    have hdela : deleteStaleApartments (p.apartments.map (fun a => a.id))
        (db.apartments.filter (fun b => b.companyId == cid)) db = db := by
      refine deleteStaleApartments_noop _ _ _ ?_
      intro b hb
      have h1 : b ∈ db.apartments := List.mem_of_mem_filter hb
      have h2b := List.of_mem_filter hb
      have h2 : b.companyId = cid := eq_of_beq h2b
      exact List.elem_iff.mpr (hR.apt_no_stale b h1 h2)
    rw [hdela]
    have hpa : processApartments o (db.invitations.map (fun i => i.accessToken)) now cid
        ((db.apartments.filter (fun b => b.companyId == cid)).map (fun b => b.id))
        p.apartments { db := db, u := 0, t := 0 } = .ok { db := db, u := 0, t := 0 } := by
      refine processApartments_noop o _ now cid _ p.apartments _ ?_
      intro a ha
      by_cases hnba : jsTrim a.name = ""
      · unfold processApartment
        rw [if_pos hnba]
      · refine processApartment_noop o _ now cid _ a _ hnba ?_
          (hR.apt_fields a ha hnba) (hR.unit_no_stale a ha hnba)
          (fun u hu hnbu => hR.unit_exists a ha hnba u hu hnbu)
          (fun u hu hnbu => hR.unit_fields a ha hnba u hu hnbu)
          (fun u hu hnbu => hR.inv_no_stale a ha hnba u hu hnbu)
          (fun u hu hnbu => hR.inv_matched a ha hnba u hu hnbu)
        obtain ⟨b, hb, hbc, hbid⟩ := hR.apt_exists a ha hnba
        refine List.elem_iff.mpr ?_
        rw [List.mem_map]
        exact ⟨b, List.mem_filter.mpr ⟨hb, by rw [hbc]; exact beq_self_eq_true _⟩, hbid⟩
    rw [hpa]
  rw [htx, hcidOf]

/-- Counterexample to C2 as stated: `paySameUnit` lists the pre-existing
unit `un1` twice under its building with a different renter in each
occurrence.  Both occurrences take the unit's update branch, so no
primary key or unique index fires and both calls succeed — yet each
occurrence's stale-invitation sweep deletes the other occurrence's
invitation and re-inserts a fresh row with a new uuid and token.  Two
successive calls with the identical tree therefore leave different
invitation id and token sets: `{("uu", "11")}` after the first call,
`{("vv", "22")}` after the second. -/
theorem reconcile_not_idempotent :
    ((savePortfolio oFix "adm" paySameUnit 1 fixDbNoInv).1 = .ok "c1") ∧
    ((savePortfolio oFix "adm" paySameUnit 1 fixDbNoInv).2.invitations.map
        (fun i => (i.id, i.accessToken)) = [("uu", "11")]) ∧
    ((savePortfolio oFix3 "adm" paySameUnit 2
        (savePortfolio oFix "adm" paySameUnit 1 fixDbNoInv).2).1 = .ok "c1") ∧
    ((savePortfolio oFix3 "adm" paySameUnit 2
        (savePortfolio oFix "adm" paySameUnit 1 fixDbNoInv).2).2.invitations.map
        (fun i => (i.id, i.accessToken)) = [("vv", "22")]) :=
  ⟨by rfl, by rfl, by rfl, by rfl⟩

theorem filter_sub_frame {α : Type} (p q : α → Bool) (l : List α)
    (h : ∀ x ∈ l, p x = true → q x = true) :
    (l.filter q).filter p = l.filter p := by
  rw [List.filter_filter]
  refine List.filter_congr ?_
  intro x hx
  cases hp : p x with
  | true => simp [h x hx hp]
  | false => simp

theorem filter_map_comm {α : Type} (g : α → α) (p : α → Bool) (l : List α)
    (h : ∀ x, p (g x) = p x) :
    (l.map g).filter p = (l.filter p).map g := by
  rw [List.filter_map]
  congr 1
  refine List.filter_congr ?_
  intro x _
  exact h x

theorem filter_append_single_false {α : Type} (p : α → Bool) (l : List α) (x : α)
    (h : p x = false) : (l ++ [x]).filter p = l.filter p := by
  rw [List.filter_append, List.filter_cons_of_neg (by rw [h]; exact Bool.false_ne_true),
    List.filter_nil, List.append_nil]

theorem filter_append_single_true {α : Type} (p : α → Bool) (l : List α) (x : α)
    (h : p x = true) : (l ++ [x]).filter p = l.filter p ++ [x] := by
  rw [List.filter_append, List.filter_cons_of_pos h, List.filter_nil]

theorem lookupLast_aux_mem (key : String) :
    ∀ (l : List RenterInvitation) (acc : Option RenterInvitation) (x : RenterInvitation),
      l.foldl (fun acc inv => if jsToLower inv.renterEmail == key then some inv else acc) acc =
        some x →
      (x ∈ l ∧ jsToLower x.renterEmail = key) ∨ acc = some x := by
  intro l
  induction l with
  | nil => intro acc x h; exact Or.inr h
  | cons y rest ih =>
    intro acc x h
    rw [List.foldl_cons] at h
    rcases ih _ x h with ⟨hm, hk⟩ | hacc
    · exact Or.inl ⟨List.mem_cons_of_mem y hm, hk⟩
    · by_cases hy : (jsToLower y.renterEmail == key) = true
      · rw [if_pos hy] at hacc
        injection hacc with hacc
        exact Or.inl ⟨hacc ▸ List.mem_cons_self y rest, hacc ▸ eq_of_beq hy⟩
      · rw [if_neg hy] at hacc
        exact Or.inr hacc

theorem lookupLast_mem (l : List RenterInvitation) (key : String) (x : RenterInvitation)
    (h : lookupLast l key = some x) : x ∈ l ∧ jsToLower x.renterEmail = key := by
  rcases lookupLast_aux_mem key l none x h with h1 | h2
  · exact h1
  · exact Option.noConfusion h2

theorem lookupLast_aux_map (key : String) (g : RenterInvitation → RenterInvitation)
    (hg : ∀ i, jsToLower (g i).renterEmail = jsToLower i.renterEmail) :
    ∀ (l : List RenterInvitation) (acc : Option RenterInvitation),
      (l.map g).foldl
          (fun acc inv => if jsToLower inv.renterEmail == key then some inv else acc)
          (acc.map g) =
      (l.foldl (fun acc inv => if jsToLower inv.renterEmail == key then some inv else acc)
          acc).map g := by
  intro l
  induction l with
  | nil => intro acc; rfl
  | cons y rest ih =>
    intro acc
    rw [List.map_cons, List.foldl_cons, List.foldl_cons]
    by_cases hy : (jsToLower y.renterEmail == key) = true
    · rw [if_pos hy, if_pos (by rw [hg y]; exact hy)]
      exact ih (some y)
    · rw [if_neg hy, if_neg (by rw [hg y]; exact hy)]
      exact ih acc

theorem lookupLast_map (l : List RenterInvitation) (key : String)
    (g : RenterInvitation → RenterInvitation)
    (hg : ∀ i, jsToLower (g i).renterEmail = jsToLower i.renterEmail) :
    lookupLast (l.map g) key = (lookupLast l key).map g :=
  lookupLast_aux_map key g hg l none

theorem lookupLast_append_ne (l : List RenterInvitation) (x : RenterInvitation) (key : String)
    (h : (jsToLower x.renterEmail == key) = false) :
    lookupLast (l ++ [x]) key = lookupLast l key := by
  unfold lookupLast
  rw [List.foldl_append, List.foldl_cons,
    if_neg (by rw [h]; exact Bool.false_ne_true), List.foldl_nil]

theorem lookupLast_append_eq (l : List RenterInvitation) (x : RenterInvitation) (key : String)
    (h : (jsToLower x.renterEmail == key) = true) :
    lookupLast (l ++ [x]) key = some x := by
  unfold lookupLast
  rw [List.foldl_append, List.foldl_cons, if_pos h, List.foldl_nil]

theorem lookupLast_aux_filter (key : String) :
    ∀ (l : List RenterInvitation) (acc : Option RenterInvitation),
      l.foldl (fun acc inv => if jsToLower inv.renterEmail == key then some inv else acc) acc =
      (l.filter (fun x => jsToLower x.renterEmail == key)).foldl
        (fun acc inv => if jsToLower inv.renterEmail == key then some inv else acc) acc := by
  intro l
  induction l with
  | nil => intro acc; rfl
  | cons y rest ih =>
    intro acc
    rw [List.foldl_cons]
    by_cases hy : (jsToLower y.renterEmail == key) = true
    · rw [@List.filter_cons_of_pos _ (fun x => jsToLower x.renterEmail == key) y rest hy,
        List.foldl_cons, if_pos hy]
      exact ih (some y)
    · rw [@List.filter_cons_of_neg _ (fun x => jsToLower x.renterEmail == key) y rest hy,
        if_neg hy]
      exact ih acc

theorem lookupLast_filter_self (l : List RenterInvitation) (key : String) :
    lookupLast l key =
      lookupLast (l.filter (fun x => jsToLower x.renterEmail == key)) key :=
  lookupLast_aux_filter key l none

theorem find?_map_pred {α : Type} (g : α → α) (p : α → Bool) (hg : ∀ x, p (g x) = p x) :
    ∀ l : List α, (l.map g).find? p = (l.find? p).map g := by
  intro l
  induction l with
  | nil => rfl
  | cons x rest ih =>
    rw [List.map_cons]
    by_cases hx : p x = true
    · rw [List.find?_cons_of_pos _ (by rw [hg x]; exact hx), List.find?_cons_of_pos _ hx]
      rfl
    · rw [List.find?_cons_of_neg _ (by rw [hg x]; exact hx), List.find?_cons_of_neg _ hx]
      exact ih

theorem find?_append_none {α : Type} (p : α → Bool) (l1 l2 : List α)
    (h : l1.find? p = none) : (l1 ++ l2).find? p = l2.find? p := by
  rw [List.find?_append, h, Option.none_or]

theorem flatten_nodup_each {α β : Type} (f : α → List β) :
    ∀ l : List α, ((l.map f).flatten).Nodup → ∀ a ∈ l, (f a).Nodup := by
  intro l
  induction l with
  | nil => intro _ a ha; exact absurd ha (List.not_mem_nil a)
  | cons c rest ih =>
    intro h a ha
    rw [List.map_cons, List.flatten_cons] at h
    rcases List.mem_cons.mp ha with rfl | ha2
    · exact h.of_append_left
    · exact ih h.of_append_right a ha2

theorem flatten_nodup_disj {α β : Type} (f : α → List β) :
    ∀ l : List α, ((l.map f).flatten).Nodup →
      ∀ a ∈ l, ∀ b ∈ l, ∀ x, x ∈ f a → x ∈ f b → a = b := by
  intro l
  induction l with
  | nil => intro _ a ha; exact absurd ha (List.not_mem_nil a)
  | cons c rest ih =>
    intro h a ha b hb x hxa hxb
    rw [List.map_cons, List.flatten_cons] at h
    have hdisj := (List.nodup_append.mp h).2.2
    rcases List.mem_cons.mp ha with rfl | ha2
    · rcases List.mem_cons.mp hb with rfl | hb2
      · rfl
      · exact absurd (List.mem_flatten.mpr ⟨f b, List.mem_map_of_mem f hb2, hxb⟩) (hdisj hxa)
    · rcases List.mem_cons.mp hb with rfl | hb2
      · exact absurd (List.mem_flatten.mpr ⟨f a, List.mem_map_of_mem f ha2, hxa⟩) (hdisj hxb)
      · exact ih (List.nodup_append.mp h).2.1 a ha2 b hb2 x hxa hxb

theorem map_ids_of_preserve {α : Type} (fid : α → String) (g : α → α) (l : List α)
    (hg : ∀ x, fid (g x) = fid x) : (l.map g).map fid = l.map fid := by
  rw [List.map_map]
  refine List.map_congr_left ?_
  intro x _
  exact hg x

theorem deleteStaleUnits_units_mem (pids : List String) :
    ∀ (l : List RentalUnit) (db : DB),
      ∀ w ∈ (deleteStaleUnits pids l db).units, w ∈ db.units := by
  intro l
  induction l with
  | nil => intro db w hw; exact hw
  | cons x rest ih =>
    intro db w hw
    unfold deleteStaleUnits at hw
    by_cases hx : (pids.contains x.id) = true
    · rw [if_pos hx] at hw
      exact ih db w hw
    · rw [if_neg hx] at hw
      have := ih _ w hw
      exact List.mem_of_mem_filter this

theorem deleteStaleUnits_keeps (pids : List String) :
    ∀ (l : List RentalUnit) (db : DB) (w : RentalUnit),
      w ∈ db.units → pids.contains w.id = true →
      w ∈ (deleteStaleUnits pids l db).units := by
  intro l
  induction l with
  | nil => intro db w hw _; exact hw
  | cons x rest ih =>
    intro db w hw hcw
    unfold deleteStaleUnits
    by_cases hx : (pids.contains x.id) = true
    · rw [if_pos hx]
      exact ih db w hw hcw
    · rw [if_neg hx]
      refine ih _ w ?_ hcw
      refine List.mem_filter.mpr ⟨hw, ?_⟩
      have hne : w.id ≠ x.id := by
        intro hcc
        rw [← hcc] at hx
        exact hx hcw
      simp [hne]

theorem deleteStaleUnits_removes (pids : List String) :
    ∀ (l : List RentalUnit) (db : DB) (x : RentalUnit),
      x ∈ l → (pids.contains x.id) = false →
      ∀ w ∈ (deleteStaleUnits pids l db).units, w.id ≠ x.id := by
  intro l
  induction l with
  | nil => intro db x hx; exact absurd hx (List.not_mem_nil x)
  | cons y rest ih =>
    intro db x hx hkey w hw
    rcases List.mem_cons.mp hx with rfl | hx2
    · unfold deleteStaleUnits at hw
      rw [if_neg (by rw [hkey]; exact Bool.false_ne_true)] at hw
      have hw2 := deleteStaleUnits_units_mem pids rest _ w hw
      have := List.of_mem_filter hw2
      intro hc
      rw [hc] at this
      simp at this
    · unfold deleteStaleUnits at hw
      by_cases hy : (pids.contains y.id) = true
      · rw [if_pos hy] at hw
        exact ih db x hx2 hkey w hw
      · rw [if_neg hy] at hw
        exact ih _ x hx2 hkey w hw

theorem deleteStaleApartments_apts_mem (pids : List String) :
    ∀ (l : List ApartmentBuilding) (db : DB),
      ∀ b ∈ (deleteStaleApartments pids l db).apartments, b ∈ db.apartments := by
  intro l
  induction l with
  | nil => intro db b hb; exact hb
  | cons x rest ih =>
    intro db b hb
    unfold deleteStaleApartments at hb
    by_cases hx : (pids.contains x.id) = true
    · rw [if_pos hx] at hb
      exact ih db b hb
    · rw [if_neg hx] at hb
      have := ih _ b hb
      exact List.mem_of_mem_filter this

theorem deleteStaleApartments_units_mem (pids : List String) :
    ∀ (l : List ApartmentBuilding) (db : DB),
      ∀ w ∈ (deleteStaleApartments pids l db).units, w ∈ db.units := by
  intro l
  induction l with
  | nil => intro db w hw; exact hw
  | cons x rest ih =>
    intro db w hw
    unfold deleteStaleApartments at hw
    by_cases hx : (pids.contains x.id) = true
    · rw [if_pos hx] at hw
      exact ih db w hw
    · rw [if_neg hx] at hw
      have := ih _ w hw
      exact List.mem_of_mem_filter this

theorem deleteStaleApartments_keeps (pids : List String) :
    ∀ (l : List ApartmentBuilding) (db : DB) (b : ApartmentBuilding),
      b ∈ db.apartments → pids.contains b.id = true →
      b ∈ (deleteStaleApartments pids l db).apartments := by
  intro l
  induction l with
  | nil => intro db b hb _; exact hb
  | cons x rest ih =>
    intro db b hb hcb
    unfold deleteStaleApartments
    by_cases hx : (pids.contains x.id) = true
    · rw [if_pos hx]
      exact ih db b hb hcb
    · rw [if_neg hx]
      refine ih _ b ?_ hcb
      refine List.mem_filter.mpr ⟨hb, ?_⟩
      have hne : b.id ≠ x.id := by
        intro hcc
        rw [← hcc] at hx
        exact hx hcb
      simp [hne]

theorem deleteStaleApartments_removes (pids : List String) :
    ∀ (l : List ApartmentBuilding) (db : DB) (x : ApartmentBuilding),
      x ∈ l → (pids.contains x.id) = false →
      ∀ b ∈ (deleteStaleApartments pids l db).apartments, b.id ≠ x.id := by
  intro l
  induction l with
  | nil => intro db x hx; exact absurd hx (List.not_mem_nil x)
  | cons y rest ih =>
    intro db x hx hkey b hb
    rcases List.mem_cons.mp hx with rfl | hx2
    · unfold deleteStaleApartments at hb
      rw [if_neg (by rw [hkey]; exact Bool.false_ne_true)] at hb
      have hb2 := deleteStaleApartments_apts_mem pids rest _ b hb
      have := List.of_mem_filter hb2
      intro hc
      rw [hc] at this
      simp at this
    · unfold deleteStaleApartments at hb
      by_cases hy : (pids.contains y.id) = true
      · rw [if_pos hy] at hb
        exact ih db x hx2 hkey b hb
      · rw [if_neg hy] at hb
        exact ih _ x hx2 hkey b hb

theorem processRenter_frame2 (o : Oracle) (snap : List String) (now : Nat) (uid : String)
    (ex : List RenterInvitation) :
    ∀ r st st', processRenter o snap now uid ex r st = .ok st' →
      st'.db.companies = st.db.companies ∧ st'.db.apartments = st.db.apartments ∧
      st'.db.units = st.db.units ∧ st'.db.renters = st.db.renters ∧
      st'.db.renterSessions = st.db.renterSessions ∧ st.u ≤ st'.u := by
  intro r st st' h
  have h0 := h
  unfold processRenter at h
  by_cases hb : (jsToLower (jsTrim r.email) = "" ∨ jsTrim r.fullName = "")
  · rw [if_pos hb] at h
    injection h with h
    rw [← h]
    exact ⟨rfl, rfl, rfl, rfl, rfl, Nat.le_refl _⟩
  · rw [if_neg hb] at h
    cases hl : lookupLast ex (jsToLower (jsTrim r.email)) with
    | some einv =>
      rw [hl] at h
      injection h with h
      rw [← h]
      exact ⟨rfl, rfl, rfl, rfl, rfl, Nat.le_refl _⟩
    | none =>
      rw [hl] at h
      cases hres : reserveAccessToken o snap 10 st.t with
      | error e => rw [hres] at h; simp at h
      | ok pr =>
        obtain ⟨tok, t'⟩ := pr
        obtain ⟨hg1, hg2, hs'⟩ :=
          processRenter_insert_elim o snap now uid ex r st st' tok t' hb hl hres h0
        rw [hs']
        exact ⟨rfl, rfl, rfl, rfl, rfl, Nat.le_succ _⟩

theorem processRenters_frame2 (o : Oracle) (snap : List String) (now : Nat) (uid : String)
    (ex : List RenterInvitation) :
    ∀ rs st st', processRenters o snap now uid ex rs st = .ok st' →
      st'.db.companies = st.db.companies ∧ st'.db.apartments = st.db.apartments ∧
      st'.db.units = st.db.units ∧ st'.db.renters = st.db.renters ∧
      st'.db.renterSessions = st.db.renterSessions ∧ st.u ≤ st'.u := by
  intro rs st st' h
  refine processRenters_ind o snap now uid ex (fun s =>
    s.db.companies = st.db.companies ∧ s.db.apartments = st.db.apartments ∧
    s.db.units = st.db.units ∧ s.db.renters = st.db.renters ∧
    s.db.renterSessions = st.db.renterSessions ∧ st.u ≤ s.u)
    ?_ rs st st' h ⟨rfl, rfl, rfl, rfl, rfl, Nat.le_refl _⟩
  intro r s s' hstep hps
  obtain ⟨f1, f2, f3, f4, f5, f6⟩ := processRenter_frame2 o snap now uid ex r s s' hstep
  exact ⟨f1.trans hps.1, f2.trans hps.2.1, f3.trans hps.2.2.1, f4.trans hps.2.2.2.1,
    f5.trans hps.2.2.2.2.1, Nat.le_trans hps.2.2.2.2.2 f6⟩

theorem processUnit_frame2 (o : Oracle) (snap : List String) (now : Nat) (aid : String)
    (exIds : List String) :
    ∀ u st st', processUnit o snap now aid exIds u st = .ok st' →
      st'.db.companies = st.db.companies ∧ st'.db.apartments = st.db.apartments ∧
      st'.db.renters = st.db.renters ∧ st'.db.renterSessions = st.db.renterSessions ∧
      st.u ≤ st'.u := by
  intro u st st' h
  unfold processUnit at h
  by_cases hb : jsTrim u.unitNumber = ""
  · rw [if_pos hb] at h
    injection h with h
    rw [← h]
    exact ⟨rfl, rfl, rfl, rfl, Nat.le_refl _⟩
  · rw [if_neg hb] at h
    split at h
    · simp at h
    obtain ⟨f1, f2, f3, f4, f5, f6⟩ := processRenters_frame2 o snap now u.id _ u.renters _ st' h
    rw [f1, f2, f4, f5]
    refine ⟨?_, ?_, ?_, ?_, f6⟩
    · rw [(deleteStaleInvites_frame _ _ _).1]
      split <;> rfl
    · rw [(deleteStaleInvites_frame _ _ _).2.1]
      split <;> rfl
    · rw [(deleteStaleInvites_frame _ _ _).2.2.2.1]
      split <;> rfl
    · rw [(deleteStaleInvites_frame _ _ _).2.2.2.2]
      split <;> rfl

theorem processUnits_frame2 (o : Oracle) (snap : List String) (now : Nat) (aid : String)
    (exIds : List String) :
    ∀ us st st', processUnits o snap now aid exIds us st = .ok st' →
      st'.db.companies = st.db.companies ∧ st'.db.apartments = st.db.apartments ∧
      st'.db.renters = st.db.renters ∧ st'.db.renterSessions = st.db.renterSessions ∧
      st.u ≤ st'.u := by
  intro us st st' h
  refine processUnits_ind o snap now aid exIds (fun s =>
    s.db.companies = st.db.companies ∧ s.db.apartments = st.db.apartments ∧
    s.db.renters = st.db.renters ∧ s.db.renterSessions = st.db.renterSessions ∧
    st.u ≤ s.u)
    ?_ us st st' h ⟨rfl, rfl, rfl, rfl, Nat.le_refl _⟩
  intro v s s' hstep hps
  obtain ⟨f1, f2, f3, f4, f5⟩ := processUnit_frame2 o snap now aid exIds v s s' hstep
  exact ⟨f1.trans hps.1, f2.trans hps.2.1, f3.trans hps.2.2.1, f4.trans hps.2.2.2.1,
    Nat.le_trans hps.2.2.2.2 f5⟩

theorem processApartment_frame2 (o : Oracle) (snap : List String) (now : Nat) (cid : String)
    (exIds : List String) :
    ∀ a st st', processApartment o snap now cid exIds a st = .ok st' →
      st'.db.companies = st.db.companies ∧ st'.db.renters = st.db.renters ∧
      st'.db.renterSessions = st.db.renterSessions ∧ st.u ≤ st'.u := by
  intro a st st' h
  unfold processApartment at h
  by_cases hb : jsTrim a.name = ""
  · rw [if_pos hb] at h
    injection h with h
    rw [← h]
    exact ⟨rfl, rfl, rfl, Nat.le_refl _⟩
  · rw [if_neg hb] at h
    split at h
    · simp at h
    obtain ⟨f1, f2, f3, f4, f5⟩ := processUnits_frame2 o snap now a.id _ a.units _ st' h
    rw [f1, f3, f4]
    refine ⟨?_, ?_, ?_, f5⟩
    · rw [(deleteStaleUnits_frame _ _ _).1]
      split <;> rfl
    · rw [(deleteStaleUnits_frame _ _ _).2.2.1]
      split <;> rfl
    · rw [(deleteStaleUnits_frame _ _ _).2.2.2]
      split <;> rfl

theorem processApartments_frame2 (o : Oracle) (snap : List String) (now : Nat) (cid : String)
    (exIds : List String) :
    ∀ l st st', processApartments o snap now cid exIds l st = .ok st' →
      st'.db.companies = st.db.companies ∧ st'.db.renters = st.db.renters ∧
      st'.db.renterSessions = st.db.renterSessions ∧ st.u ≤ st'.u := by
  intro l st st' h
  refine processApartments_ind o snap now cid exIds (fun s =>
    s.db.companies = st.db.companies ∧ s.db.renters = st.db.renters ∧
    s.db.renterSessions = st.db.renterSessions ∧ st.u ≤ s.u)
    ?_ l st st' h ⟨rfl, rfl, rfl, Nat.le_refl _⟩
  intro a s s' hstep hps
  obtain ⟨f1, f2, f3, f4⟩ := processApartment_frame2 o snap now cid exIds a s s' hstep
  exact ⟨f1.trans hps.1, f2.trans hps.2.1, f3.trans hps.2.2.1, Nat.le_trans hps.2.2.2 f4⟩

theorem processRenter_idsOk (o : Oracle) (snap : List String) (now : Nat) (uid : String)
    (ex base : List RenterInvitation) (u0 : Nat)
    (hD1 : ∀ k, ∀ i0 ∈ base, o.uuid k ≠ i0.id)
    (hD2 : ∀ j k, o.uuid j = o.uuid k → j = k) :
    ∀ r st st', processRenter o snap now uid ex r st = .ok st' →
      invProvenance base o u0 st → (st.db.invitations.map (fun i => i.id)).Nodup →
      invProvenance base o u0 st' ∧ (st'.db.invitations.map (fun i => i.id)).Nodup := by
  intro r st st' h hp hn
  refine ⟨processRenter_prov o snap now uid ex base u0 r st st' h hp, ?_⟩
  have h0 := h
  unfold processRenter at h
  by_cases hb : (jsToLower (jsTrim r.email) = "" ∨ jsTrim r.fullName = "")
  · rw [if_pos hb] at h
    injection h with h
    rw [← h]
    exact hn
  · rw [if_neg hb] at h
    cases hl : lookupLast ex (jsToLower (jsTrim r.email)) with
    | some einv =>
      rw [hl] at h
      injection h with h
      rw [← h]
      show ((st.db.invitations.map (fun i =>
        if i.id == einv.id then { i with renterName := jsTrim r.fullName } else i)).map
          (fun i => i.id)).Nodup
      rw [map_ids_of_preserve _ _ _ ?_]
      · exact hn
      · intro x
        by_cases hc : (x.id == einv.id) = true
        · rw [if_pos hc]
        · rw [if_neg hc]
    | none =>
      rw [hl] at h
      cases hres : reserveAccessToken o snap 10 st.t with
      | error e => rw [hres] at h; simp at h
      | ok pr =>
        obtain ⟨tok, t'⟩ := pr
        obtain ⟨hg1, hg2, hs'⟩ :=
          processRenter_insert_elim o snap now uid ex r st st' tok t' hb hl hres h0
        rw [hs']
        show (((st.db.invitations ++
          [({ id := o.uuid st.u, unitId := uid, renterName := jsTrim r.fullName,
              renterEmail := jsToLower (jsTrim r.email), accessToken := tok,
              status := "pending", createdAt := now,
              activatedAt := none } : RenterInvitation)]).map
            (fun i => i.id)).Nodup)
        rw [List.map_append]
        rw [List.nodup_append]
        refine ⟨hn, List.nodup_singleton _, ?_⟩
        intro x hx hx2
        rw [List.mem_map] at hx
        obtain ⟨i, hi, hxid⟩ := hx
        have hx3 : x = o.uuid st.u := by
          simpa using hx2
        rcases hp.2 i hi with ⟨i0, hb0, hcore⟩ | ⟨j, _, hj2, hidj⟩
        · refine hD1 st.u i0 hb0 ?_
          rw [← hx3, ← hxid, hcore.1]
        · have : o.uuid st.u = o.uuid j := by
            rw [← hx3, ← hxid, hidj]
          have := hD2 _ _ this
          exact absurd this.symm (Nat.ne_of_lt hj2)

theorem processRenters_idsOk (o : Oracle) (snap : List String) (now : Nat) (uid : String)
    (ex base : List RenterInvitation) (u0 : Nat)
    (hD1 : ∀ k, ∀ i0 ∈ base, o.uuid k ≠ i0.id)
    (hD2 : ∀ j k, o.uuid j = o.uuid k → j = k) :
    ∀ rs st st', processRenters o snap now uid ex rs st = .ok st' →
      invProvenance base o u0 st → (st.db.invitations.map (fun i => i.id)).Nodup →
      invProvenance base o u0 st' ∧ (st'.db.invitations.map (fun i => i.id)).Nodup := by
  intro rs st st' h hp hn
  refine processRenters_ind o snap now uid ex (fun s =>
    invProvenance base o u0 s ∧ (s.db.invitations.map (fun i => i.id)).Nodup)
    ?_ rs st st' h ⟨hp, hn⟩
  intro r s s' hstep hps
  exact processRenter_idsOk o snap now uid ex base u0 hD1 hD2 r s s' hstep hps.1 hps.2

theorem processUnit_idsOk (o : Oracle) (snap : List String) (now : Nat) (aid : String)
    (exIds : List String) (base : List RenterInvitation) (u0 : Nat)
    (hD1 : ∀ k, ∀ i0 ∈ base, o.uuid k ≠ i0.id)
    (hD2 : ∀ j k, o.uuid j = o.uuid k → j = k) :
    ∀ u st st', processUnit o snap now aid exIds u st = .ok st' →
      invProvenance base o u0 st → (st.db.invitations.map (fun i => i.id)).Nodup →
      invProvenance base o u0 st' ∧ (st'.db.invitations.map (fun i => i.id)).Nodup := by
  intro u st st' h hp hn
  unfold processUnit at h
  by_cases hb : jsTrim u.unitNumber = ""
  · rw [if_pos hb] at h
    injection h with h
    rw [← h]
    exact ⟨hp, hn⟩
  · rw [if_neg hb] at h
    split at h
    · simp at h
    refine processRenters_idsOk o snap now u.id _ base u0 hD1 hD2 u.renters _ st' h ?_ ?_
    · refine ⟨hp.1, ?_⟩
      intro i hi
      have hi1 := deleteStaleInvites_mem _ _ _ i hi
      revert hi1
      split <;> (intro hi1; exact hp.2 i hi1)
    · have hs := deleteStaleInvites_sublist
        (u.renters.map (fun r => jsToLower (jsTrim r.email)))
        ((if exIds.contains u.id = true then
            { st.db with units := st.db.units.map (fun x =>
                if x.id == u.id then { x with unitNumber := jsTrim u.unitNumber } else x) }
          else
            { st.db with units := st.db.units ++
                [{ id := u.id, apartmentId := aid, unitNumber := jsTrim u.unitNumber,
                   createdAt := now }] } : DB).invitations.filter
          (fun i => i.unitId == u.id))
        ((if exIds.contains u.id = true then
            { st.db with units := st.db.units.map (fun x =>
                if x.id == u.id then { x with unitNumber := jsTrim u.unitNumber } else x) }
          else
            { st.db with units := st.db.units ++
                [{ id := u.id, apartmentId := aid, unitNumber := jsTrim u.unitNumber,
                   createdAt := now }] } : DB))
      have hs2 := hs.map (fun i => i.id)
      refine List.Nodup.sublist hs2 ?_
      revert hn
      split <;> (intro hn; exact hn)

theorem processUnits_idsOk (o : Oracle) (snap : List String) (now : Nat) (aid : String)
    (exIds : List String) (base : List RenterInvitation) (u0 : Nat)
    (hD1 : ∀ k, ∀ i0 ∈ base, o.uuid k ≠ i0.id)
    (hD2 : ∀ j k, o.uuid j = o.uuid k → j = k) :
    ∀ us st st', processUnits o snap now aid exIds us st = .ok st' →
      invProvenance base o u0 st → (st.db.invitations.map (fun i => i.id)).Nodup →
      invProvenance base o u0 st' ∧ (st'.db.invitations.map (fun i => i.id)).Nodup := by
  intro us st st' h hp hn
  refine processUnits_ind o snap now aid exIds (fun s =>
    invProvenance base o u0 s ∧ (s.db.invitations.map (fun i => i.id)).Nodup)
    ?_ us st st' h ⟨hp, hn⟩
  intro v s s' hstep hps
  exact processUnit_idsOk o snap now aid exIds base u0 hD1 hD2 v s s' hstep hps.1 hps.2

theorem processApartment_idsOk (o : Oracle) (snap : List String) (now : Nat) (cid : String)
    (exIds : List String) (base : List RenterInvitation) (u0 : Nat)
    (hD1 : ∀ k, ∀ i0 ∈ base, o.uuid k ≠ i0.id)
    (hD2 : ∀ j k, o.uuid j = o.uuid k → j = k) :
    ∀ a st st', processApartment o snap now cid exIds a st = .ok st' →
      invProvenance base o u0 st → (st.db.invitations.map (fun i => i.id)).Nodup →
      invProvenance base o u0 st' ∧ (st'.db.invitations.map (fun i => i.id)).Nodup := by
  intro a st st' h hp hn
  unfold processApartment at h
  by_cases hb : jsTrim a.name = ""
  · rw [if_pos hb] at h
    injection h with h
    rw [← h]
    exact ⟨hp, hn⟩
  · rw [if_neg hb] at h
    split at h
    · simp at h
    refine processUnits_idsOk o snap now a.id _ base u0 hD1 hD2 a.units _ st' h ?_ ?_
    · refine ⟨hp.1, ?_⟩
      intro i hi
      have hi1 := deleteStaleUnits_inv_mem _ _ _ i hi
      revert hi1
      split <;> (intro hi1; exact hp.2 i hi1)
    · have hs := deleteStaleUnits_inv_sublist
        (a.units.map (fun x => x.id))
        ((if exIds.contains a.id = true then
            { st.db with apartments := st.db.apartments.map (fun b =>
                if b.id == a.id then
                  { b with name := jsTrim a.name, postalCode := jsTrim a.postalCode }
                else b) }
          else
            { st.db with apartments := st.db.apartments ++
                [{ id := a.id, companyId := cid, name := jsTrim a.name,
                   postalCode := jsTrim a.postalCode, createdAt := now }] } : DB).units.filter
          (fun w => w.apartmentId == a.id))
        ((if exIds.contains a.id = true then
            { st.db with apartments := st.db.apartments.map (fun b =>
                if b.id == a.id then
                  { b with name := jsTrim a.name, postalCode := jsTrim a.postalCode }
                else b) }
          else
            { st.db with apartments := st.db.apartments ++
                [{ id := a.id, companyId := cid, name := jsTrim a.name,
                   postalCode := jsTrim a.postalCode, createdAt := now }] } : DB))
      have hs2 := hs.map (fun i => i.id)
      refine List.Nodup.sublist hs2 ?_
      revert hn
      split <;> (intro hn; exact hn)

theorem processApartments_idsOk (o : Oracle) (snap : List String) (now : Nat) (cid : String)
    (exIds : List String) (base : List RenterInvitation) (u0 : Nat)
    (hD1 : ∀ k, ∀ i0 ∈ base, o.uuid k ≠ i0.id)
    (hD2 : ∀ j k, o.uuid j = o.uuid k → j = k) :
    ∀ l st st', processApartments o snap now cid exIds l st = .ok st' →
      invProvenance base o u0 st → (st.db.invitations.map (fun i => i.id)).Nodup →
      invProvenance base o u0 st' ∧ (st'.db.invitations.map (fun i => i.id)).Nodup := by
  intro l st st' h hp hn
  refine processApartments_ind o snap now cid exIds (fun s =>
    invProvenance base o u0 s ∧ (s.db.invitations.map (fun i => i.id)).Nodup)
    ?_ l st st' h ⟨hp, hn⟩
  intro a s s' hstep hps
  exact processApartment_idsOk o snap now cid exIds base u0 hD1 hD2 a s s' hstep hps.1 hps.2

theorem processRenters_invPoint (o : Oracle) (snap : List String) (now : Nat) (uid : String)
    (ex : List RenterInvitation) (P : RenterInvitation → Prop) (uLo : Nat)
    (hupd : ∀ (i : RenterInvitation) (nm : String), P i → P { i with renterName := nm }) :
    ∀ rs : List RenterInput,
      (∀ r ∈ rs, ∀ j, uLo ≤ j → ∀ tok : String,
        P { id := o.uuid j, unitId := uid, renterName := jsTrim r.fullName,
            renterEmail := jsToLower (jsTrim r.email), accessToken := tok,
            status := "pending", createdAt := now, activatedAt := none }) →
      ∀ st st', processRenters o snap now uid ex rs st = .ok st' → uLo ≤ st.u →
        (∀ i ∈ st.db.invitations, P i) → ∀ i ∈ st'.db.invitations, P i := by
  intro rs
  induction rs with
  | nil =>
    intro _ st st' h _ hp
    unfold processRenters at h
    injection h with h
    rw [← h]
    exact hp
  | cons r rest ih =>
    intro hnew st st' h hulo hp
    unfold processRenters at h
    cases hr : processRenter o snap now uid ex r st with
    | error e => rw [hr] at h; simp at h
    | ok st1 =>
      rw [hr] at h
      have hu1 : uLo ≤ st1.u :=
        Nat.le_trans hulo (processRenter_frame2 o snap now uid ex r st st1 hr).2.2.2.2.2
      refine ih (fun r2 hr2 => hnew r2 (List.mem_cons_of_mem r hr2)) st1 st' h hu1 ?_
      have hr0 := hr
      unfold processRenter at hr
      by_cases hb : (jsToLower (jsTrim r.email) = "" ∨ jsTrim r.fullName = "")
      · rw [if_pos hb] at hr
        injection hr with hr
        rw [← hr]
        exact hp
      · rw [if_neg hb] at hr
        cases hl : lookupLast ex (jsToLower (jsTrim r.email)) with
        | some einv =>
          rw [hl] at hr
          injection hr with hr
          rw [← hr]
          intro i hi
          rw [List.mem_map] at hi
          obtain ⟨i0, hi0, heq⟩ := hi
          subst heq
          by_cases hc : (i0.id == einv.id) = true
          · rw [if_pos hc]
            exact hupd i0 _ (hp i0 hi0)
          · rw [if_neg hc]
            exact hp i0 hi0
        | none =>
          rw [hl] at hr
          cases hres : reserveAccessToken o snap 10 st.t with
          | error e => rw [hres] at hr; simp at hr
          | ok pr =>
            obtain ⟨tok, t'⟩ := pr
            obtain ⟨hg1, hg2, hst1⟩ :=
              processRenter_insert_elim o snap now uid ex r st st1 tok t' hb hl hres hr0
            rw [hst1]
            intro i hi
            rw [List.mem_append] at hi
            rcases hi with hi | hi
            · exact hp i hi
            · rw [List.mem_singleton] at hi
              subst hi
              exact hnew r (List.mem_cons_self r rest) st.u hulo tok

theorem processUnit_invPoint (o : Oracle) (snap : List String) (now : Nat) (aid : String)
    (exIds : List String) (u : UnitInput) (P : RenterInvitation → Prop) (uLo : Nat)
    (hupd : ∀ (i : RenterInvitation) (nm : String), P i → P { i with renterName := nm })
    (hnew : ∀ r ∈ u.renters, ∀ j, uLo ≤ j → ∀ tok : String,
      P { id := o.uuid j, unitId := u.id, renterName := jsTrim r.fullName,
          renterEmail := jsToLower (jsTrim r.email), accessToken := tok,
          status := "pending", createdAt := now, activatedAt := none }) :
    ∀ st st', processUnit o snap now aid exIds u st = .ok st' → uLo ≤ st.u →
      (∀ i ∈ st.db.invitations, P i) → ∀ i ∈ st'.db.invitations, P i := by
  intro st st' h hulo hp
  unfold processUnit at h
  by_cases hb : jsTrim u.unitNumber = ""
  · rw [if_pos hb] at h
    injection h with h
    rw [← h]
    exact hp
  · rw [if_neg hb] at h
    split at h
    · simp at h
    refine processRenters_invPoint o snap now u.id _ P uLo hupd u.renters hnew _ st' h hulo ?_
    intro i hi
    have hi1 := deleteStaleInvites_mem _ _ _ i hi
    revert hi1
    split <;> (intro hi1; exact hp i hi1)

theorem processUnits_invPoint (o : Oracle) (snap : List String) (now : Nat) (aid : String)
    (exIds : List String) (P : RenterInvitation → Prop) (uLo : Nat)
    (hupd : ∀ (i : RenterInvitation) (nm : String), P i → P { i with renterName := nm }) :
    ∀ us : List UnitInput,
      (∀ u' ∈ us, ∀ r ∈ u'.renters, ∀ j, uLo ≤ j → ∀ tok : String,
        P { id := o.uuid j, unitId := u'.id, renterName := jsTrim r.fullName,
            renterEmail := jsToLower (jsTrim r.email), accessToken := tok,
            status := "pending", createdAt := now, activatedAt := none }) →
      ∀ st st', processUnits o snap now aid exIds us st = .ok st' → uLo ≤ st.u →
        (∀ i ∈ st.db.invitations, P i) → ∀ i ∈ st'.db.invitations, P i := by
  intro us
  induction us with
  | nil =>
    intro _ st st' h _ hp
    unfold processUnits at h
    injection h with h
    rw [← h]
    exact hp
  | cons v rest ih =>
    intro hnew st st' h hulo hp
    unfold processUnits at h
    cases hv : processUnit o snap now aid exIds v st with
    | error e => rw [hv] at h; simp at h
    | ok st1 =>
      rw [hv] at h
      have hu1 : uLo ≤ st1.u :=
        Nat.le_trans hulo (processUnit_frame2 o snap now aid exIds v st st1 hv).2.2.2.2
      refine ih (fun u2 hu2 => hnew u2 (List.mem_cons_of_mem v hu2)) st1 st' h hu1 ?_
      exact processUnit_invPoint o snap now aid exIds v P uLo hupd
        (hnew v (List.mem_cons_self v rest)) st st1 hv hulo hp

theorem processApartment_invPoint (o : Oracle) (snap : List String) (now : Nat) (cid : String)
    (exIds : List String) (a : ApartmentInput) (P : RenterInvitation → Prop) (uLo : Nat)
    (hupd : ∀ (i : RenterInvitation) (nm : String), P i → P { i with renterName := nm })
    (hnew : ∀ u' ∈ a.units, ∀ r ∈ u'.renters, ∀ j, uLo ≤ j → ∀ tok : String,
      P { id := o.uuid j, unitId := u'.id, renterName := jsTrim r.fullName,
          renterEmail := jsToLower (jsTrim r.email), accessToken := tok,
          status := "pending", createdAt := now, activatedAt := none }) :
    ∀ st st', processApartment o snap now cid exIds a st = .ok st' → uLo ≤ st.u →
      (∀ i ∈ st.db.invitations, P i) → ∀ i ∈ st'.db.invitations, P i := by
  intro st st' h hulo hp
  unfold processApartment at h
  by_cases hb : jsTrim a.name = ""
  · rw [if_pos hb] at h
    injection h with h
    rw [← h]
    exact hp
  · rw [if_neg hb] at h
    split at h
    · simp at h
    refine processUnits_invPoint o snap now a.id _ P uLo hupd a.units hnew _ st' h hulo ?_
    intro i hi
    have hi1 := deleteStaleUnits_inv_mem _ _ _ i hi
    revert hi1
    split <;> (intro hi1; exact hp i hi1)

theorem processApartments_invPoint (o : Oracle) (snap : List String) (now : Nat) (cid : String)
    (exIds : List String) (P : RenterInvitation → Prop) (uLo : Nat)
    (hupd : ∀ (i : RenterInvitation) (nm : String), P i → P { i with renterName := nm }) :
    ∀ l : List ApartmentInput,
      (∀ a' ∈ l, ∀ u' ∈ a'.units, ∀ r ∈ u'.renters, ∀ j, uLo ≤ j → ∀ tok : String,
        P { id := o.uuid j, unitId := u'.id, renterName := jsTrim r.fullName,
            renterEmail := jsToLower (jsTrim r.email), accessToken := tok,
            status := "pending", createdAt := now, activatedAt := none }) →
      ∀ st st', processApartments o snap now cid exIds l st = .ok st' → uLo ≤ st.u →
        (∀ i ∈ st.db.invitations, P i) → ∀ i ∈ st'.db.invitations, P i := by
  intro l
  induction l with
  | nil =>
    intro _ st st' h _ hp
    unfold processApartments at h
    injection h with h
    rw [← h]
    exact hp
  | cons a rest ih =>
    intro hnew st st' h hulo hp
    unfold processApartments at h
    cases ha : processApartment o snap now cid exIds a st with
    | error e => rw [ha] at h; simp at h
    | ok st1 =>
      rw [ha] at h
      have hu1 : uLo ≤ st1.u :=
        Nat.le_trans hulo (processApartment_frame2 o snap now cid exIds a st st1 ha).2.2.2
      refine ih (fun a2 ha2 => hnew a2 (List.mem_cons_of_mem a ha2)) st1 st' h hu1 ?_
      exact processApartment_invPoint o snap now cid exIds a P uLo hupd
        (hnew a (List.mem_cons_self a rest)) st st1 ha hulo hp

theorem processUnit_unitsPoint (o : Oracle) (snap : List String) (now : Nat) (aid : String)
    (exIds : List String) (u : UnitInput) (P : RentalUnit → Prop)
    (hupd : ∀ w, P w →
      P (if (w.id == u.id) = true then { w with unitNumber := jsTrim u.unitNumber } else w))
    (hnew : P { id := u.id, apartmentId := aid, unitNumber := jsTrim u.unitNumber,
                createdAt := now }) :
    ∀ st st', processUnit o snap now aid exIds u st = .ok st' →
      (∀ w ∈ st.db.units, P w) → ∀ w ∈ st'.db.units, P w := by
  intro st st' h hp
  unfold processUnit at h
  by_cases hb : jsTrim u.unitNumber = ""
  · rw [if_pos hb] at h
    injection h with h
    rw [← h]
    exact hp
  · rw [if_neg hb] at h
    split at h
    · simp at h
    have hfr := (processRenters_frame2 o snap now u.id _ u.renters _ st' h).2.2.1
    intro w hw
    rw [hfr] at hw
    rw [(deleteStaleInvites_frame _ _ _).2.2.1] at hw
    revert hw
    split
    · intro hw
      have hw2 : w ∈ st.db.units.map (fun x =>
          if x.id == u.id then { x with unitNumber := jsTrim u.unitNumber } else x) := hw
      rw [List.mem_map] at hw2
      obtain ⟨x, hx, heq⟩ := hw2
      rw [← heq]
      exact hupd x (hp x hx)
    · intro hw
      have hw2 : w ∈ st.db.units ++
          [{ id := u.id, apartmentId := aid, unitNumber := jsTrim u.unitNumber,
             createdAt := now }] := hw
      rw [List.mem_append] at hw2
      rcases hw2 with hw2 | hw2
      · exact hp w hw2
      · rw [List.mem_singleton] at hw2
        subst hw2
        exact hnew

theorem processUnits_unitsPoint (o : Oracle) (snap : List String) (now : Nat) (aid : String)
    (exIds : List String) (P : RentalUnit → Prop) :
    ∀ us : List UnitInput,
      (∀ u' ∈ us, ∀ w, P w →
        P (if (w.id == u'.id) = true then { w with unitNumber := jsTrim u'.unitNumber } else w)) →
      (∀ u' ∈ us, P { id := u'.id, apartmentId := aid, unitNumber := jsTrim u'.unitNumber,
                      createdAt := now }) →
      ∀ st st', processUnits o snap now aid exIds us st = .ok st' →
        (∀ w ∈ st.db.units, P w) → ∀ w ∈ st'.db.units, P w := by
  intro us
  induction us with
  | nil =>
    intro _ _ st st' h hp
    unfold processUnits at h
    injection h with h
    rw [← h]
    exact hp
  | cons v rest ih =>
    intro hupd hnew st st' h hp
    unfold processUnits at h
    cases hv : processUnit o snap now aid exIds v st with
    | error e => rw [hv] at h; simp at h
    | ok st1 =>
      rw [hv] at h
      refine ih (fun u2 hu2 => hupd u2 (List.mem_cons_of_mem v hu2))
        (fun u2 hu2 => hnew u2 (List.mem_cons_of_mem v hu2)) st1 st' h ?_
      exact processUnit_unitsPoint o snap now aid exIds v P
        (hupd v (List.mem_cons_self v rest)) (hnew v (List.mem_cons_self v rest)) st st1 hv hp

theorem processApartment_unitsPoint (o : Oracle) (snap : List String) (now : Nat) (cid : String)
    (exIds : List String) (a : ApartmentInput) (P : RentalUnit → Prop)
    (hupd : ∀ u' ∈ a.units, ∀ w, P w →
      P (if (w.id == u'.id) = true then { w with unitNumber := jsTrim u'.unitNumber } else w))
    (hnew : ∀ u' ∈ a.units, P { id := u'.id, apartmentId := a.id,
                                unitNumber := jsTrim u'.unitNumber, createdAt := now }) :
    ∀ st st', processApartment o snap now cid exIds a st = .ok st' →
      (∀ w ∈ st.db.units, P w) → ∀ w ∈ st'.db.units, P w := by
  intro st st' h hp
  unfold processApartment at h
  by_cases hb : jsTrim a.name = ""
  · rw [if_pos hb] at h
    injection h with h
    rw [← h]
    exact hp
  · rw [if_neg hb] at h
    split at h
    · simp at h
    refine processUnits_unitsPoint o snap now a.id _ P a.units hupd hnew _ st' h ?_
    intro w hw
    have hw1 := deleteStaleUnits_units_mem _ _ _ w hw
    revert hw1
    split <;> (intro hw1; exact hp w hw1)

theorem processApartments_unitsPoint (o : Oracle) (snap : List String) (now : Nat)
    (cid : String) (exIds : List String) (P : RentalUnit → Prop) :
    ∀ l : List ApartmentInput,
      (∀ a' ∈ l, ∀ u' ∈ a'.units, ∀ w, P w →
        P (if (w.id == u'.id) = true then { w with unitNumber := jsTrim u'.unitNumber } else w)) →
      (∀ a' ∈ l, ∀ u' ∈ a'.units, P { id := u'.id, apartmentId := a'.id,
                                      unitNumber := jsTrim u'.unitNumber, createdAt := now }) →
      ∀ st st', processApartments o snap now cid exIds l st = .ok st' →
        (∀ w ∈ st.db.units, P w) → ∀ w ∈ st'.db.units, P w := by
  intro l
  induction l with
  | nil =>
    intro _ _ st st' h hp
    unfold processApartments at h
    injection h with h
    rw [← h]
    exact hp
  | cons a rest ih =>
    intro hupd hnew st st' h hp
    unfold processApartments at h
    cases ha : processApartment o snap now cid exIds a st with
    | error e => rw [ha] at h; simp at h
    | ok st1 =>
      rw [ha] at h
      refine ih (fun a2 ha2 => hupd a2 (List.mem_cons_of_mem a ha2))
        (fun a2 ha2 => hnew a2 (List.mem_cons_of_mem a ha2)) st1 st' h ?_
      exact processApartment_unitsPoint o snap now cid exIds a P
        (hupd a (List.mem_cons_self a rest)) (hnew a (List.mem_cons_self a rest)) st st1 ha hp

theorem processApartment_aptsPoint (o : Oracle) (snap : List String) (now : Nat) (cid : String)
    (exIds : List String) (a : ApartmentInput) (P : ApartmentBuilding → Prop)
    (hupd : ∀ b, P b →
      P (if (b.id == a.id) = true then
          { b with name := jsTrim a.name, postalCode := jsTrim a.postalCode } else b))
    (hnew : P { id := a.id, companyId := cid, name := jsTrim a.name,
                postalCode := jsTrim a.postalCode, createdAt := now }) :
    ∀ st st', processApartment o snap now cid exIds a st = .ok st' →
      (∀ b ∈ st.db.apartments, P b) → ∀ b ∈ st'.db.apartments, P b := by
  intro st st' h hp
  unfold processApartment at h
  by_cases hb : jsTrim a.name = ""
  · rw [if_pos hb] at h
    injection h with h
    rw [← h]
    exact hp
  · rw [if_neg hb] at h
    split at h
    · simp at h
    have hfr := (processUnits_frame2 o snap now a.id _ a.units _ st' h).2.1
    intro b hb2
    rw [hfr] at hb2
    rw [(deleteStaleUnits_frame _ _ _).2.1] at hb2
    revert hb2
    split
    · intro hb2
      have hb3 : b ∈ st.db.apartments.map (fun b2 =>
          if b2.id == a.id then
            { b2 with name := jsTrim a.name, postalCode := jsTrim a.postalCode }
          else b2) := hb2
      rw [List.mem_map] at hb3
      obtain ⟨x, hx, heq⟩ := hb3
      rw [← heq]
      exact hupd x (hp x hx)
    · intro hb2
      have hb3 : b ∈ st.db.apartments ++
          [{ id := a.id, companyId := cid, name := jsTrim a.name,
             postalCode := jsTrim a.postalCode, createdAt := now }] := hb2
      rw [List.mem_append] at hb3
      rcases hb3 with hb3 | hb3
      · exact hp b hb3
      · rw [List.mem_singleton] at hb3
        subst hb3
        exact hnew

theorem processApartments_aptsPoint (o : Oracle) (snap : List String) (now : Nat)
    (cid : String) (exIds : List String) (P : ApartmentBuilding → Prop) :
    ∀ l : List ApartmentInput,
      (∀ a' ∈ l, ∀ b, P b →
        P (if (b.id == a'.id) = true then
            { b with name := jsTrim a'.name, postalCode := jsTrim a'.postalCode } else b)) →
      (∀ a' ∈ l, P { id := a'.id, companyId := cid, name := jsTrim a'.name,
                     postalCode := jsTrim a'.postalCode, createdAt := now }) →
      ∀ st st', processApartments o snap now cid exIds l st = .ok st' →
        (∀ b ∈ st.db.apartments, P b) → ∀ b ∈ st'.db.apartments, P b := by
  intro l
  induction l with
  | nil =>
    intro _ _ st st' h hp
    unfold processApartments at h
    injection h with h
    rw [← h]
    exact hp
  | cons a rest ih =>
    intro hupd hnew st st' h hp
    unfold processApartments at h
    cases ha : processApartment o snap now cid exIds a st with
    | error e => rw [ha] at h; simp at h
    | ok st1 =>
      rw [ha] at h
      refine ih (fun a2 ha2 => hupd a2 (List.mem_cons_of_mem a ha2))
        (fun a2 ha2 => hnew a2 (List.mem_cons_of_mem a ha2)) st1 st' h ?_
      exact processApartment_aptsPoint o snap now cid exIds a P
        (hupd a (List.mem_cons_self a rest)) (hnew a (List.mem_cons_self a rest)) st st1 ha hp

theorem deleteStaleUnits_pres_mem (pids : List String) :
    ∀ (l : List RentalUnit) (db : DB) (w : RentalUnit),
      w ∈ db.units → (∀ x ∈ l, w.id ≠ x.id) → w ∈ (deleteStaleUnits pids l db).units := by
  intro l
  induction l with
  | nil => intro db w hw _; exact hw
  | cons x rest ih =>
    intro db w hw hne
    unfold deleteStaleUnits
    by_cases hx : (pids.contains x.id) = true
    · rw [if_pos hx]
      exact ih db w hw (fun y hy => hne y (List.mem_cons_of_mem x hy))
    · rw [if_neg hx]
      refine ih _ w ?_ (fun y hy => hne y (List.mem_cons_of_mem x hy))
      refine List.mem_filter.mpr ⟨hw, ?_⟩
      simp [hne x (List.mem_cons_self x rest)]

theorem processUnit_unitEx (o : Oracle) (snap : List String) (now : Nat) (aid : String)
    (exIds : List String) (u : UnitInput) (aT uT : String) :
    ∀ st st', processUnit o snap now aid exIds u st = .ok st' →
      (∃ w ∈ st.db.units, w.apartmentId = aT ∧ w.id = uT) →
      (∃ w ∈ st'.db.units, w.apartmentId = aT ∧ w.id = uT) := by
  intro st st' h hE
  unfold processUnit at h
  by_cases hb : jsTrim u.unitNumber = ""
  · rw [if_pos hb] at h
    injection h with h
    rw [← h]
    exact hE
  · rw [if_neg hb] at h
    split at h
    · simp at h
    have hfr := (processRenters_frame2 o snap now u.id _ u.renters _ st' h).2.2.1
    rw [hfr, (deleteStaleInvites_frame _ _ _).2.2.1]
    obtain ⟨w0, hw0, ha0, hid0⟩ := hE
    split
    · refine ⟨_, List.mem_map_of_mem _ hw0, ?_⟩
      by_cases hc : (w0.id == u.id) = true
      · rw [if_pos hc]
        exact ⟨ha0, hid0⟩
      · rw [if_neg hc]
        exact ⟨ha0, hid0⟩
    · exact ⟨w0, List.mem_append_left _ hw0, ha0, hid0⟩

theorem processUnits_unitEx (o : Oracle) (snap : List String) (now : Nat) (aid : String)
    (exIds : List String) (aT uT : String) :
    ∀ (us : List UnitInput) st st', processUnits o snap now aid exIds us st = .ok st' →
      (∃ w ∈ st.db.units, w.apartmentId = aT ∧ w.id = uT) →
      (∃ w ∈ st'.db.units, w.apartmentId = aT ∧ w.id = uT) := by
  intro us st st' h hE
  refine processUnits_ind o snap now aid exIds
    (fun s => ∃ w ∈ s.db.units, w.apartmentId = aT ∧ w.id = uT) ?_ us st st' h hE
  intro v s s' hstep hps
  exact processUnit_unitEx o snap now aid exIds v aT uT s s' hstep hps

theorem processApartment_aptEx (o : Oracle) (snap : List String) (now : Nat) (cid : String)
    (exIds : List String) (a : ApartmentInput) (cid2 aT : String) :
    ∀ st st', processApartment o snap now cid exIds a st = .ok st' →
      (∃ b ∈ st.db.apartments, b.companyId = cid2 ∧ b.id = aT) →
      (∃ b ∈ st'.db.apartments, b.companyId = cid2 ∧ b.id = aT) := by
  intro st st' h hE
  unfold processApartment at h
  by_cases hb : jsTrim a.name = ""
  · rw [if_pos hb] at h
    injection h with h
    rw [← h]
    exact hE
  · rw [if_neg hb] at h
    split at h
    · simp at h
    have hfr := (processUnits_frame2 o snap now a.id _ a.units _ st' h).2.1
    rw [hfr, (deleteStaleUnits_frame _ _ _).2.1]
    obtain ⟨b0, hb0, hc0, hid0⟩ := hE
    split
    · refine ⟨_, List.mem_map_of_mem _ hb0, ?_⟩
      by_cases hc : (b0.id == a.id) = true
      · rw [if_pos hc]
        exact ⟨hc0, hid0⟩
      · rw [if_neg hc]
        exact ⟨hc0, hid0⟩
    · exact ⟨b0, List.mem_append_left _ hb0, hc0, hid0⟩

theorem processApartments_aptEx (o : Oracle) (snap : List String) (now : Nat) (cid : String)
    (exIds : List String) (cid2 aT : String) :
    ∀ (l : List ApartmentInput) st st', processApartments o snap now cid exIds l st = .ok st' →
      (∃ b ∈ st.db.apartments, b.companyId = cid2 ∧ b.id = aT) →
      (∃ b ∈ st'.db.apartments, b.companyId = cid2 ∧ b.id = aT) := by
  intro l st st' h hE
  refine processApartments_ind o snap now cid exIds
    (fun s => ∃ b ∈ s.db.apartments, b.companyId = cid2 ∧ b.id = aT) ?_ l st st' h hE
  intro a s s' hstep hps
  exact processApartment_aptEx o snap now cid exIds a cid2 aT s s' hstep hps

theorem processApartment_unitExChar (o : Oracle) (snap : List String) (now : Nat)
    (cid : String) (exIds : List String) (a2 : ApartmentInput) (aT uT : String)
    (hneA : aT ≠ a2.id) (hneU : ∀ u' ∈ a2.units, uT ≠ u'.id) :
    ∀ st st', processApartment o snap now cid exIds a2 st = .ok st' →
      ((∃ w ∈ st.db.units, w.apartmentId = aT ∧ w.id = uT) ∧
        (∀ x ∈ st.db.units, x.id = uT → x.apartmentId = aT)) →
      ((∃ w ∈ st'.db.units, w.apartmentId = aT ∧ w.id = uT) ∧
        (∀ x ∈ st'.db.units, x.id = uT → x.apartmentId = aT)) := by
  intro st st' h hEC
  obtain ⟨hE, hC⟩ := hEC
  unfold processApartment at h
  by_cases hb : jsTrim a2.name = ""
  · rw [if_pos hb] at h
    injection h with h
    rw [← h]
    exact ⟨hE, hC⟩
  · rw [if_neg hb] at h
    split at h
    · simp at h
    have hCdb1 : ∀ x, x ∈ (if exIds.contains a2.id = true then
        ({ st.db with apartments := st.db.apartments.map (fun b2 =>
            if b2.id == a2.id then
              { b2 with name := jsTrim a2.name, postalCode := jsTrim a2.postalCode }
            else b2) } : DB)
      else
        ({ st.db with apartments := st.db.apartments ++
            [{ id := a2.id, companyId := cid, name := jsTrim a2.name,
               postalCode := jsTrim a2.postalCode, createdAt := now }] } : DB)).units →
        x.id = uT → x.apartmentId = aT := by
      intro x hx
      revert hx
      split <;> (intro hx; exact hC x hx)
    have hEdb1 : ∃ w ∈ (if exIds.contains a2.id = true then
        ({ st.db with apartments := st.db.apartments.map (fun b2 =>
            if b2.id == a2.id then
              { b2 with name := jsTrim a2.name, postalCode := jsTrim a2.postalCode }
            else b2) } : DB)
      else
        ({ st.db with apartments := st.db.apartments ++
            [{ id := a2.id, companyId := cid, name := jsTrim a2.name,
               postalCode := jsTrim a2.postalCode, createdAt := now }] } : DB)).units,
        w.apartmentId = aT ∧ w.id = uT := by
      obtain ⟨w0, hw0, hp0⟩ := hE
      refine ⟨w0, ?_, hp0⟩
      split <;> exact hw0
    constructor
    · refine processUnits_unitEx o snap now a2.id _ aT uT a2.units _ st' h ?_
      obtain ⟨w0, hw0, ha0, hid0⟩ := hEdb1
      refine ⟨w0, ?_, ha0, hid0⟩
      refine deleteStaleUnits_pres_mem _ _ _ w0 hw0 ?_
      intro x hx
      have hx1 : x ∈ _ := List.mem_of_mem_filter hx
      have hx2 := List.of_mem_filter hx
      intro hcc
      have hxa : x.apartmentId = aT := hCdb1 x hx1 (by rw [← hcc, hid0])
      have hxa2 : x.apartmentId = a2.id := eq_of_beq hx2
      rw [hxa] at hxa2
      exact hneA hxa2
    · refine processUnits_unitsPoint o snap now a2.id _
        (fun x => x.id = uT → x.apartmentId = aT) a2.units ?_ ?_ _ st' h ?_
      · intro u' _ w hw
        split
        · intro hid
          exact hw hid
        · exact hw
      · intro u' hu' hid
        exact absurd hid.symm (hneU u' hu')
      · intro w hw
        have hw1 := deleteStaleUnits_units_mem _ _ _ w hw
        exact hCdb1 w hw1

theorem processApartments_unitExChar (o : Oracle) (snap : List String) (now : Nat)
    (cid : String) (exIds : List String) (aT uT : String) :
    ∀ l : List ApartmentInput,
      (∀ a2 ∈ l, aT ≠ a2.id ∧ ∀ u' ∈ a2.units, uT ≠ u'.id) →
      ∀ st st', processApartments o snap now cid exIds l st = .ok st' →
        ((∃ w ∈ st.db.units, w.apartmentId = aT ∧ w.id = uT) ∧
          (∀ x ∈ st.db.units, x.id = uT → x.apartmentId = aT)) →
        ((∃ w ∈ st'.db.units, w.apartmentId = aT ∧ w.id = uT) ∧
          (∀ x ∈ st'.db.units, x.id = uT → x.apartmentId = aT)) := by
  intro l
  induction l with
  | nil =>
    intro _ st st' h hp
    unfold processApartments at h
    injection h with h
    rw [← h]
    exact hp
  | cons a rest ih =>
    intro hdis st st' h hp
    unfold processApartments at h
    cases ha : processApartment o snap now cid exIds a st with
    | error e => rw [ha] at h; simp at h
    | ok st1 =>
      rw [ha] at h
      refine ih (fun a2 ha2 => hdis a2 (List.mem_cons_of_mem a ha2)) st1 st' h ?_
      exact processApartment_unitExChar o snap now cid exIds a aT uT
        (hdis a (List.mem_cons_self a rest)).1 (hdis a (List.mem_cons_self a rest)).2
        st st1 ha hp

theorem deleteStaleInvites_filter_frame (pe : List String) (p : RenterInvitation → Bool) :
    ∀ (l : List RenterInvitation) (db : DB),
      (∀ x ∈ l, pe.contains (jsToLower x.renterEmail) = false →
        ∀ i ∈ db.invitations, p i = true → i.id ≠ x.id) →
      (deleteStaleInvites pe l db).invitations.filter p = db.invitations.filter p := by
  intro l
  induction l with
  | nil => intro db _; rfl
  | cons x rest ih =>
    intro db hyp
    unfold deleteStaleInvites
    cases hx : pe.contains (jsToLower x.renterEmail) with
    | true =>
      rw [if_pos rfl]
      exact ih db (fun y hy => hyp y (List.mem_cons_of_mem x hy))
    | false =>
      rw [if_neg Bool.false_ne_true]
      have h1 : (db.invitations.filter (fun i => !(i.id == x.id))).filter p =
          db.invitations.filter p := by
        refine filter_sub_frame p _ _ ?_
        intro i hi hpi
        have := hyp x (List.mem_cons_self x rest) hx i hi hpi
        simp [this]
      have h2 := ih ({ db with invitations :=
          db.invitations.filter (fun i => !(i.id == x.id)) } : DB) ?_
      · exact h2.trans h1
      · intro y hy hyf i hi hpi
        exact hyp y (List.mem_cons_of_mem x hy) hyf i (List.mem_of_mem_filter hi) hpi

theorem deleteStaleUnits_invT_frame (pids : List String) (uT : String) :
    ∀ (l : List RentalUnit) (db : DB),
      (∀ x ∈ l, x.id ≠ uT) →
      (deleteStaleUnits pids l db).invitations.filter (fun i => i.unitId == uT) =
        db.invitations.filter (fun i => i.unitId == uT) := by
  intro l
  induction l with
  | nil => intro db _; rfl
  | cons x rest ih =>
    intro db hyp
    unfold deleteStaleUnits
    by_cases hx : (pids.contains x.id) = true
    · rw [if_pos hx]
      exact ih db (fun y hy => hyp y (List.mem_cons_of_mem x hy))
    · rw [if_neg hx]
      have h1 : (db.invitations.filter (fun i => !(i.unitId == x.id))).filter
          (fun i => i.unitId == uT) = db.invitations.filter (fun i => i.unitId == uT) := by
        refine filter_sub_frame _ _ _ ?_
        intro i _ hpi
        have hiT : i.unitId = uT := eq_of_beq hpi
        have hne2 : uT ≠ x.id := fun hcc => hyp x (List.mem_cons_self x rest) hcc.symm
        simp [hiT, hne2]
      have h2 := ih (deleteUnitCascade db x.id) ?_
      · exact h2.trans h1
      · intro y hy
        exact hyp y (List.mem_cons_of_mem x hy)

theorem processRenters_filterT_frame (o : Oracle) (snap : List String) (now : Nat)
    (uid : String) (ex : List RenterInvitation) (uT : String) (hne : uid ≠ uT) :
    ∀ rs st st', processRenters o snap now uid ex rs st = .ok st' →
      (∀ i ∈ st.db.invitations, i.unitId = uT → ∀ x ∈ ex, i.id ≠ x.id) →
      st'.db.invitations.filter (fun i => i.unitId == uT) =
        st.db.invitations.filter (fun i => i.unitId == uT) := by
  intro rs
  induction rs with
  | nil =>
    intro st st' h _
    unfold processRenters at h
    injection h with h
    rw [← h]
  | cons r rest ih =>
    intro st st' h hstab
    unfold processRenters at h
    cases hr : processRenter o snap now uid ex r st with
    | error e => rw [hr] at h; simp at h
    | ok st1 =>
      rw [hr] at h
      have hr0 := hr
      unfold processRenter at hr
      by_cases hb : (jsToLower (jsTrim r.email) = "" ∨ jsTrim r.fullName = "")
      · rw [if_pos hb] at hr
        injection hr with hr
        subst hr
        exact ih st st' h hstab
      · rw [if_neg hb] at hr
        cases hl : lookupLast ex (jsToLower (jsTrim r.email)) with
        | some einv =>
          rw [hl] at hr
          injection hr with hr
          have heinv : einv ∈ ex := (lookupLast_mem ex _ einv hl).1
          have hgu : ∀ i : RenterInvitation,
              ((if i.id == einv.id then { i with renterName := jsTrim r.fullName }
                else i) : RenterInvitation).unitId = i.unitId := by
            intro i
            by_cases hc : (i.id == einv.id) = true
            · rw [if_pos hc]
            · rw [if_neg hc]
          have hgi : ∀ i : RenterInvitation,
              ((if i.id == einv.id then { i with renterName := jsTrim r.fullName }
                else i) : RenterInvitation).id = i.id := by
            intro i
            by_cases hc : (i.id == einv.id) = true
            · rw [if_pos hc]
            · rw [if_neg hc]
          have hst1 : st1.db.invitations = st.db.invitations.map (fun i =>
              if i.id == einv.id then { i with renterName := jsTrim r.fullName } else i) := by
            rw [← hr]
          have hfe : st1.db.invitations.filter (fun i => i.unitId == uT) =
              st.db.invitations.filter (fun i => i.unitId == uT) := by
            rw [hst1]
            rw [filter_map_comm _ _ _ (fun i => by
              show (((if i.id == einv.id then { i with renterName := jsTrim r.fullName }
                else i) : RenterInvitation).unitId == uT) = (i.unitId == uT)
              rw [hgu i])]
            refine list_map_self _ _ ?_
            intro i hi
            have hi1 : i ∈ st.db.invitations := List.mem_of_mem_filter hi
            have hi2b := List.of_mem_filter hi
            have hi2 : i.unitId = uT := eq_of_beq hi2b
            rw [if_neg ?_]
            intro hcc
            exact hstab i hi1 hi2 einv heinv (eq_of_beq hcc)
          have hstab1 : ∀ i ∈ st1.db.invitations, i.unitId = uT → ∀ x ∈ ex, i.id ≠ x.id := by
            intro i1 hi1 hu1 x hx
            rw [hst1] at hi1
            rw [List.mem_map] at hi1
            obtain ⟨i, hi, heq⟩ := hi1
            rw [← heq, hgi i]
            refine hstab i hi ?_ x hx
            rw [← hgu i, heq]
            exact hu1
          rw [ih st1 st' h hstab1, hfe]
        | none =>
          rw [hl] at hr
          cases hres : reserveAccessToken o snap 10 st.t with
          | error e => rw [hres] at hr; simp at hr
          | ok pr =>
            obtain ⟨tok, t'⟩ := pr
            obtain ⟨hg1, hg2, hrec⟩ :=
              processRenter_insert_elim o snap now uid ex r st st1 tok t' hb hl hres hr0
            have hst1 : st1.db.invitations = st.db.invitations ++
                [{ id := o.uuid st.u, unitId := uid, renterName := jsTrim r.fullName,
                   renterEmail := jsToLower (jsTrim r.email), accessToken := tok,
                   status := "pending", createdAt := now, activatedAt := none }] := by
              rw [hrec]
            have hfe : st1.db.invitations.filter (fun i => i.unitId == uT) =
                st.db.invitations.filter (fun i => i.unitId == uT) := by
              rw [hst1]
              refine filter_append_single_false _ _ _ ?_
              simp [hne]
            have hstab1 : ∀ i ∈ st1.db.invitations, i.unitId = uT → ∀ x ∈ ex, i.id ≠ x.id := by
              intro i1 hi1 hu1 x hx
              rw [hst1] at hi1
              rw [List.mem_append] at hi1
              rcases hi1 with hi1 | hi1
              · exact hstab i1 hi1 hu1 x hx
              · rw [List.mem_singleton] at hi1
                subst hi1
                exact absurd hu1 hne
            rw [ih st1 st' h hstab1, hfe]

theorem processUnit_filterT_frame (o : Oracle) (snap : List String) (now : Nat) (aid : String)
    (exIds : List String) (u2 : UnitInput) (uT : String) (hne : u2.id ≠ uT) :
    ∀ st st', processUnit o snap now aid exIds u2 st = .ok st' →
      (st.db.invitations.map (fun i => i.id)).Nodup →
      st'.db.invitations.filter (fun i => i.unitId == uT) =
        st.db.invitations.filter (fun i => i.unitId == uT) := by
  intro st st' h hnd
  unfold processUnit at h
  by_cases hb : jsTrim u2.unitNumber = ""
  · rw [if_pos hb] at h
    injection h with h
    rw [← h]
  · rw [if_neg hb] at h
    split at h
    · simp at h
    have hinv1 : ((if exIds.contains u2.id = true then
        ({ st.db with units := st.db.units.map (fun x =>
            if x.id == u2.id then { x with unitNumber := jsTrim u2.unitNumber } else x) } : DB)
      else
        ({ st.db with units := st.db.units ++
            [{ id := u2.id, apartmentId := aid, unitNumber := jsTrim u2.unitNumber,
               createdAt := now }] } : DB)) : DB).invitations = st.db.invitations := by
      split <;> rfl
    have hstab0 : ∀ i ∈ st.db.invitations, i.unitId = uT →
        ∀ x ∈ ((if exIds.contains u2.id = true then
          ({ st.db with units := st.db.units.map (fun x =>
              if x.id == u2.id then { x with unitNumber := jsTrim u2.unitNumber } else x) } : DB)
        else
          ({ st.db with units := st.db.units ++
              [{ id := u2.id, apartmentId := aid, unitNumber := jsTrim u2.unitNumber,
                 createdAt := now }] } : DB)) : DB).invitations.filter
          (fun i => i.unitId == u2.id), i.id ≠ x.id := by
      rw [hinv1]
      intro i hi hiT x hx hid
      have hx1 : x ∈ st.db.invitations := List.mem_of_mem_filter hx
      have hx2 := List.of_mem_filter hx
      have hix : i = x := List.inj_on_of_nodup_map hnd hi hx1 hid
      have hxu : x.unitId = u2.id := eq_of_beq hx2
      rw [← hix] at hxu
      rw [hiT] at hxu
      exact hne hxu.symm
    have hren := processRenters_filterT_frame o snap now u2.id _ uT
      (by intro hcc; exact hne hcc) u2.renters _ st' h ?_
    · have hdel := deleteStaleInvites_filter_frame
        (u2.renters.map (fun r => jsToLower (jsTrim r.email)))
        (fun i => i.unitId == uT)
        (((if exIds.contains u2.id = true then
          ({ st.db with units := st.db.units.map (fun x =>
              if x.id == u2.id then { x with unitNumber := jsTrim u2.unitNumber } else x) } : DB)
        else
          ({ st.db with units := st.db.units ++
              [{ id := u2.id, apartmentId := aid, unitNumber := jsTrim u2.unitNumber,
                 createdAt := now }] } : DB)) : DB).invitations.filter
          (fun i => i.unitId == u2.id))
        ((if exIds.contains u2.id = true then
          ({ st.db with units := st.db.units.map (fun x =>
              if x.id == u2.id then { x with unitNumber := jsTrim u2.unitNumber } else x) } : DB)
        else
          ({ st.db with units := st.db.units ++
              [{ id := u2.id, apartmentId := aid, unitNumber := jsTrim u2.unitNumber,
                 createdAt := now }] } : DB)) : DB) ?_
      · exact hren.trans (hdel.trans
          (congrArg (List.filter (fun i => i.unitId == uT)) hinv1))
      · intro x hx _ i hi hpi
        rw [hinv1] at hi
        exact hstab0 i hi (eq_of_beq hpi) x hx
    · intro i hi hiT x hx
      have hi2 := deleteStaleInvites_mem _ _ _ i hi
      rw [hinv1] at hi2
      exact hstab0 i hi2 hiT x hx

theorem processUnits_filterT_frame (o : Oracle) (snap : List String) (now : Nat)
    (aid : String) (exIds : List String) (uT : String)
    (base : List RenterInvitation) (u0 : Nat)
    (hD1 : ∀ k, ∀ i0 ∈ base, o.uuid k ≠ i0.id)
    (hD2 : ∀ j k, o.uuid j = o.uuid k → j = k) :
    ∀ us : List UnitInput, (∀ u2 ∈ us, u2.id ≠ uT) →
      ∀ st st', processUnits o snap now aid exIds us st = .ok st' →
        invProvenance base o u0 st → (st.db.invitations.map (fun i => i.id)).Nodup →
        st'.db.invitations.filter (fun i => i.unitId == uT) =
          st.db.invitations.filter (fun i => i.unitId == uT) := by
  intro us
  induction us with
  | nil =>
    intro _ st st' h _ _
    unfold processUnits at h
    injection h with h
    rw [← h]
  | cons v rest ih =>
    intro hdis st st' h hp hnd
    unfold processUnits at h
    cases hv : processUnit o snap now aid exIds v st with
    | error e => rw [hv] at h; simp at h
    | ok st1 =>
      rw [hv] at h
      obtain ⟨hp1, hnd1⟩ := processUnit_idsOk o snap now aid exIds base u0 hD1 hD2
        v st st1 hv hp hnd
      rw [ih (fun u3 hu3 => hdis u3 (List.mem_cons_of_mem v hu3)) st1 st' h hp1 hnd1]
      exact processUnit_filterT_frame o snap now aid exIds v uT
        (hdis v (List.mem_cons_self v rest)) st st1 hv hnd

theorem processApartment_filterT_frame (o : Oracle) (snap : List String) (now : Nat)
    (cid : String) (exIds : List String) (a2 : ApartmentInput) (aT uT : String)
    (base : List RenterInvitation) (u0 : Nat)
    (hD1 : ∀ k, ∀ i0 ∈ base, o.uuid k ≠ i0.id)
    (hD2 : ∀ j k, o.uuid j = o.uuid k → j = k)
    (hneA : aT ≠ a2.id) (hneU : ∀ u' ∈ a2.units, u'.id ≠ uT) :
    ∀ st st', processApartment o snap now cid exIds a2 st = .ok st' →
      invProvenance base o u0 st → (st.db.invitations.map (fun i => i.id)).Nodup →
      (∀ w ∈ st.db.units, w.id = uT → w.apartmentId = aT) →
      st'.db.invitations.filter (fun i => i.unitId == uT) =
        st.db.invitations.filter (fun i => i.unitId == uT) := by
  intro st st' h hp hnd hchar
  unfold processApartment at h
  by_cases hb : jsTrim a2.name = ""
  · rw [if_pos hb] at h
    injection h with h
    rw [← h]
  · rw [if_neg hb] at h
    split at h
    · simp at h
    have hinv1 : ((if exIds.contains a2.id = true then
        ({ st.db with apartments := st.db.apartments.map (fun b2 =>
            if b2.id == a2.id then
              { b2 with name := jsTrim a2.name, postalCode := jsTrim a2.postalCode }
            else b2) } : DB)
      else
        ({ st.db with apartments := st.db.apartments ++
            [{ id := a2.id, companyId := cid, name := jsTrim a2.name,
               postalCode := jsTrim a2.postalCode, createdAt := now }] } : DB)) : DB).invitations =
        st.db.invitations := by
      split <;> rfl
    have hunits1 : ((if exIds.contains a2.id = true then
        ({ st.db with apartments := st.db.apartments.map (fun b2 =>
            if b2.id == a2.id then
              { b2 with name := jsTrim a2.name, postalCode := jsTrim a2.postalCode }
            else b2) } : DB)
      else
        ({ st.db with apartments := st.db.apartments ++
            [{ id := a2.id, companyId := cid, name := jsTrim a2.name,
               postalCode := jsTrim a2.postalCode, createdAt := now }] } : DB)) : DB).units =
        st.db.units := by
      split <;> rfl
    have hdel := deleteStaleUnits_invT_frame (a2.units.map (fun x => x.id)) uT
      (((if exIds.contains a2.id = true then
        ({ st.db with apartments := st.db.apartments.map (fun b2 =>
            if b2.id == a2.id then
              { b2 with name := jsTrim a2.name, postalCode := jsTrim a2.postalCode }
            else b2) } : DB)
      else
        ({ st.db with apartments := st.db.apartments ++
            [{ id := a2.id, companyId := cid, name := jsTrim a2.name,
               postalCode := jsTrim a2.postalCode, createdAt := now }] } : DB)) : DB).units.filter
        (fun w => w.apartmentId == a2.id))
      ((if exIds.contains a2.id = true then
        ({ st.db with apartments := st.db.apartments.map (fun b2 =>
            if b2.id == a2.id then
              { b2 with name := jsTrim a2.name, postalCode := jsTrim a2.postalCode }
            else b2) } : DB)
      else
        ({ st.db with apartments := st.db.apartments ++
            [{ id := a2.id, companyId := cid, name := jsTrim a2.name,
               postalCode := jsTrim a2.postalCode, createdAt := now }] } : DB)) : DB) ?_
    · have hren := processUnits_filterT_frame o snap now a2.id _ uT base u0 hD1 hD2
        a2.units hneU _ st' h ?_ ?_
      · exact hren.trans (hdel.trans
          (congrArg (List.filter (fun i => i.unitId == uT)) hinv1))
      · refine ⟨hp.1, ?_⟩
        intro i hi
        have hi1 := deleteStaleUnits_inv_mem _ _ _ i hi
        rw [hinv1] at hi1
        exact hp.2 i hi1
      · have hs := deleteStaleUnits_inv_sublist (a2.units.map (fun x => x.id))
          (((if exIds.contains a2.id = true then
            ({ st.db with apartments := st.db.apartments.map (fun b2 =>
                if b2.id == a2.id then
                  { b2 with name := jsTrim a2.name, postalCode := jsTrim a2.postalCode }
                else b2) } : DB)
          else
            ({ st.db with apartments := st.db.apartments ++
                [{ id := a2.id, companyId := cid, name := jsTrim a2.name,
                   postalCode := jsTrim a2.postalCode,
                   createdAt := now }] } : DB)) : DB).units.filter
            (fun w => w.apartmentId == a2.id))
          ((if exIds.contains a2.id = true then
            ({ st.db with apartments := st.db.apartments.map (fun b2 =>
                if b2.id == a2.id then
                  { b2 with name := jsTrim a2.name, postalCode := jsTrim a2.postalCode }
                else b2) } : DB)
          else
            ({ st.db with apartments := st.db.apartments ++
                [{ id := a2.id, companyId := cid, name := jsTrim a2.name,
                   postalCode := jsTrim a2.postalCode, createdAt := now }] } : DB)) : DB)
        have hs2 := hs.map (fun i => i.id)
        refine List.Nodup.sublist hs2 ?_
        rw [hinv1]
        exact hnd
    · intro x hx
      have hx1 : x ∈ st.db.units := by
        have := List.mem_of_mem_filter hx
        rw [hunits1] at this
        exact this
      have hx2 := List.of_mem_filter hx
      intro hcc
      have hxa : x.apartmentId = aT := hchar x hx1 hcc
      have hxa2 : x.apartmentId = a2.id := eq_of_beq hx2
      rw [hxa] at hxa2
      exact hneA hxa2

theorem processApartments_filterT_frame (o : Oracle) (snap : List String) (now : Nat)
    (cid : String) (exIds : List String) (aT uT : String)
    (base : List RenterInvitation) (u0 : Nat)
    (hD1 : ∀ k, ∀ i0 ∈ base, o.uuid k ≠ i0.id)
    (hD2 : ∀ j k, o.uuid j = o.uuid k → j = k) :
    ∀ l : List ApartmentInput, (∀ a2 ∈ l, aT ≠ a2.id ∧ ∀ u' ∈ a2.units, u'.id ≠ uT) →
      ∀ st st', processApartments o snap now cid exIds l st = .ok st' →
        invProvenance base o u0 st → (st.db.invitations.map (fun i => i.id)).Nodup →
        (∀ w ∈ st.db.units, w.id = uT → w.apartmentId = aT) →
        st'.db.invitations.filter (fun i => i.unitId == uT) =
          st.db.invitations.filter (fun i => i.unitId == uT) := by
  intro l
  induction l with
  | nil =>
    intro _ st st' h _ _ _
    unfold processApartments at h
    injection h with h
    rw [← h]
  | cons a rest ih =>
    intro hdis st st' h hp hnd hchar
    unfold processApartments at h
    cases ha : processApartment o snap now cid exIds a st with
    | error e => rw [ha] at h; simp at h
    | ok st1 =>
      rw [ha] at h
      obtain ⟨hp1, hnd1⟩ := processApartment_idsOk o snap now cid exIds base u0 hD1 hD2
        a st st1 ha hp hnd
      have hchar1 : ∀ w ∈ st1.db.units, w.id = uT → w.apartmentId = aT := by
        refine processApartment_unitsPoint o snap now cid exIds a
          (fun w => w.id = uT → w.apartmentId = aT) ?_ ?_ st st1 ha hchar
        · intro u' _ w hw
          split
          · intro hid
            exact hw hid
          · exact hw
        · intro u' hu' hid
          exact absurd hid ((hdis a (List.mem_cons_self a rest)).2 u' hu')
      rw [ih (fun a3 ha3 => hdis a3 (List.mem_cons_of_mem a ha3)) st1 st' h hp1 hnd1 hchar1]
      exact processApartment_filterT_frame o snap now cid exIds a aT uT base u0 hD1 hD2
        (hdis a (List.mem_cons_self a rest)).1
        (hdis a (List.mem_cons_self a rest)).2 st st1 ha hp hnd hchar

theorem processRenters_match_stable (o : Oracle) (snap : List String) (now : Nat)
    (uT : String) (ex : List RenterInvitation) (K nm : String) :
    ∀ rs : List RenterInput, (∀ r' ∈ rs, jsToLower (jsTrim r'.email) ≠ K) →
      ∀ st st', processRenters o snap now uT ex rs st = .ok st' →
        (∀ i ∈ st.db.invitations, ∀ x ∈ ex, i.id = x.id → i.renterEmail = x.renterEmail) →
        (∀ x ∈ ex, ∀ j, st.u ≤ j → o.uuid j ≠ x.id) →
        (∃ tgt, lookupLast (st.db.invitations.filter (fun i => i.unitId == uT)) K = some tgt ∧
          tgt.renterName = nm ∧ jsToLower tgt.renterEmail = K) →
        (∃ tgt, lookupLast (st'.db.invitations.filter (fun i => i.unitId == uT)) K = some tgt ∧
          tgt.renterName = nm ∧ jsToLower tgt.renterEmail = K) := by
  intro rs
  induction rs with
  | nil =>
    intro _ st st' h _ _ hM
    unfold processRenters at h
    injection h with h
    rw [← h]
    exact hM
  | cons r rest ih =>
    intro hK st st' h hstab hfr hM
    unfold processRenters at h
    cases hr : processRenter o snap now uT ex r st with
    | error e => rw [hr] at h; simp at h
    | ok st1 =>
      rw [hr] at h
      have hr0 := hr
      unfold processRenter at hr
      by_cases hb : (jsToLower (jsTrim r.email) = "" ∨ jsTrim r.fullName = "")
      · rw [if_pos hb] at hr
        injection hr with hr
        subst hr
        exact ih (fun r2 h2 => hK r2 (List.mem_cons_of_mem r h2)) st st' h hstab hfr hM
      · rw [if_neg hb] at hr
        cases hl : lookupLast ex (jsToLower (jsTrim r.email)) with
        | some einv =>
          rw [hl] at hr
          have heinv : einv ∈ ex ∧ jsToLower einv.renterEmail = jsToLower (jsTrim r.email) :=
            lookupLast_mem ex _ einv hl
          have hst1 : st1.db.invitations = st.db.invitations.map (fun i =>
              if i.id == einv.id then { i with renterName := jsTrim r.fullName } else i) := by
            injection hr with hr
            rw [← hr]
          have hu1 : st1.u = st.u := by
            injection hr with hr
            rw [← hr]
          have hgu : ∀ i : RenterInvitation,
              ((if i.id == einv.id then { i with renterName := jsTrim r.fullName }
                else i) : RenterInvitation).unitId = i.unitId := by
            intro i
            by_cases hc : (i.id == einv.id) = true
            · rw [if_pos hc]
            · rw [if_neg hc]
          have hgi : ∀ i : RenterInvitation,
              ((if i.id == einv.id then { i with renterName := jsTrim r.fullName }
                else i) : RenterInvitation).id = i.id := by
            intro i
            by_cases hc : (i.id == einv.id) = true
            · rw [if_pos hc]
            · rw [if_neg hc]
          have hge : ∀ i : RenterInvitation,
              ((if i.id == einv.id then { i with renterName := jsTrim r.fullName }
                else i) : RenterInvitation).renterEmail = i.renterEmail := by
            intro i
            by_cases hc : (i.id == einv.id) = true
            · rw [if_pos hc]
            · rw [if_neg hc]
          refine ih (fun r2 h2 => hK r2 (List.mem_cons_of_mem r h2)) st1 st' h ?_ ?_ ?_
          · intro i1 hi1 x hx
            rw [hst1] at hi1
            rw [List.mem_map] at hi1
            obtain ⟨i, hi, heq⟩ := hi1
            rw [← heq, hgi i, hge i]
            exact hstab i hi x hx
          · rw [hu1]
            exact hfr
          · obtain ⟨tgt, hlk, hnm, hkey⟩ := hM
            have htmem : tgt ∈ st.db.invitations.filter (fun i => i.unitId == uT) :=
              (lookupLast_mem _ K tgt hlk).1
            have htmem2 : tgt ∈ st.db.invitations := List.mem_of_mem_filter htmem
            have htne : (tgt.id == einv.id) = false := by
              rw [← Bool.not_eq_true]
              intro hcc
              have heq2 := hstab tgt htmem2 einv heinv.1 (eq_of_beq hcc)
              have : jsToLower tgt.renterEmail = jsToLower einv.renterEmail := by
                rw [heq2]
              rw [hkey, heinv.2] at this
              exact hK r (List.mem_cons_self r rest) this.symm
            refine ⟨tgt, ?_, hnm, hkey⟩
            rw [hst1]
            rw [filter_map_comm _ _ _ (fun i => by
              show (((if i.id == einv.id then { i with renterName := jsTrim r.fullName }
                else i) : RenterInvitation).unitId == uT) = (i.unitId == uT)
              rw [hgu i])]
            rw [lookupLast_map _ K _ (fun i => by rw [hge i])]
            rw [hlk]
            show some (if (tgt.id == einv.id) = true then
              { tgt with renterName := jsTrim r.fullName } else tgt) = some tgt
            rw [htne]
            simp
        | none =>
          rw [hl] at hr
          cases hres : reserveAccessToken o snap 10 st.t with
          | error e => rw [hres] at hr; simp at hr
          | ok pr =>
            obtain ⟨tok, t'⟩ := pr
            obtain ⟨hg1, hg2, hrec⟩ :=
              processRenter_insert_elim o snap now uT ex r st st1 tok t' hb hl hres hr0
            have hst1 : st1.db.invitations = st.db.invitations ++
                [{ id := o.uuid st.u, unitId := uT, renterName := jsTrim r.fullName,
                   renterEmail := jsToLower (jsTrim r.email), accessToken := tok,
                   status := "pending", createdAt := now, activatedAt := none }] := by
              rw [hrec]
            have hu1 : st1.u = st.u + 1 := by
              rw [hrec]
            refine ih (fun r2 h2 => hK r2 (List.mem_cons_of_mem r h2)) st1 st' h ?_ ?_ ?_
            · intro i1 hi1 x hx
              rw [hst1] at hi1
              rw [List.mem_append] at hi1
              rcases hi1 with hi1 | hi1
              · exact hstab i1 hi1 x hx
              · rw [List.mem_singleton] at hi1
                subst hi1
                intro heq
                exact absurd heq (hfr x hx st.u (Nat.le_refl _))
            · intro x hx j hj
              exact hfr x hx j (by rw [hu1] at hj; exact Nat.le_of_succ_le hj)
            · obtain ⟨tgt, hlk, hnm, hkey⟩ := hM
              refine ⟨tgt, ?_, hnm, hkey⟩
              rw [hst1]
              rw [filter_append_single_true _ _ _ (by simp)]
              rw [lookupLast_append_ne]
              · exact hlk
              · show (jsToLower (jsToLower (jsTrim r.email)) == K) = false
                rw [jsToLower_idem]
                rw [← Bool.not_eq_true]
                intro hcc
                exact hK r (List.mem_cons_self r rest) (eq_of_beq hcc)

theorem processRenters_establish (o : Oracle) (snap : List String) (now : Nat)
    (uT : String) (ex : List RenterInvitation) :
    ∀ rs : List RenterInput,
      (rs.map (fun r => jsToLower (jsTrim r.email))).Nodup →
      ∀ st st', processRenters o snap now uT ex rs st = .ok st' →
        (∀ i ∈ st.db.invitations, ∀ x ∈ ex, i.id = x.id → i.renterEmail = x.renterEmail) →
        (∀ x ∈ ex, ∀ j, st.u ≤ j → o.uuid j ≠ x.id) →
        (∀ r0 ∈ rs, ∀ einv, lookupLast ex (jsToLower (jsTrim r0.email)) = some einv →
          ∃ tgt, lookupLast (st.db.invitations.filter (fun i => i.unitId == uT))
              (jsToLower (jsTrim r0.email)) = some tgt ∧
            tgt.id = einv.id ∧ jsToLower tgt.renterEmail = jsToLower (jsTrim r0.email)) →
        ∀ r ∈ rs, jsToLower (jsTrim r.email) ≠ "" → jsTrim r.fullName ≠ "" →
          ∃ tgt, lookupLast (st'.db.invitations.filter (fun i => i.unitId == uT))
              (jsToLower (jsTrim r.email)) = some tgt ∧
            tgt.renterName = jsTrim r.fullName ∧
            jsToLower tgt.renterEmail = jsToLower (jsTrim r.email) := by
  intro rs
  induction rs with
  | nil =>
    intro _ st st' _ _ _ _ r hr
    exact absurd hr (List.not_mem_nil r)
  | cons r rest ih =>
    intro hkeys st st' h hstab hfr hLC r2 hr2 hem hnm
    unfold processRenters at h
    cases hr : processRenter o snap now uT ex r st with
    | error e => rw [hr] at h; simp at h
    | ok st1 =>
      rw [hr] at h
      have hkeys2 := List.nodup_cons.mp hkeys
      have hr0 := hr
      unfold processRenter at hr
      by_cases hb : (jsToLower (jsTrim r.email) = "" ∨ jsTrim r.fullName = "")
      · rw [if_pos hb] at hr
        injection hr with hr
        subst hr
        rcases List.mem_cons.mp hr2 with rfl | hr3
        · rcases hb with hb | hb
          · exact absurd hb hem
          · exact absurd hb hnm
        · exact ih hkeys2.2 st st' h hstab hfr
            (fun r0 h0 => hLC r0 (List.mem_cons_of_mem r h0)) r2 hr3 hem hnm
      · rw [if_neg hb] at hr
        cases hl : lookupLast ex (jsToLower (jsTrim r.email)) with
        | some einv =>
          rw [hl] at hr
          have heinv : einv ∈ ex ∧ jsToLower einv.renterEmail = jsToLower (jsTrim r.email) :=
            lookupLast_mem ex _ einv hl
          have hst1 : st1.db.invitations = st.db.invitations.map (fun i =>
              if i.id == einv.id then { i with renterName := jsTrim r.fullName } else i) := by
            injection hr with hr
            rw [← hr]
          have hu1 : st1.u = st.u := by
            injection hr with hr
            rw [← hr]
          have hgu : ∀ i : RenterInvitation,
              ((if i.id == einv.id then { i with renterName := jsTrim r.fullName }
                else i) : RenterInvitation).unitId = i.unitId := by
            intro i
            by_cases hc : (i.id == einv.id) = true
            · rw [if_pos hc]
            · rw [if_neg hc]
          have hgi : ∀ i : RenterInvitation,
              ((if i.id == einv.id then { i with renterName := jsTrim r.fullName }
                else i) : RenterInvitation).id = i.id := by
            intro i
            by_cases hc : (i.id == einv.id) = true
            · rw [if_pos hc]
            · rw [if_neg hc]
          have hge : ∀ i : RenterInvitation,
              ((if i.id == einv.id then { i with renterName := jsTrim r.fullName }
                else i) : RenterInvitation).renterEmail = i.renterEmail := by
            intro i
            by_cases hc : (i.id == einv.id) = true
            · rw [if_pos hc]
            · rw [if_neg hc]
          have hstab1 : ∀ i1 ∈ st1.db.invitations, ∀ x ∈ ex,
              i1.id = x.id → i1.renterEmail = x.renterEmail := by
            intro i1 hi1 x hx
            rw [hst1] at hi1
            rw [List.mem_map] at hi1
            obtain ⟨i, hi, heq⟩ := hi1
            rw [← heq, hgi i, hge i]
            exact hstab i hi x hx
          have hfr1 : ∀ x ∈ ex, ∀ j, st1.u ≤ j → o.uuid j ≠ x.id := by
            rw [hu1]
            exact hfr
          have hfilter1 : st1.db.invitations.filter (fun i => i.unitId == uT) =
              (st.db.invitations.filter (fun i => i.unitId == uT)).map (fun i =>
                if i.id == einv.id then { i with renterName := jsTrim r.fullName } else i) := by
            rw [hst1]
            rw [filter_map_comm _ _ _ (fun i => by
              show (((if i.id == einv.id then { i with renterName := jsTrim r.fullName }
                else i) : RenterInvitation).unitId == uT) = (i.unitId == uT)
              rw [hgu i])]
          have hLC1 : ∀ r0 ∈ rest, ∀ einv0,
              lookupLast ex (jsToLower (jsTrim r0.email)) = some einv0 →
              ∃ tgt, lookupLast (st1.db.invitations.filter (fun i => i.unitId == uT))
                  (jsToLower (jsTrim r0.email)) = some tgt ∧
                tgt.id = einv0.id ∧
                jsToLower tgt.renterEmail = jsToLower (jsTrim r0.email) := by
            intro r0 h0 einv0 hl0
            obtain ⟨tgt, hlk, hid, hkey⟩ := hLC r0 (List.mem_cons_of_mem r h0) einv0 hl0
            refine ⟨if (tgt.id == einv.id) = true then
                { tgt with renterName := jsTrim r.fullName } else tgt, ?_, ?_, ?_⟩
            · rw [hfilter1]
              rw [lookupLast_map _ _ _ (fun i => by rw [hge i])]
              rw [hlk]
              rfl
            · by_cases hc : (tgt.id == einv.id) = true
              · rw [if_pos hc]
                exact hid
              · rw [if_neg hc]
                exact hid
            · by_cases hc : (tgt.id == einv.id) = true
              · rw [if_pos hc]
                exact hkey
              · rw [if_neg hc]
                exact hkey
          rcases List.mem_cons.mp hr2 with rfl | hr3
          · obtain ⟨tgt, hlk, hid, hkey⟩ := hLC r2 (List.mem_cons_self r2 rest) einv hl
            have hM1 : ∃ tgt2, lookupLast
                (st1.db.invitations.filter (fun i => i.unitId == uT))
                (jsToLower (jsTrim r2.email)) = some tgt2 ∧
                tgt2.renterName = jsTrim r2.fullName ∧
                jsToLower tgt2.renterEmail = jsToLower (jsTrim r2.email) := by
              refine ⟨{ tgt with renterName := jsTrim r2.fullName }, ?_, rfl, hkey⟩
              rw [hfilter1]
              rw [lookupLast_map _ _ _ (fun i => by rw [hge i])]
              rw [hlk]
              show some (if (tgt.id == einv.id) = true then
                { tgt with renterName := jsTrim r2.fullName } else tgt) =
                some { tgt with renterName := jsTrim r2.fullName }
              rw [if_pos ?_]
              rw [hid]
              exact beq_self_eq_true _
            have hknotin : jsToLower (jsTrim r2.email) ∉
                rest.map (fun r => jsToLower (jsTrim r.email)) := hkeys2.1
            exact processRenters_match_stable o snap now uT ex _ _ rest
              (fun r3 h3 hcc => hknotin (by rw [← hcc]; exact List.mem_map_of_mem _ h3))
              st1 st' h hstab1 hfr1 hM1
          · exact ih hkeys2.2 st1 st' h hstab1 hfr1 hLC1 r2 hr3 hem hnm
        | none =>
          rw [hl] at hr
          cases hres : reserveAccessToken o snap 10 st.t with
          | error e => rw [hres] at hr; simp at hr
          | ok pr =>
            obtain ⟨tok, t'⟩ := pr
            obtain ⟨hg1, hg2, hrec⟩ :=
              processRenter_insert_elim o snap now uT ex r st st1 tok t' hb hl hres hr0
            have hst1 : st1.db.invitations = st.db.invitations ++
                [{ id := o.uuid st.u, unitId := uT, renterName := jsTrim r.fullName,
                   renterEmail := jsToLower (jsTrim r.email), accessToken := tok,
                   status := "pending", createdAt := now, activatedAt := none }] := by
              rw [hrec]
            have hu1 : st1.u = st.u + 1 := by
              rw [hrec]
            have hstab1 : ∀ i1 ∈ st1.db.invitations, ∀ x ∈ ex,
                i1.id = x.id → i1.renterEmail = x.renterEmail := by
              intro i1 hi1 x hx
              rw [hst1] at hi1
              rw [List.mem_append] at hi1
              rcases hi1 with hi1 | hi1
              · exact hstab i1 hi1 x hx
              · rw [List.mem_singleton] at hi1
                subst hi1
                intro heq
                exact absurd heq (hfr x hx st.u (Nat.le_refl _))
            have hfr1 : ∀ x ∈ ex, ∀ j, st1.u ≤ j → o.uuid j ≠ x.id := by
              intro x hx j hj
              exact hfr x hx j (by rw [hu1] at hj; exact Nat.le_of_succ_le hj)
            have hfilter1 : st1.db.invitations.filter (fun i => i.unitId == uT) =
                st.db.invitations.filter (fun i => i.unitId == uT) ++
                [{ id := o.uuid st.u, unitId := uT, renterName := jsTrim r.fullName,
                   renterEmail := jsToLower (jsTrim r.email), accessToken := tok,
                   status := "pending", createdAt := now, activatedAt := none }] := by
              rw [hst1]
              exact filter_append_single_true _ _ _ (by simp)
            have hLC1 : ∀ r0 ∈ rest, ∀ einv0,
                lookupLast ex (jsToLower (jsTrim r0.email)) = some einv0 →
                ∃ tgt, lookupLast (st1.db.invitations.filter (fun i => i.unitId == uT))
                    (jsToLower (jsTrim r0.email)) = some tgt ∧
                  tgt.id = einv0.id ∧
                  jsToLower tgt.renterEmail = jsToLower (jsTrim r0.email) := by
              intro r0 h0 einv0 hl0
              obtain ⟨tgt, hlk, hid, hkey⟩ := hLC r0 (List.mem_cons_of_mem r h0) einv0 hl0
              refine ⟨tgt, ?_, hid, hkey⟩
              rw [hfilter1]
              rw [lookupLast_append_ne]
              · exact hlk
              · show (jsToLower (jsToLower (jsTrim r.email)) ==
                  jsToLower (jsTrim r0.email)) = false
                rw [jsToLower_idem]
                rw [← Bool.not_eq_true]
                intro hcc
                have heq2 := eq_of_beq hcc
                rw [heq2] at hl
                rw [hl] at hl0
                exact Option.noConfusion hl0
            rcases List.mem_cons.mp hr2 with rfl | hr3
            · have hM1 : ∃ tgt2, lookupLast
                  (st1.db.invitations.filter (fun i => i.unitId == uT))
                  (jsToLower (jsTrim r2.email)) = some tgt2 ∧
                  tgt2.renterName = jsTrim r2.fullName ∧
                  jsToLower tgt2.renterEmail = jsToLower (jsTrim r2.email) := by
                refine ⟨RenterInvitation.mk (o.uuid st.u) uT (jsTrim r2.fullName)
                    (jsToLower (jsTrim r2.email)) tok "pending" now none, ?_, rfl, ?_⟩
                · rw [hfilter1]
                  refine lookupLast_append_eq _ _ _ ?_
                  show (jsToLower (jsToLower (jsTrim r2.email)) ==
                    jsToLower (jsTrim r2.email)) = true
                  rw [jsToLower_idem]
                  exact beq_self_eq_true _
                · show jsToLower (jsToLower (jsTrim r2.email)) = jsToLower (jsTrim r2.email)
                  exact jsToLower_idem _
              have hknotin : jsToLower (jsTrim r2.email) ∉
                  rest.map (fun r => jsToLower (jsTrim r.email)) := hkeys2.1
              exact processRenters_match_stable o snap now uT ex _ _ rest
                (fun r3 h3 hcc => hknotin (by rw [← hcc]; exact List.mem_map_of_mem _ h3))
                st1 st' h hstab1 hfr1 hM1
            · exact ih hkeys2.2 st1 st' h hstab1 hfr1 hLC1 r2 hr3 hem hnm

theorem processUnit_inv_establish (o : Oracle) (snap : List String) (now : Nat)
    (u : UnitInput) (base : List RenterInvitation) (u0 : Nat)
    (hD1 : ∀ k, ∀ i0 ∈ base, o.uuid k ≠ i0.id)
    (hD2 : ∀ j k, o.uuid j = o.uuid k → j = k)
    (hkeysN : (u.renters.map (fun r => jsToLower (jsTrim r.email))).Nodup) :
    ∀ (dbx : DB) (st st' : St),
      dbx.invitations = st.db.invitations →
      processRenters o snap now u.id
        (dbx.invitations.filter (fun i => i.unitId == u.id)) u.renters
        (St.mk (deleteStaleInvites (u.renters.map (fun r => jsToLower (jsTrim r.email)))
          (dbx.invitations.filter (fun i => i.unitId == u.id)) dbx) st.u st.t) = .ok st' →
      invProvenance base o u0 st →
      (st.db.invitations.map (fun i => i.id)).Nodup →
      ((∀ i ∈ st'.db.invitations, i.unitId = u.id →
          jsToLower i.renterEmail ∈ unitEmailKeys u) ∧
       (∀ r ∈ u.renters, jsToLower (jsTrim r.email) ≠ "" → jsTrim r.fullName ≠ "" →
         ∃ tgt, lookupLast (st'.db.invitations.filter (fun i => i.unitId == u.id))
             (jsToLower (jsTrim r.email)) = some tgt ∧
           tgt.renterName = jsTrim r.fullName)) := by
  intro dbx st st' hinv h hp hnd
  have hstab0 : ∀ i ∈ st.db.invitations,
      ∀ x ∈ dbx.invitations.filter (fun i => i.unitId == u.id),
      i.id = x.id → i.renterEmail = x.renterEmail := by
    intro i hi x hx hid
    have hx1 : x ∈ st.db.invitations := by
      have := List.mem_of_mem_filter hx
      rw [hinv] at this
      exact this
    have hix : i = x := List.inj_on_of_nodup_map hnd hi hx1 hid
    rw [hix]
  have hfr0 : ∀ x ∈ dbx.invitations.filter (fun i => i.unitId == u.id),
      ∀ j, st.u ≤ j → o.uuid j ≠ x.id := by
    intro x hx j hj
    have hx1 : x ∈ st.db.invitations := by
      have := List.mem_of_mem_filter hx
      rw [hinv] at this
      exact this
    rcases hp.2 x hx1 with ⟨i0, hb0, hcore⟩ | ⟨j0, _, hj0, hidj⟩
    · intro hcc
      exact hD1 j i0 hb0 (by rw [hcc, hcore.1])
    · intro hcc
      rw [hidj] at hcc
      have hjj := hD2 j j0 hcc
      subst hjj
      exact absurd hj (Nat.not_le_of_lt hj0)
  have hmem2 : ∀ i ∈ (deleteStaleInvites
      (u.renters.map (fun r => jsToLower (jsTrim r.email)))
      (dbx.invitations.filter (fun i => i.unitId == u.id)) dbx).invitations,
      i ∈ st.db.invitations := by
    intro i hi
    have := deleteStaleInvites_mem _ _ _ i hi
    rw [hinv] at this
    exact this
  constructor
  · refine processRenters_invPoint o snap now u.id _
      (fun i => i.unitId = u.id → jsToLower i.renterEmail ∈ unitEmailKeys u) 0
      (fun i nm hi => hi) u.renters ?_ _ st' h (Nat.zero_le _) ?_
    · intro r hr j _ tok _
      show jsToLower (jsToLower (jsTrim r.email)) ∈ unitEmailKeys u
      rw [jsToLower_idem]
      exact List.mem_map_of_mem _ hr
    · intro i hi hiu
      have hi1 := hmem2 i hi
      have hiex : i ∈ dbx.invitations.filter (fun i2 => i2.unitId == u.id) := by
        refine List.mem_filter.mpr ⟨?_, ?_⟩
        · rw [hinv]
          exact hi1
        · simp [hiu]
      cases hc : (u.renters.map (fun r => jsToLower (jsTrim r.email))).contains
          (jsToLower i.renterEmail) with
      | true => exact List.elem_iff.mp hc
      | false => exact absurd rfl (deleteStaleInvites_removes _ _ _ i hiex hc i hi)
  · have hmain := processRenters_establish o snap now u.id _ u.renters hkeysN _ st' h
      ?_ ?_ ?_
    · intro r hr hem hnm
      obtain ⟨tgt, hlk, hnm2, _⟩ := hmain r hr hem hnm
      exact ⟨tgt, hlk, hnm2⟩
    · intro i hi x hx hid
      exact hstab0 i (hmem2 i hi) x hx hid
    · intro x hx j hj
      exact hfr0 x hx j hj
    · intro r0 h0 einv hl0
      refine ⟨einv, ?_, rfl, (lookupLast_mem _ _ einv hl0).2⟩
      have e1 : ((deleteStaleInvites
          (u.renters.map (fun r => jsToLower (jsTrim r.email)))
          (dbx.invitations.filter (fun i => i.unitId == u.id)) dbx).invitations.filter
            (fun i => i.unitId == u.id)).filter
          (fun x => jsToLower x.renterEmail == jsToLower (jsTrim r0.email)) =
          ((dbx.invitations.filter (fun i => i.unitId == u.id)).filter
            (fun x => jsToLower x.renterEmail == jsToLower (jsTrim r0.email))) := by
        rw [List.filter_filter, List.filter_filter]
        refine deleteStaleInvites_filter_frame _ _ _ _ ?_
        intro x hx hxf i hi hpi hid
        have hpi2 : (jsToLower i.renterEmail == jsToLower (jsTrim r0.email)) = true ∧
            (i.unitId == u.id) = true := by
          simpa using hpi
        have hi1 : i ∈ st.db.invitations := by
          rw [hinv] at hi
          exact hi
        have hx1 : x ∈ st.db.invitations := by
          have := List.mem_of_mem_filter hx
          rw [hinv] at this
          exact this
        have hix : i = x := List.inj_on_of_nodup_map hnd hi1 hx1 hid
        have hkx : jsToLower x.renterEmail = jsToLower (jsTrim r0.email) := by
          rw [← hix]
          exact eq_of_beq hpi2.1
        rw [hkx] at hxf
        have hkin : jsToLower (jsTrim r0.email) ∈
            u.renters.map (fun r => jsToLower (jsTrim r.email)) :=
          List.mem_map_of_mem _ h0
        have hct : (u.renters.map (fun r => jsToLower (jsTrim r.email))).contains
            (jsToLower (jsTrim r0.email)) = true := List.elem_iff.mpr hkin
        rw [hxf] at hct
        exact Bool.false_ne_true hct
      rw [lookupLast_filter_self, e1, ← lookupLast_filter_self]
      exact hl0

theorem processUnit_establish (o : Oracle) (snap : List String) (now : Nat) (aid : String)
    (exIds : List String) (u : UnitInput) (base : List RenterInvitation) (u0 : Nat)
    (hD1 : ∀ k, ∀ i0 ∈ base, o.uuid k ≠ i0.id)
    (hD2 : ∀ j k, o.uuid j = o.uuid k → j = k)
    (hnbu : jsTrim u.unitNumber ≠ "")
    (hkeysN : (u.renters.map (fun r => jsToLower (jsTrim r.email))).Nodup) :
    ∀ st st', processUnit o snap now aid exIds u st = .ok st' →
      invProvenance base o u0 st →
      (st.db.invitations.map (fun i => i.id)).Nodup →
      (∀ w ∈ st.db.units, w.id = u.id → w.apartmentId = aid) →
      (exIds.contains u.id = true → ∃ w ∈ st.db.units, w.apartmentId = aid ∧ w.id = u.id) →
      (exIds.contains u.id = false → ∀ w ∈ st.db.units, w.id ≠ u.id) →
      ((∃ w ∈ st'.db.units, w.apartmentId = aid ∧ w.id = u.id) ∧
       (∀ w ∈ st'.db.units, w.id = u.id →
         w.apartmentId = aid ∧ w.unitNumber = jsTrim u.unitNumber) ∧
       (∀ i ∈ st'.db.invitations, i.unitId = u.id →
         jsToLower i.renterEmail ∈ unitEmailKeys u) ∧
       (∀ r ∈ u.renters, jsToLower (jsTrim r.email) ≠ "" → jsTrim r.fullName ≠ "" →
         ∃ tgt, lookupLast (st'.db.invitations.filter (fun i => i.unitId == u.id))
             (jsToLower (jsTrim r.email)) = some tgt ∧
           tgt.renterName = jsTrim r.fullName)) := by
  intro st st' h hp hnd hUC hexT hexF
  unfold processUnit at h
  rw [if_neg hnbu] at h
  simp only [] at h
  cases hex : exIds.contains u.id with
  | true =>
    rw [show (!exIds.contains u.id && st.db.units.any (fun x => x.id == u.id)) = false by
      rw [hex]; rfl] at h
    rw [if_neg Bool.false_ne_true] at h
    rw [if_pos hex] at h
    have hinv := processUnit_inv_establish o snap now u base u0 hD1 hD2 hkeysN
      ({ st.db with units := st.db.units.map (fun x =>
          if x.id == u.id then { x with unitNumber := jsTrim u.unitNumber } else x) } : DB)
      st st' rfl h hp hnd
    have hunitsEq : st'.db.units = st.db.units.map (fun x =>
        if x.id == u.id then { x with unitNumber := jsTrim u.unitNumber } else x) := by
      have hfr := (processRenters_frame2 o snap now u.id _ u.renters _ st' h).2.2.1
      rw [hfr]
      rw [(deleteStaleInvites_frame _ _ _).2.2.1]
    refine ⟨?_, ?_, hinv.1, hinv.2⟩
    · obtain ⟨w0, hw0, ha0, hid0⟩ := hexT hex
      rw [hunitsEq]
      refine ⟨_, List.mem_map_of_mem _ hw0, ?_⟩
      rw [if_pos (by rw [hid0]; exact beq_self_eq_true _)]
      exact ⟨ha0, hid0⟩
    · intro w hw hid
      rw [hunitsEq] at hw
      rw [List.mem_map] at hw
      obtain ⟨x, hx, heq⟩ := hw
      by_cases hc : (x.id == u.id) = true
      · rw [if_pos hc] at heq
        rw [← heq]
        exact ⟨hUC x hx (eq_of_beq hc), rfl⟩
      · rw [if_neg hc] at heq
        rw [← heq] at hid
        exact absurd (show (x.id == u.id) = true by rw [hid]; exact beq_self_eq_true _) hc
  | false =>
    have hany : (st.db.units.any (fun x => x.id == u.id)) = false := by
      rw [← Bool.not_eq_true]
      intro hcc
      rw [List.any_eq_true] at hcc
      obtain ⟨w, hw, hwid⟩ := hcc
      exact hexF hex w hw (eq_of_beq hwid)
    rw [show (!exIds.contains u.id && st.db.units.any (fun x => x.id == u.id)) = false by
      rw [hex, hany]; rfl] at h
    rw [if_neg Bool.false_ne_true] at h
    rw [if_neg (by rw [hex]; exact Bool.false_ne_true)] at h
    have hinv := processUnit_inv_establish o snap now u base u0 hD1 hD2 hkeysN
      ({ st.db with units := st.db.units ++
          [{ id := u.id, apartmentId := aid, unitNumber := jsTrim u.unitNumber,
             createdAt := now }] } : DB)
      st st' rfl h hp hnd
    have hunitsEq : st'.db.units = st.db.units ++
        [{ id := u.id, apartmentId := aid, unitNumber := jsTrim u.unitNumber,
           createdAt := now }] := by
      have hfr := (processRenters_frame2 o snap now u.id _ u.renters _ st' h).2.2.1
      rw [hfr]
      rw [(deleteStaleInvites_frame _ _ _).2.2.1]
    refine ⟨?_, ?_, hinv.1, hinv.2⟩
    · rw [hunitsEq]
      exact ⟨_, List.mem_append_right _ (List.mem_singleton_self _), rfl, rfl⟩
    · intro w hw hid
      rw [hunitsEq] at hw
      rw [List.mem_append] at hw
      rcases hw with hw | hw
      · exact absurd hid (hexF hex w hw)
      · rw [List.mem_singleton] at hw
        subst hw
        exact ⟨rfl, rfl⟩

theorem processApartment_units_establish (o : Oracle) (snap : List String) (now : Nat)
    (a : ApartmentInput) (base : List RenterInvitation) (u0 : Nat)
    (hD1 : ∀ k, ∀ i0 ∈ base, o.uuid k ≠ i0.id)
    (hD2 : ∀ j k, o.uuid j = o.uuid k → j = k)
    (hUidsN : (a.units.map (fun x => x.id)).Nodup)
    (hKeysAll : ∀ u ∈ a.units, (u.renters.map (fun r => jsToLower (jsTrim r.email))).Nodup) :
    ∀ (dbx : DB) (st st' : St),
      dbx.units = st.db.units →
      dbx.invitations = st.db.invitations →
      processUnits o snap now a.id
        ((dbx.units.filter (fun u => u.apartmentId == a.id)).map (fun u => u.id))
        a.units
        (St.mk (deleteStaleUnits (a.units.map (fun u => u.id))
          (dbx.units.filter (fun u => u.apartmentId == a.id)) dbx) st.u st.t) = .ok st' →
      invProvenance base o u0 st →
      (st.db.invitations.map (fun i => i.id)).Nodup →
      (∀ w ∈ st.db.units, ∀ u' ∈ a.units, w.id = u'.id → w.apartmentId = a.id) →
      ((∀ w ∈ st'.db.units, w.apartmentId = a.id → w.id ∈ a.units.map (fun x => x.id)) ∧
       (∀ u ∈ a.units, jsTrim u.unitNumber ≠ "" →
         ((∃ w ∈ st'.db.units, w.apartmentId = a.id ∧ w.id = u.id) ∧
          (∀ w ∈ st'.db.units, w.id = u.id →
            w.apartmentId = a.id ∧ w.unitNumber = jsTrim u.unitNumber) ∧
          (∀ i ∈ st'.db.invitations, i.unitId = u.id →
            jsToLower i.renterEmail ∈ unitEmailKeys u) ∧
          (∀ r ∈ u.renters, jsToLower (jsTrim r.email) ≠ "" → jsTrim r.fullName ≠ "" →
            ∃ tgt, lookupLast (st'.db.invitations.filter (fun i => i.unitId == u.id))
                (jsToLower (jsTrim r.email)) = some tgt ∧
              tgt.renterName = jsTrim r.fullName)))) := by
  intro dbx st st' hunx hinvx h hp hnd hUC
  have hprov2 : invProvenance base o u0
      (St.mk (deleteStaleUnits (a.units.map (fun u => u.id))
        (dbx.units.filter (fun u => u.apartmentId == a.id)) dbx) st.u st.t) := by
    refine ⟨hp.1, ?_⟩
    intro i hi
    have hi1 := deleteStaleUnits_inv_mem _ _ _ i hi
    rw [hinvx] at hi1
    exact hp.2 i hi1
  have hnd2 : (((deleteStaleUnits (a.units.map (fun u => u.id))
      (dbx.units.filter (fun u => u.apartmentId == a.id)) dbx).invitations).map
        (fun i => i.id)).Nodup := by
    have hs := deleteStaleUnits_inv_sublist (a.units.map (fun u => u.id))
      (dbx.units.filter (fun u => u.apartmentId == a.id)) dbx
    have hs2 := hs.map (fun i => i.id)
    refine List.Nodup.sublist hs2 ?_
    rw [hinvx]
    exact hnd
  have hUC2 : ∀ w ∈ (deleteStaleUnits (a.units.map (fun u => u.id))
      (dbx.units.filter (fun u => u.apartmentId == a.id)) dbx).units,
      ∀ u' ∈ a.units, w.id = u'.id → w.apartmentId = a.id := by
    intro w hw
    have hw1 := deleteStaleUnits_units_mem _ _ _ w hw
    rw [hunx] at hw1
    exact hUC w hw1
  constructor
  · -- no stale units of this building survive
    refine processUnits_unitsPoint o snap now a.id _
      (fun w => w.apartmentId = a.id → w.id ∈ a.units.map (fun x => x.id)) a.units
      ?_ ?_ _ st' h ?_
    · intro u' _ w hw
      split
      · intro hap
        exact hw hap
      · exact hw
    · intro u' hu' _
      exact List.mem_map_of_mem _ hu'
    · intro w hw hap
      have hw1 := deleteStaleUnits_units_mem _ _ _ w hw
      have hwEX : w ∈ dbx.units.filter (fun u => u.apartmentId == a.id) := by
        refine List.mem_filter.mpr ⟨hw1, ?_⟩
        simp [hap]
      cases hc : (a.units.map (fun u => u.id)).contains w.id with
      | true =>
        have := List.elem_iff.mp hc
        simpa using this
      | false => exact absurd rfl (deleteStaleUnits_removes _ _ _ w hwEX hc w hw)
  · -- per-unit facts
    intro u hu hnbu
    obtain ⟨m1, m2, hsplit⟩ := List.append_of_mem hu
    have hN2 := hUidsN
    rw [hsplit] at hN2
    rw [List.map_append] at hN2
    have hN3 := List.nodup_append.mp hN2
    have hm1ne : ∀ u2 ∈ m1, u2.id ≠ u.id := by
      intro u2 h2 hcc
      refine hN3.2.2 (List.mem_map_of_mem _ h2) ?_
      rw [hcc]
      exact List.mem_cons_self _ _
    have hucons : (u.id :: m2.map (fun x => x.id)).Nodup := hN3.2.1
    have hm2ne : ∀ u2 ∈ m2, u2.id ≠ u.id := by
      intro u2 h2 hcc
      exact (List.nodup_cons.mp hucons).1 (by rw [← hcc]; exact List.mem_map_of_mem _ h2)
    have hu2 : u ∈ m1 ++ u :: m2 := List.mem_append_right _ (List.mem_cons_self _ _)
    have hnd2b : ((St.mk (deleteStaleUnits (a.units.map (fun u => u.id))
        (dbx.units.filter (fun u => u.apartmentId == a.id)) dbx)
        st.u st.t).db.invitations.map (fun i => i.id)).Nodup := hnd2
    have hUC2b : ∀ w ∈ (St.mk (deleteStaleUnits (a.units.map (fun u => u.id))
        (dbx.units.filter (fun u => u.apartmentId == a.id)) dbx) st.u st.t).db.units,
        ∀ u' ∈ a.units, w.id = u'.id → w.apartmentId = a.id := hUC2
    generalize hg : (St.mk (deleteStaleUnits (a.units.map (fun u => u.id))
        (dbx.units.filter (fun u => u.apartmentId == a.id)) dbx) st.u st.t) = st2
      at h hprov2 hnd2b hUC2b
    rw [hsplit, processUnits_append] at h
    split at h
    · simp at h
    · rename_i stU hU
      rw [processUnits_cons_eq] at h
      split at h
      · simp at h
      · rename_i stV hV
        obtain ⟨hpU, hndU⟩ := processUnits_idsOk o snap now a.id _ base u0 hD1 hD2
          m1 _ stU hU hprov2 hnd2b
        have hUCU : ∀ w ∈ stU.db.units, ∀ u' ∈ a.units, w.id = u'.id →
            w.apartmentId = a.id := by
          refine processUnits_unitsPoint o snap now a.id _
            (fun w => ∀ u' ∈ a.units, w.id = u'.id → w.apartmentId = a.id) m1
            ?_ ?_ _ stU hU hUC2b
          · intro u3 _ w hw
            split
            · intro u' h' hid
              exact hw u' h' hid
            · exact hw
          · intro u3 _ u' _ _
            rfl
        have hexTU : ((dbx.units.filter (fun v => v.apartmentId == a.id)).map
            (fun v => v.id)).contains u.id = true →
            ∃ w ∈ stU.db.units, w.apartmentId = a.id ∧ w.id = u.id := by
          intro hcon
          have hmem := List.elem_iff.mp hcon
          rw [List.mem_map] at hmem
          obtain ⟨w, hwEX, hwid⟩ := hmem
          have hw1 : w ∈ dbx.units := List.mem_of_mem_filter hwEX
          have hw2 := List.of_mem_filter hwEX
          have hwap : w.apartmentId = a.id := eq_of_beq hw2
          refine processUnits_unitEx o snap now a.id _ a.id u.id m1 _ stU hU ?_
          rw [← hg]
          refine ⟨w, ?_, hwap, hwid⟩
          refine deleteStaleUnits_keeps _ _ _ w hw1 ?_
          refine List.elem_iff.mpr ?_
          rw [hwid]
          exact List.mem_map_of_mem _ hu
        have hexFU : ((dbx.units.filter (fun v => v.apartmentId == a.id)).map
            (fun v => v.id)).contains u.id = false →
            ∀ w ∈ stU.db.units, w.id ≠ u.id := by
          intro hcon
          refine processUnits_unitsPoint o snap now a.id _
            (fun w => w.id ≠ u.id) m1 ?_ ?_ _ stU hU ?_
          · intro u3 _ w hw
            split
            · exact hw
            · exact hw
          · intro u3 h3
            exact hm1ne u3 h3
          · rw [← hg]
            intro w hw hcc
            have hw1 := deleteStaleUnits_units_mem _ _ _ w hw
            rw [hunx] at hw1
            have hwap : w.apartmentId = a.id := hUC w hw1 u hu hcc
            have hwEX : w ∈ dbx.units.filter (fun v => v.apartmentId == a.id) := by
              refine List.mem_filter.mpr ⟨?_, ?_⟩
              · rw [hunx]
                exact hw1
              · simp [hwap]
            have hin : u.id ∈ (dbx.units.filter (fun v => v.apartmentId == a.id)).map
                (fun v => v.id) := by
              rw [← hcc]
              exact List.mem_map_of_mem _ hwEX
            have hct : ((dbx.units.filter (fun v => v.apartmentId == a.id)).map
                (fun v => v.id)).contains u.id = true := List.elem_iff.mpr hin
            rw [hcon] at hct
            exact Bool.false_ne_true hct
        have hUCUu : ∀ w ∈ stU.db.units, w.id = u.id → w.apartmentId = a.id := by
          intro w hw hid
          exact hUCU w hw u hu hid
        obtain ⟨hE, hF, hc3, hc4⟩ := processUnit_establish o snap now a.id _ u base u0
          hD1 hD2 hnbu (hKeysAll u hu) stU stV hV hpU hndU hUCUu hexTU hexFU
        obtain ⟨hpV, hndV⟩ := processUnit_idsOk o snap now a.id _ base u0 hD1 hD2
          u stU stV hV hpU hndU
        have hfilterM2 := processUnits_filterT_frame o snap now a.id _ u.id base u0
          hD1 hD2 m2 (fun u3 h3 => hm2ne u3 h3) stV st' h hpV hndV
        refine ⟨?_, ?_, ?_, ?_⟩
        · exact processUnits_unitEx o snap now a.id _ a.id u.id m2 stV st' h hE
        · refine processUnits_unitsPoint o snap now a.id _
            (fun w => w.id = u.id → w.apartmentId = a.id ∧
              w.unitNumber = jsTrim u.unitNumber) m2 ?_ ?_ stV st' h hF
          · intro u3 h3 w hw
            by_cases hc : (w.id == u3.id) = true
            · rw [if_pos hc]
              intro hid
              exact absurd (show u3.id = u.id by rw [← hid]; exact (eq_of_beq hc).symm)
                (hm2ne u3 h3)
            · rw [if_neg hc]
              exact hw
          · intro u3 h3 hid
            exact absurd hid (fun hcc => hm2ne u3 h3 hcc)
        · refine processUnits_invPoint o snap now a.id _
            (fun i => i.unitId = u.id → jsToLower i.renterEmail ∈ unitEmailKeys u) 0
            (fun i nm hi => hi) m2 ?_ stV st' h (Nat.zero_le _) hc3
          intro u3 h3 r _ j _ tok hid
          exact absurd hid (hm2ne u3 h3)
        · intro r hr hem hnm
          obtain ⟨tgt, hlk, hnm2⟩ := hc4 r hr hem hnm
          refine ⟨tgt, ?_, hnm2⟩
          rw [hfilterM2]
          exact hlk

theorem processApartment_establish (o : Oracle) (snap : List String) (now : Nat)
    (cid : String) (exIds : List String) (a : ApartmentInput)
    (base : List RenterInvitation) (u0 : Nat)
    (hD1 : ∀ k, ∀ i0 ∈ base, o.uuid k ≠ i0.id)
    (hD2 : ∀ j k, o.uuid j = o.uuid k → j = k)
    (hnba : jsTrim a.name ≠ "")
    (hUidsN : (a.units.map (fun x => x.id)).Nodup)
    (hKeysAll : ∀ u ∈ a.units, (u.renters.map (fun r => jsToLower (jsTrim r.email))).Nodup) :
    ∀ st st', processApartment o snap now cid exIds a st = .ok st' →
      invProvenance base o u0 st →
      (st.db.invitations.map (fun i => i.id)).Nodup →
      (∀ w ∈ st.db.units, ∀ u' ∈ a.units, w.id = u'.id → w.apartmentId = a.id) →
      (exIds.contains a.id = true →
        ∃ b ∈ st.db.apartments, b.companyId = cid ∧ b.id = a.id) →
      (exIds.contains a.id = false → ∀ b ∈ st.db.apartments, b.id ≠ a.id) →
      ((∃ b ∈ st'.db.apartments, b.companyId = cid ∧ b.id = a.id) ∧
       (∀ b ∈ st'.db.apartments, b.id = a.id →
         b.name = jsTrim a.name ∧ b.postalCode = jsTrim a.postalCode) ∧
       (∀ w ∈ st'.db.units, w.apartmentId = a.id → w.id ∈ a.units.map (fun x => x.id)) ∧
       (∀ u ∈ a.units, jsTrim u.unitNumber ≠ "" →
         ((∃ w ∈ st'.db.units, w.apartmentId = a.id ∧ w.id = u.id) ∧
          (∀ w ∈ st'.db.units, w.id = u.id →
            w.apartmentId = a.id ∧ w.unitNumber = jsTrim u.unitNumber) ∧
          (∀ i ∈ st'.db.invitations, i.unitId = u.id →
            jsToLower i.renterEmail ∈ unitEmailKeys u) ∧
          (∀ r ∈ u.renters, jsToLower (jsTrim r.email) ≠ "" → jsTrim r.fullName ≠ "" →
            ∃ tgt, lookupLast (st'.db.invitations.filter (fun i => i.unitId == u.id))
                (jsToLower (jsTrim r.email)) = some tgt ∧
              tgt.renterName = jsTrim r.fullName)))) := by
  intro st st' h hp hnd hUC hexT hexF
  unfold processApartment at h
  rw [if_neg hnba] at h
  simp only [] at h
  cases hex : exIds.contains a.id with
  | true =>
    rw [show (!exIds.contains a.id && st.db.apartments.any (fun b => b.id == a.id)) = false by
      rw [hex]; rfl] at h
    rw [if_neg Bool.false_ne_true] at h
    rw [if_pos hex] at h
    have hud := processApartment_units_establish o snap now a base u0 hD1 hD2
      hUidsN hKeysAll
      ({ st.db with apartments := st.db.apartments.map (fun b =>
          if b.id == a.id then
            { b with name := jsTrim a.name, postalCode := jsTrim a.postalCode }
          else b) } : DB)
      st st' rfl rfl h hp hnd hUC
    have hAptsEq : st'.db.apartments = st.db.apartments.map (fun b =>
        if b.id == a.id then
          { b with name := jsTrim a.name, postalCode := jsTrim a.postalCode }
        else b) := by
      have hfr := (processUnits_frame2 o snap now a.id _ a.units _ st' h).2.1
      rw [hfr]
      rw [(deleteStaleUnits_frame _ _ _).2.1]
    refine ⟨?_, ?_, hud.1, hud.2⟩
    · obtain ⟨b0, hb0, hc0, hid0⟩ := hexT hex
      rw [hAptsEq]
      refine ⟨_, List.mem_map_of_mem _ hb0, ?_⟩
      by_cases hc : (b0.id == a.id) = true
      · rw [if_pos hc]
        exact ⟨hc0, hid0⟩
      · rw [if_neg hc]
        exact ⟨hc0, hid0⟩
    · intro b hb hid
      rw [hAptsEq] at hb
      rw [List.mem_map] at hb
      obtain ⟨x, hx, heq⟩ := hb
      by_cases hc : (x.id == a.id) = true
      · rw [if_pos hc] at heq
        rw [← heq]
        exact ⟨rfl, rfl⟩
      · rw [if_neg hc] at heq
        rw [← heq] at hid
        exact absurd (show (x.id == a.id) = true by rw [hid]; exact beq_self_eq_true _) hc
  | false =>
    have hany : (st.db.apartments.any (fun b => b.id == a.id)) = false := by
      rw [← Bool.not_eq_true]
      intro hcc
      rw [List.any_eq_true] at hcc
      obtain ⟨b, hb, hbid⟩ := hcc
      exact hexF hex b hb (eq_of_beq hbid)
    rw [show (!exIds.contains a.id && st.db.apartments.any (fun b => b.id == a.id)) = false by
      rw [hex, hany]; rfl] at h
    rw [if_neg Bool.false_ne_true] at h
    rw [if_neg (by rw [hex]; exact Bool.false_ne_true)] at h
    have hud := processApartment_units_establish o snap now a base u0 hD1 hD2
      hUidsN hKeysAll
      ({ st.db with apartments := st.db.apartments ++
          [{ id := a.id, companyId := cid, name := jsTrim a.name,
             postalCode := jsTrim a.postalCode, createdAt := now }] } : DB)
      st st' rfl rfl h hp hnd hUC
    have hAptsEq : st'.db.apartments = st.db.apartments ++
        [{ id := a.id, companyId := cid, name := jsTrim a.name,
           postalCode := jsTrim a.postalCode, createdAt := now }] := by
      have hfr := (processUnits_frame2 o snap now a.id _ a.units _ st' h).2.1
      rw [hfr]
      rw [(deleteStaleUnits_frame _ _ _).2.1]
    refine ⟨?_, ?_, hud.1, hud.2⟩
    · rw [hAptsEq]
      exact ⟨_, List.mem_append_right _ (List.mem_singleton_self _), rfl, rfl⟩
    · intro b hb hid
      rw [hAptsEq] at hb
      rw [List.mem_append] at hb
      rcases hb with hb | hb
      · exact absurd hid (hexF hex b hb)
      · rw [List.mem_singleton] at hb
        subst hb
        exact ⟨rfl, rfl⟩

theorem savePortfolioTx_establish_core (o : Oracle) (snap : List String)
    (p : SavePortfolioInput) (now : Nat) (cid : String) (db0 : DB) (dbxA : DB)
    (u0v : Nat) (stF : St)
    (hapts : dbxA.apartments = db0.apartments)
    (hunits : dbxA.units = db0.units)
    (hinvs : dbxA.invitations = db0.invitations)
    (hA1 : (p.apartments.map (fun a => a.id)).Nodup)
    (hA2 : ((p.apartments.map (fun a => a.units.map (fun x => x.id))).flatten).Nodup)
    (hA3 : ∀ a ∈ p.apartments, ∀ u ∈ a.units,
      (u.renters.map (fun r => jsToLower (jsTrim r.email))).Nodup)
    (hB1 : ∀ b ∈ db0.apartments, b.id ∈ p.apartments.map (fun a => a.id) →
      b.companyId = cid)
    (hB2 : ∀ w ∈ db0.units, ∀ a ∈ p.apartments, w.id ∈ a.units.map (fun x => x.id) →
      w.apartmentId = a.id)
    (hC3 : (db0.invitations.map (fun i => i.id)).Nodup)
    (hD1 : ∀ k, ∀ i0 ∈ db0.invitations, o.uuid k ≠ i0.id)
    (hD2 : ∀ j k, o.uuid j = o.uuid k → j = k)
    (hpa : processApartments o snap now cid
        ((dbxA.apartments.filter (fun b => b.companyId == cid)).map (fun b => b.id))
        p.apartments
        (St.mk (deleteStaleApartments (p.apartments.map (fun a => a.id))
          (dbxA.apartments.filter (fun b => b.companyId == cid)) dbxA) u0v 0) = .ok stF) :
    ((∀ b ∈ stF.db.apartments, b.companyId = cid →
        b.id ∈ p.apartments.map (fun a => a.id)) ∧
     (stF.db.invitations.map (fun i => i.id)).Nodup ∧
     (∀ a ∈ p.apartments, jsTrim a.name ≠ "" →
       ((∃ b ∈ stF.db.apartments, b.companyId = cid ∧ b.id = a.id) ∧
        (∀ b ∈ stF.db.apartments, b.id = a.id →
          b.name = jsTrim a.name ∧ b.postalCode = jsTrim a.postalCode) ∧
        (∀ w ∈ stF.db.units, w.apartmentId = a.id → w.id ∈ a.units.map (fun x => x.id)) ∧
        (∀ u ∈ a.units, jsTrim u.unitNumber ≠ "" →
          ((∃ w ∈ stF.db.units, w.apartmentId = a.id ∧ w.id = u.id) ∧
           (∀ w ∈ stF.db.units, w.id = u.id →
             w.apartmentId = a.id ∧ w.unitNumber = jsTrim u.unitNumber) ∧
           (∀ i ∈ stF.db.invitations, i.unitId = u.id →
             jsToLower i.renterEmail ∈ unitEmailKeys u) ∧
           (∀ r ∈ u.renters, jsToLower (jsTrim r.email) ≠ "" → jsTrim r.fullName ≠ "" →
             ∃ tgt, lookupLast (stF.db.invitations.filter (fun i => i.unitId == u.id))
                 (jsToLower (jsTrim r.email)) = some tgt ∧
               tgt.renterName = jsTrim r.fullName)))))) := by
  have hdisj := flatten_nodup_disj (fun a => a.units.map (fun x => x.id)) p.apartments hA2
  have huids := flatten_nodup_each (fun a => a.units.map (fun x => x.id)) p.apartments hA2
  -- facts at the initial state of the apartment loop
  have hprov0 : invProvenance db0.invitations o u0v
      (St.mk (deleteStaleApartments (p.apartments.map (fun a => a.id))
        (dbxA.apartments.filter (fun b => b.companyId == cid)) dbxA) u0v 0) := by
    refine ⟨Nat.le_refl _, ?_⟩
    intro i hi
    have hi1 := deleteStaleApartments_inv_mem _ _ _ i hi
    rw [hinvs] at hi1
    exact Or.inl ⟨i, hi1, invSameCore_refl i⟩
  have hnd0 : ((St.mk (deleteStaleApartments (p.apartments.map (fun a => a.id))
      (dbxA.apartments.filter (fun b => b.companyId == cid)) dbxA)
      u0v 0).db.invitations.map (fun i => i.id)).Nodup := by
    have hs := deleteStaleApartments_inv_sublist (p.apartments.map (fun a => a.id))
      (dbxA.apartments.filter (fun b => b.companyId == cid)) dbxA
    have hs2 := hs.map (fun i => i.id)
    refine List.Nodup.sublist hs2 ?_
    rw [hinvs]
    exact hC3
  have hUC0 : ∀ w ∈ (St.mk (deleteStaleApartments (p.apartments.map (fun a => a.id))
      (dbxA.apartments.filter (fun b => b.companyId == cid)) dbxA) u0v 0).db.units,
      ∀ a' ∈ p.apartments, ∀ u' ∈ a'.units, w.id = u'.id → w.apartmentId = a'.id := by
    intro w hw a' ha' u' hu' hid
    have hw1 := deleteStaleApartments_units_mem _ _ _ w hw
    rw [hunits] at hw1
    exact hB2 w hw1 a' ha' (List.mem_map.mpr ⟨u', hu', hid.symm⟩)
  have hAC0 : ∀ b ∈ (St.mk (deleteStaleApartments (p.apartments.map (fun a => a.id))
      (dbxA.apartments.filter (fun b => b.companyId == cid)) dbxA) u0v 0).db.apartments,
      b.companyId = cid → b.id ∈ p.apartments.map (fun a => a.id) := by
    intro b hb hbc
    have hb1 := deleteStaleApartments_apts_mem _ _ _ b hb
    have hbEX : b ∈ dbxA.apartments.filter (fun b2 => b2.companyId == cid) := by
      refine List.mem_filter.mpr ⟨hb1, ?_⟩
      simp [hbc]
    cases hcb : (p.apartments.map (fun a => a.id)).contains b.id with
    | true => exact List.elem_iff.mp hcb
    | false => exact absurd rfl (deleteStaleApartments_removes _ _ _ b hbEX hcb b hb)
  refine ⟨?_, ?_, ?_⟩
  · -- no stale buildings of this company
    refine processApartments_aptsPoint o snap now cid _
      (fun b => b.companyId = cid → b.id ∈ p.apartments.map (fun a => a.id)) p.apartments
      ?_ ?_ _ stF hpa hAC0
    · intro a' _ b hb
      split
      · intro hbc
        exact hb hbc
      · exact hb
    · intro a' ha' _
      exact List.mem_map_of_mem _ ha'
  · exact (processApartments_idsOk o snap now cid _ db0.invitations u0v hD1 hD2
      p.apartments _ stF hpa hprov0 hnd0).2
  · -- per-apartment facts
    intro a ha hnba
    obtain ⟨l1, l2, hsplit⟩ := List.append_of_mem ha
    have hmem1 : ∀ a' ∈ l1, a' ∈ p.apartments := by
      intro a' h'
      rw [hsplit]
      exact List.mem_append_left _ h'
    have hmem2 : ∀ a' ∈ l2, a' ∈ p.apartments := by
      intro a' h'
      rw [hsplit]
      exact List.mem_append_right _ (List.mem_cons_of_mem _ h')
    have hA1' := hA1
    rw [hsplit, List.map_append] at hA1'
    have hN3 := List.nodup_append.mp hA1'
    have hl1ne : ∀ a' ∈ l1, a'.id ≠ a.id := by
      intro a' h' hcc
      refine hN3.2.2 (List.mem_map_of_mem _ h') ?_
      rw [hcc]
      exact List.mem_cons_self _ _
    have hl2ne : ∀ a' ∈ l2, a'.id ≠ a.id := by
      intro a' h' hcc
      have hcons : (a.id :: l2.map (fun x => x.id)).Nodup := hN3.2.1
      exact (List.nodup_cons.mp hcons).1 (by rw [← hcc]; exact List.mem_map_of_mem _ h')
    have hvalne2 : ∀ a' ∈ l2, a' ≠ a := by
      intro a' h' hcc
      exact hl2ne a' h' (by rw [hcc])
    have hpaA := hpa
    generalize hg : (St.mk (deleteStaleApartments (p.apartments.map (fun a => a.id))
        (dbxA.apartments.filter (fun b => b.companyId == cid)) dbxA) u0v 0) = st0
      at hpaA hprov0 hnd0 hUC0
    rw [hsplit, processApartments_append] at hpaA
    split at hpaA
    · simp at hpaA
    · rename_i stA hL1
      rw [processApartments_cons_eq] at hpaA
      split at hpaA
      · simp at hpaA
      · rename_i stB hA
        obtain ⟨hpAp, hndA⟩ := processApartments_idsOk o snap now cid _ db0.invitations
          u0v hD1 hD2 l1 st0 stA hL1 hprov0 hnd0
        have hUCA : ∀ w ∈ stA.db.units, ∀ a' ∈ p.apartments, ∀ u' ∈ a'.units,
            w.id = u'.id → w.apartmentId = a'.id := by
          refine processApartments_unitsPoint o snap now cid _
            (fun w => ∀ a' ∈ p.apartments, ∀ u' ∈ a'.units,
              w.id = u'.id → w.apartmentId = a'.id) l1 ?_ ?_ st0 stA hL1 hUC0
          · intro a2 _ u2 _ w hw
            split
            · intro a' h' u' hu' hid
              exact hw a' h' u' hu' hid
            · exact hw
          · intro a2 h2 u2 hu2 a' h' u' hu' hid
            have hid2 : u2.id = u'.id := hid
            have hval : a2 = a' := hdisj a2 (hmem1 a2 h2) a' h' u2.id
              (List.mem_map_of_mem _ hu2) (by rw [hid2]; exact List.mem_map_of_mem _ hu')
            show a2.id = a'.id
            rw [hval]
        have hUCa : ∀ w ∈ stA.db.units, ∀ u' ∈ a.units, w.id = u'.id →
            w.apartmentId = a.id := by
          intro w hw u' hu' hid
          exact hUCA w hw a ha u' hu' hid
        have hexTA : ((dbxA.apartments.filter (fun b => b.companyId == cid)).map
            (fun b => b.id)).contains a.id = true →
            ∃ b ∈ stA.db.apartments, b.companyId = cid ∧ b.id = a.id := by
          intro hcon
          have hmem := List.elem_iff.mp hcon
          rw [List.mem_map] at hmem
          obtain ⟨b, hbEX, hbid⟩ := hmem
          have hb1 : b ∈ dbxA.apartments := List.mem_of_mem_filter hbEX
          have hb2 := List.of_mem_filter hbEX
          have hbc : b.companyId = cid := eq_of_beq hb2
          refine processApartments_aptEx o snap now cid _ cid a.id l1 st0 stA hL1 ?_
          rw [← hg]
          refine ⟨b, ?_, hbc, hbid⟩
          refine deleteStaleApartments_keeps _ _ _ b hb1 ?_
          refine List.elem_iff.mpr ?_
          rw [hbid]
          exact List.mem_map_of_mem _ ha
        have hexFA : ((dbxA.apartments.filter (fun b => b.companyId == cid)).map
            (fun b => b.id)).contains a.id = false →
            ∀ b ∈ stA.db.apartments, b.id ≠ a.id := by
          intro hcon
          refine processApartments_aptsPoint o snap now cid _
            (fun b => b.id ≠ a.id) l1 ?_ ?_ st0 stA hL1 ?_
          · intro a2 _ b hb
            split
            · exact hb
            · exact hb
          · intro a2 h2
            exact hl1ne a2 h2
          · rw [← hg]
            intro b hb hcc
            have hb1 := deleteStaleApartments_apts_mem _ _ _ b hb
            have hb1b : b ∈ db0.apartments := by
              rw [hapts] at hb1
              exact hb1
            have hbc : b.companyId = cid := hB1 b hb1b (by
              rw [hcc]
              exact List.mem_map_of_mem _ ha)
            have hbEX : b ∈ dbxA.apartments.filter (fun b2 => b2.companyId == cid) := by
              refine List.mem_filter.mpr ⟨hb1, ?_⟩
              simp [hbc]
            have hin : a.id ∈ (dbxA.apartments.filter (fun b2 => b2.companyId == cid)).map
                (fun b2 => b2.id) := by
              rw [← hcc]
              exact List.mem_map_of_mem _ hbEX
            have hct : ((dbxA.apartments.filter (fun b2 => b2.companyId == cid)).map
                (fun b2 => b2.id)).contains a.id = true := List.elem_iff.mpr hin
            rw [hcon] at hct
            exact Bool.false_ne_true hct
        obtain ⟨hb1, hb2, hb3, hbu⟩ := processApartment_establish o snap now cid _ a
          db0.invitations u0v hD1 hD2 hnba (huids a ha) (hA3 a ha)
          stA stB hA hpAp hndA hUCa hexTA hexFA
        obtain ⟨hpB, hndB⟩ := processApartment_idsOk o snap now cid _ db0.invitations
          u0v hD1 hD2 a stA stB hA hpAp hndA
        refine ⟨?_, ?_, ?_, ?_⟩
        · exact processApartments_aptEx o snap now cid _ cid a.id l2 stB stF hpaA hb1
        · refine processApartments_aptsPoint o snap now cid _
            (fun b => b.id = a.id → b.name = jsTrim a.name ∧
              b.postalCode = jsTrim a.postalCode) l2 ?_ ?_ stB stF hpaA hb2
          · intro a2 h2 b hb
            by_cases hc : (b.id == a2.id) = true
            · rw [if_pos hc]
              intro hid
              exact absurd (show a2.id = a.id by rw [← hid]; exact (eq_of_beq hc).symm)
                (hl2ne a2 h2)
            · rw [if_neg hc]
              exact hb
          · intro a2 h2 hid
            exact absurd hid (hl2ne a2 h2)
        · refine processApartments_unitsPoint o snap now cid _
            (fun w => w.apartmentId = a.id → w.id ∈ a.units.map (fun x => x.id)) l2
            ?_ ?_ stB stF hpaA hb3
          · intro a2 _ u2 _ w hw
            split
            · intro hap
              exact hw hap
            · exact hw
          · intro a2 h2 u2 _ hap
            exact absurd hap (hl2ne a2 h2)
        · intro u hu hnbu
          obtain ⟨hE, hF, hc3u, hc4u⟩ := hbu u hu hnbu
          have hune2 : ∀ a2 ∈ l2, ∀ u' ∈ a2.units, u.id ≠ u'.id := by
            intro a2 h2 u' hu' hcc
            refine hvalne2 a2 h2 ?_
            exact (hdisj a2 (hmem2 a2 h2) a ha u.id
              (by rw [hcc]; exact List.mem_map_of_mem _ hu')
              (List.mem_map_of_mem _ hu))
          have hdis2 : ∀ a2 ∈ l2, a.id ≠ a2.id ∧ ∀ u' ∈ a2.units, u.id ≠ u'.id := by
            intro a2 h2
            exact ⟨fun hcc => hl2ne a2 h2 hcc.symm, hune2 a2 h2⟩
          have hchB : ∀ x ∈ stB.db.units, x.id = u.id → x.apartmentId = a.id := by
            intro x hx hid
            exact (hF x hx hid).1
          refine ⟨?_, ?_, ?_, ?_⟩
          · exact (processApartments_unitExChar o snap now cid _ a.id u.id l2 hdis2
              stB stF hpaA ⟨hE, hchB⟩).1
          · refine processApartments_unitsPoint o snap now cid _
              (fun w => w.id = u.id → w.apartmentId = a.id ∧
                w.unitNumber = jsTrim u.unitNumber) l2 ?_ ?_ stB stF hpaA hF
            · intro a2 h2 u2 hu2 w hw
              by_cases hc : (w.id == u2.id) = true
              · rw [if_pos hc]
                intro hid
                exact absurd (show u.id = u2.id by rw [← hid]; exact eq_of_beq hc)
                  (hune2 a2 h2 u2 hu2)
              · rw [if_neg hc]
                exact hw
            · intro a2 h2 u2 hu2 hid
              exact absurd hid.symm (hune2 a2 h2 u2 hu2)
          · refine processApartments_invPoint o snap now cid _
              (fun i => i.unitId = u.id → jsToLower i.renterEmail ∈ unitEmailKeys u) 0
              (fun i nm hi => hi) l2 ?_ stB stF hpaA (Nat.zero_le _) hc3u
            intro a2 h2 u2 hu2 r _ j _ tok hid
            exact absurd hid.symm (hune2 a2 h2 u2 hu2)
          · intro r hr hem hnm
            obtain ⟨tgt, hlk, hnm2⟩ := hc4u r hr hem hnm
            have hff := processApartments_filterT_frame o snap now cid _ a.id u.id
              db0.invitations u0v hD1 hD2 l2
              (fun a2 h2 => ⟨(hdis2 a2 h2).1, fun u' hu' hcc =>
                hune2 a2 h2 u' hu' hcc.symm⟩)
              stB stF hpaA hpB hndB hchB
            refine ⟨tgt, ?_, hnm2⟩
            rw [hff]
            exact hlk

theorem savePortfolio_establishes (o : Oracle) (adminId : String) (p : SavePortfolioInput)
    (now : Nat) (db0 db1 : DB) (cid : String)
    (hA1 : (p.apartments.map (fun a => a.id)).Nodup)
    (hA2 : ((p.apartments.map (fun a => a.units.map (fun x => x.id))).flatten).Nodup)
    (hA3 : ∀ a ∈ p.apartments, ∀ u ∈ a.units,
      (u.renters.map (fun r => jsToLower (jsTrim r.email))).Nodup)
    (hB1 : ∀ b ∈ db0.apartments, b.id ∈ p.apartments.map (fun a => a.id) →
      b.companyId = cid)
    (hB2 : ∀ w ∈ db0.units, ∀ a ∈ p.apartments, w.id ∈ a.units.map (fun x => x.id) →
      w.apartmentId = a.id)
    (hC3 : (db0.invitations.map (fun i => i.id)).Nodup)
    (hD1 : ∀ k, ∀ i0 ∈ db0.invitations, o.uuid k ≠ i0.id)
    (hD2 : ∀ j k, o.uuid j = o.uuid k → j = k)
    (hD3 : ∀ k, ∀ c0 ∈ db0.companies, o.uuid k ≠ c0.id)
    (hok : savePortfolio o adminId p now db0 = (.ok cid, db1)) :
    IdemReady adminId p cid db1 := by
  unfold savePortfolio at hok
  by_cases hc : jsTrim p.companyName = ""
  · rw [if_pos hc] at hok
    simp at hok
  · rw [if_neg hc] at hok
    cases htx : savePortfolioTx o adminId p now db0 with
    | error e => rw [htx] at hok; simp at hok
    | ok dbF =>
      rw [htx] at hok
      have hcidEq : companyIdOf o adminId db0 = cid := by
        have h1 := congrArg Prod.fst hok
        simpa using h1
      have hdbF : dbF = db1 := by
        have h2 := congrArg Prod.snd hok
        simpa using h2
      subst hdbF
      unfold savePortfolioTx at htx
      simp only [] at htx
      rw [hcidEq] at htx
      split at htx
      · simp at htx
      split at htx
      · simp at htx
      · rename_i stF hpa
        injection htx with htx
        subst htx
        cases hfind : db0.companies.find? (fun c => c.adminId == adminId) with
        | some c =>
          rw [hfind] at hpa
          dsimp only at hpa
          have hcid2 : c.id = cid := by
            rw [← hcidEq]
            unfold companyIdOf
            rw [hfind]
          obtain ⟨hNS, hNdF, hPer⟩ := savePortfolioTx_establish_core o
            (db0.invitations.map (fun i => i.accessToken)) p now cid db0
            ({ db0 with companies := db0.companies.map (fun c2 =>
                if c2.id == cid then
                  { c2 with name := jsTrim p.companyName,
                            contactEmail := normContactEmail p.contactEmail }
                else c2) } : DB)
            0 stF rfl rfl rfl hA1 hA2 hA3 hB1 hB2 hC3 hD1 hD2 hpa
          have hfr := processApartments_frame2 _ _ _ _ _ _ _ _ hpa
          have hCompEq : stF.db.companies = db0.companies.map (fun c2 =>
              if c2.id == cid then
                { c2 with name := jsTrim p.companyName,
                          contactEmail := normContactEmail p.contactEmail }
              else c2) := by
            rw [hfr.1]
            exact (deleteStaleApartments_frame _ _ _).1
          have hfmap := find?_map_pred (fun c2 =>
              if c2.id == cid then
                { c2 with name := jsTrim p.companyName,
                          contactEmail := normContactEmail p.contactEmail }
              else c2)
            (fun c2 => c2.adminId == adminId)
            (fun x => by
              show (((if (x.id == cid) = true then
                { x with name := jsTrim p.companyName, contactEmail := normContactEmail p.contactEmail } else x) : RentalCompany).adminId == adminId) = (x.adminId == adminId)
              by_cases hcx : (x.id == cid) = true
              · rw [if_pos hcx]
              · rw [if_neg hcx])
            db0.companies
          rw [hfind] at hfmap
          refine ⟨hc, ?_, ?_, hNS, ?_, ?_, ?_, ?_, ?_, ?_, ?_⟩
          · refine ⟨if (c.id == cid) = true then
              ({ c with name := jsTrim p.companyName, contactEmail := normContactEmail p.contactEmail } : RentalCompany)
              else c, ?_, ?_⟩
            · rw [hCompEq, hfmap]
              rfl
            · rw [if_pos (by rw [hcid2]; exact beq_self_eq_true _)]
              exact hcid2
          · intro c' hc' hid
            rw [hCompEq] at hc'
            rw [List.mem_map] at hc'
            obtain ⟨x, hx, heq⟩ := hc'
            by_cases hcx : (x.id == cid) = true
            · rw [if_pos hcx] at heq
              rw [← heq]
              exact ⟨rfl, rfl⟩
            · rw [if_neg hcx] at heq
              rw [← heq] at hid
              exact absurd (show (x.id == cid) = true by rw [hid]; exact beq_self_eq_true _)
                hcx
          · exact fun a ha hnba => (hPer a ha hnba).1
          · exact fun a ha hnba => (hPer a ha hnba).2.1
          · exact fun a ha hnba => (hPer a ha hnba).2.2.1
          · exact fun a ha hnba u hu hnbu => ((hPer a ha hnba).2.2.2 u hu hnbu).1
          · exact fun a ha hnba u hu hnbu w hw hid =>
              (((hPer a ha hnba).2.2.2 u hu hnbu).2.1 w hw hid).2
          · exact fun a ha hnba u hu hnbu => ((hPer a ha hnba).2.2.2 u hu hnbu).2.2.1
          · intro a ha hnba u hu hnbu r hr hem hnm
            obtain ⟨tgt, hlk, hname⟩ :=
              ((hPer a ha hnba).2.2.2 u hu hnbu).2.2.2 r hr hem hnm
            refine ⟨tgt, hlk, ?_⟩
            intro i hi hid
            have htgtmem : tgt ∈ stF.db.invitations :=
              List.mem_of_mem_filter (lookupLast_mem _ _ tgt hlk).1
            have hit : i = tgt := List.inj_on_of_nodup_map hNdF hi htgtmem hid
            rw [hit, hname]
        | none =>
          rw [hfind] at hpa
          dsimp only at hpa
          have hcidu : cid = o.uuid 0 := by
            rw [← hcidEq]
            unfold companyIdOf
            rw [hfind]
          obtain ⟨hNS, hNdF, hPer⟩ := savePortfolioTx_establish_core o
            (db0.invitations.map (fun i => i.accessToken)) p now cid db0
            ({ db0 with companies := db0.companies ++
                [{ id := cid, name := jsTrim p.companyName,
                   contactEmail := normContactEmail p.contactEmail,
                   adminId := adminId, createdAt := now }] } : DB)
            1 stF rfl rfl rfl hA1 hA2 hA3 hB1 hB2 hC3 hD1 hD2 hpa
          have hfr := processApartments_frame2 _ _ _ _ _ _ _ _ hpa
          have hCompEq : stF.db.companies = db0.companies ++
              [{ id := cid, name := jsTrim p.companyName,
                 contactEmail := normContactEmail p.contactEmail,
                 adminId := adminId, createdAt := now }] := by
            rw [hfr.1]
            exact (deleteStaleApartments_frame _ _ _).1
          refine ⟨hc, ?_, ?_, hNS, ?_, ?_, ?_, ?_, ?_, ?_, ?_⟩
          · refine ⟨RentalCompany.mk cid (jsTrim p.companyName)
                (normContactEmail p.contactEmail) adminId now, ?_, rfl⟩
            rw [hCompEq]
            rw [find?_append_none _ _ _ hfind]
            exact List.find?_cons_of_pos _ (beq_self_eq_true _)
          · intro c' hc' hid
            rw [hCompEq] at hc'
            rw [List.mem_append] at hc'
            rcases hc' with hc' | hc'
            · exact absurd (show o.uuid 0 = c'.id by rw [← hcidu, hid]) (hD3 0 c' hc')
            · rw [List.mem_singleton] at hc'
              subst hc'
              exact ⟨rfl, rfl⟩
          · exact fun a ha hnba => (hPer a ha hnba).1
          · exact fun a ha hnba => (hPer a ha hnba).2.1
          · exact fun a ha hnba => (hPer a ha hnba).2.2.1
          · exact fun a ha hnba u hu hnbu => ((hPer a ha hnba).2.2.2 u hu hnbu).1
          · exact fun a ha hnba u hu hnbu w hw hid =>
              (((hPer a ha hnba).2.2.2 u hu hnbu).2.1 w hw hid).2
          · exact fun a ha hnba u hu hnbu => ((hPer a ha hnba).2.2.2 u hu hnbu).2.2.1
          · intro a ha hnba u hu hnbu r hr hem hnm
            obtain ⟨tgt, hlk, hname⟩ :=
              ((hPer a ha hnba).2.2.2 u hu hnbu).2.2.2 r hr hem hnm
            refine ⟨tgt, hlk, ?_⟩
            intro i hi hid
            have htgtmem : tgt ∈ stF.db.invitations :=
              List.mem_of_mem_filter (lookupLast_mem _ _ tgt hlk).1
            have hit : i = tgt := List.inj_on_of_nodup_map hNdF hi htgtmem hid
            rw [hit, hname]

theorem oFix_uuid_inj : ∀ j k : Nat, oFix.uuid j = oFix.uuid k → j = k := by
  intro j k h
  have h2 := congrArg String.data h
  have h3 : List.replicate (j + 1) 'u' = List.replicate (k + 1) 'u' := h2
  have h4 := congrArg List.length h3
  rw [List.length_replicate, List.length_replicate] at h4
  exact Nat.add_right_cancel h4

/-- **C2** (amended): re-running `savePortfolio` with the same payload is a
no-op.  This holds under side conditions violated by `paySameUnit` (see
`reconcile_not_idempotent`): the payload's building ids are distinct, its
unit ids are globally distinct across the payload (duplicate ids that hit
the update branch evade the primary-key check and churn invitations),
each unit's normalized renter emails are distinct, pre-existing rows
claimed by the payload belong to the right parent, the pre-state's primary
keys are unique and the first run's uuid stream is injective and fresh.
Under these conditions the first successful call leaves a converged state:
a second call with the same payload — under any oracle, at any time —
succeeds with the same company id and leaves the database exactly
unchanged, so ids, tokens and statuses are all preserved (only identical
values are rewritten). -/
theorem savePortfolio_idempotent (o1 o2 : Oracle) (adminId : String)
    (p : SavePortfolioInput) (now1 now2 : Nat) (db0 db1 : DB) (cid : String)
    (hA1 : (p.apartments.map (fun a => a.id)).Nodup)
    (hA2 : ((p.apartments.map (fun a => a.units.map (fun x => x.id))).flatten).Nodup)
    (hA3 : ∀ a ∈ p.apartments, ∀ u ∈ a.units,
      (u.renters.map (fun r => jsToLower (jsTrim r.email))).Nodup)
    (hB1 : ∀ b ∈ db0.apartments, b.id ∈ p.apartments.map (fun a => a.id) →
      b.companyId = cid)
    (hB2 : ∀ w ∈ db0.units, ∀ a ∈ p.apartments, w.id ∈ a.units.map (fun x => x.id) →
      w.apartmentId = a.id)
    (hC3 : (db0.invitations.map (fun i => i.id)).Nodup)
    (hD1 : ∀ k, ∀ i0 ∈ db0.invitations, o1.uuid k ≠ i0.id)
    (hD2 : ∀ j k, o1.uuid j = o1.uuid k → j = k)
    (hD3 : ∀ k, ∀ c0 ∈ db0.companies, o1.uuid k ≠ c0.id)
    (hok : savePortfolio o1 adminId p now1 db0 = (.ok cid, db1)) :
    savePortfolio o2 adminId p now2 db1 = (.ok cid, db1) :=
  idemReady_stable o2 adminId p now2 cid db1
    (savePortfolio_establishes o1 adminId p now1 db0 db1 cid
      hA1 hA2 hA3 hB1 hB2 hC3 hD1 hD2 hD3 hok)

/-- Witness for C2: saving `payOne` on the empty database and immediately
re-saving it (with fresh random draws) returns the same company id and the
identical database state. -/
theorem savePortfolio_idempotent_witness :
    savePortfolio oFix2 "adm" payOne 2 (savePortfolio oFix "adm" payOne 1 dbEmpty).2 =
      (.ok "u", (savePortfolio oFix "adm" payOne 1 dbEmpty).2) :=
  savePortfolio_idempotent oFix oFix2 "adm" payOne 1 2 dbEmpty
    (savePortfolio oFix "adm" payOne 1 dbEmpty).2 "u"
    (by decide) (by decide) (by decide) (by decide) (by decide) (by decide)
    (fun k i0 h => absurd h (List.not_mem_nil i0))
    oFix_uuid_inj
    (fun k c0 h => absurd h (List.not_mem_nil c0))
    (by rfl)

/-! ## C1 — global token uniqueness -/

theorem processRenter_tokens (o : Oracle) (snap : List String) (now : Nat) (uid : String)
    (ex : List RenterInvitation) :
    ∀ r st st', processRenter o snap now uid ex r st = .ok st' →
      (st.db.invitations.map (fun i => i.accessToken)).Nodup →
      (st'.db.invitations.map (fun i => i.accessToken)).Nodup := by
  intro r st st' h hn
  have h0 := h
  unfold processRenter at h
  by_cases hb : (jsToLower (jsTrim r.email) = "" ∨ jsTrim r.fullName = "")
  · rw [if_pos hb] at h
    injection h with h
    rw [← h]
    exact hn
  · rw [if_neg hb] at h
    cases hl : lookupLast ex (jsToLower (jsTrim r.email)) with
    | some einv =>
      rw [hl] at h
      injection h with h
      rw [← h]
      show ((st.db.invitations.map (fun i =>
        if i.id == einv.id then { i with renterName := jsTrim r.fullName } else i)).map
          (fun i => i.accessToken)).Nodup
      rw [map_ids_of_preserve _ _ _ ?_]
      · exact hn
      · intro x
        by_cases hc : (x.id == einv.id) = true
        · rw [if_pos hc]
        · rw [if_neg hc]
    | none =>
      rw [hl] at h
      cases hres : reserveAccessToken o snap 10 st.t with
      | error e => rw [hres] at h; simp at h
      | ok pr =>
        obtain ⟨tok, t'⟩ := pr
        obtain ⟨hg1, hg2, hs'⟩ :=
          processRenter_insert_elim o snap now uid ex r st st' tok t' hb hl hres h0
        rw [hs']
        show (((st.db.invitations ++
          [({ id := o.uuid st.u, unitId := uid, renterName := jsTrim r.fullName,
              renterEmail := jsToLower (jsTrim r.email), accessToken := tok,
              status := "pending", createdAt := now,
              activatedAt := none } : RenterInvitation)]).map
            (fun i => i.accessToken)).Nodup)
        rw [List.map_append, List.nodup_append]
        refine ⟨hn, List.nodup_singleton _, ?_⟩
        intro x hx hx2
        rw [List.mem_map] at hx
        obtain ⟨i, hi, hxtok⟩ := hx
        have hx3 : x = tok := by simpa using hx2
        have hany : st.db.invitations.any (fun i2 => i2.accessToken == tok) = true := by
          refine List.any_eq_true.mpr ⟨i, hi, ?_⟩
          rw [hxtok, hx3]
          exact beq_self_eq_true _
        rw [hg2] at hany
        exact Bool.false_ne_true hany

theorem processUnit_tokens (o : Oracle) (snap : List String) (now : Nat) (aid : String)
    (exIds : List String) :
    ∀ u st st', processUnit o snap now aid exIds u st = .ok st' →
      (st.db.invitations.map (fun i => i.accessToken)).Nodup →
      (st'.db.invitations.map (fun i => i.accessToken)).Nodup := by
  intro u st st' h hn
  unfold processUnit at h
  by_cases hb : jsTrim u.unitNumber = ""
  · rw [if_pos hb] at h
    injection h with h
    rw [← h]
    exact hn
  · rw [if_neg hb] at h
    split at h
    · simp at h
    refine processRenters_ind o snap now u.id _ (fun s =>
      (s.db.invitations.map (fun i => i.accessToken)).Nodup)
      (processRenter_tokens o snap now u.id _) u.renters _ st' h ?_
    refine List.Nodup.sublist
      ((deleteStaleInvites_sublist _ _ _).map (fun i => i.accessToken)) ?_
    revert hn
    split <;> (intro hn; exact hn)

theorem processApartment_tokens (o : Oracle) (snap : List String) (now : Nat) (cid : String)
    (exIds : List String) :
    ∀ a st st', processApartment o snap now cid exIds a st = .ok st' →
      (st.db.invitations.map (fun i => i.accessToken)).Nodup →
      (st'.db.invitations.map (fun i => i.accessToken)).Nodup := by
  intro a st st' h hn
  unfold processApartment at h
  by_cases hb : jsTrim a.name = ""
  · rw [if_pos hb] at h
    injection h with h
    rw [← h]
    exact hn
  · rw [if_neg hb] at h
    split at h
    · simp at h
    refine processUnits_ind o snap now a.id _ (fun s =>
      (s.db.invitations.map (fun i => i.accessToken)).Nodup)
      (processUnit_tokens o snap now a.id _) a.units _ st' h ?_
    refine List.Nodup.sublist
      ((deleteStaleUnits_inv_sublist _ _ _).map (fun i => i.accessToken)) ?_
    revert hn
    split <;> (intro hn; exact hn)

/-- One `savePortfolio` call preserves pairwise-distinct access tokens:
matched-email updates rewrite only the renter name, the stale sweeps only
remove rows, and the insert branch is guarded by the unique index
`renter_access_token_unique`, whose violation aborts the transaction. -/
theorem savePortfolio_tokens (o : Oracle) (adminId : String) (p : SavePortfolioInput)
    (now : Nat) (db0 : DB) (h : tokensUnique db0) :
    tokensUnique (savePortfolio o adminId p now db0).2 := by
  unfold tokensUnique at h ⊢
  unfold savePortfolio
  by_cases hc : jsTrim p.companyName = ""
  · rw [if_pos hc]
    exact h
  · rw [if_neg hc]
    cases htx : savePortfolioTx o adminId p now db0 with
    | error e => exact h
    | ok dbF =>
      show (dbF.invitations.map (fun i => i.accessToken)).Nodup
      unfold savePortfolioTx at htx
      simp only [] at htx
      split at htx
      · simp at htx
      split at htx
      · simp at htx
      · rename_i st hpa
        injection htx with htx
        rw [← htx]
        refine processApartments_ind o _ now _ _ (fun s =>
          (s.db.invitations.map (fun i => i.accessToken)).Nodup)
          (processApartment_tokens o _ now _ _) p.apartments _ st hpa ?_
        refine List.Nodup.sublist
          ((deleteStaleApartments_inv_sublist _ _ _).map (fun i => i.accessToken)) ?_
        cases db0.companies.find? (fun c => c.adminId == adminId) with
        | some c => exact h
        | none => exact h

/-- **C1**: global token uniqueness.  The unique index
`renter_access_token_unique` on `renter_invitations(access_token)`,
created by the repository's token migration, makes every `INSERT` of a
duplicate token abort its transaction; updates never touch tokens and the
stale sweeps only remove rows.  So across every sequence of reconcile
calls, starting from any state whose invitation tokens are pairwise
distinct, the committed invitation table always holds pairwise distinct
access tokens: two distinct coexisting invitations never share a token.
(Deleting an invitation frees its token for later reallocation, which the
claim permits.) -/
theorem reconcile_token_unique (calls : List (Oracle × String × SavePortfolioInput × Nat))
    (db : DB) (h : tokensUnique db) :
    tokensUnique (savePortfolioMany calls db) ∧
    ∀ i1 ∈ (savePortfolioMany calls db).invitations,
      ∀ i2 ∈ (savePortfolioMany calls db).invitations,
        i1.accessToken = i2.accessToken → i1 = i2 := by
  have hmain : tokensUnique (savePortfolioMany calls db) := by
    induction calls generalizing db with
    | nil => exact h
    | cons c cs ih => exact ih _ (savePortfolio_tokens c.1 c.2.1 c.2.2.1 c.2.2.2 db h)
  refine ⟨hmain, ?_⟩
  intro i1 h1 i2 h2 htok
  exact List.inj_on_of_nodup_map hmain h1 h2 htok

/-- Witness for C1: two reconcile calls over the empty database (whose
token multiset is trivially duplicate-free). -/
theorem reconcile_token_unique_witness :
    tokensUnique (savePortfolioMany [(oFix, "adm", payOne, 1), (oFix2, "adm", payTwo, 2)]
      dbEmpty) ∧
    ∀ i1 ∈ (savePortfolioMany [(oFix, "adm", payOne, 1), (oFix2, "adm", payTwo, 2)]
        dbEmpty).invitations,
      ∀ i2 ∈ (savePortfolioMany [(oFix, "adm", payOne, 1), (oFix2, "adm", payTwo, 2)]
          dbEmpty).invitations,
        i1.accessToken = i2.accessToken → i1 = i2 :=
  reconcile_token_unique [(oFix, "adm", payOne, 1), (oFix2, "adm", payTwo, 2)] dbEmpty
    (by unfold tokensUnique; decide)
